import Mathlib

/-!
# Type layout and trace synthesis of `libponyc/codegen/gentype.c`

A shallow embedding of `gentype.c` and proofs about it.

* The type AST (`ast_t`) is a tree of tokens; `ast_data` of a nominal type is a
  pointer to its definition, modelled as an index in the table of definitions
  of the program (`Env.defs`), so that definitions can refer to each other.
* The LLVM side is the part of the LLVM state the file touches: the named
  struct types of the context of `c->module` (looked up by name with
  `LLVMGetTypeByName`, created opaque by `LLVMStructCreateNamed`, completed by
  `LLVMStructSetBody`), the functions of the module, and the position of the
  instruction builder. A `LLVMTypeRef` to a named struct is the identity of that
  struct (its index in creation order), not its name or its body.
* Functions that can recurse without bound (`gentype` through `make_struct`)
  take a recursion budget; `Outcome.nofuel` is the budget running out.
* A failing `assert` is `Outcome.abort` when the file is compiled with
  assertions; compiled with `NDEBUG` (`Env.ndebug`) an `assert` is nothing and
  the statement after it runs. A NULL dereference or a NULL string handed to
  LLVM is `Outcome.undef`, and a returned NULL is `Outcome.ret (none, c)`.
-/

namespace Ponyc

/-! ## Tokens and the type AST -/

/-- Token identifiers that `gentype.c` dispatches on; every other token is
`TK_OTHER`. -/
inductive token_id where
  | TK_UNIONTYPE
  | TK_ISECTTYPE
  | TK_TUPLETYPE
  | TK_NOMINAL
  | TK_STRUCTURAL
  | TK_TRAIT
  | TK_DATA
  | TK_CLASS
  | TK_ACTOR
  | TK_FVAR
  | TK_FLET
  | TK_TAG
  | TK_OTHER (n : Nat)
  deriving DecidableEq, Repr

open token_id

/-- An AST node: its token id, the string of its token (`ast_name`), its data
pointer (an index in the table of definitions, `none` for NULL), its type
annotation (`ast_type`, `none` for NULL) and its children in sibling order. -/
inductive ast_t where
  | node (id : token_id) (name : String) (data : Option Nat)
      (type : Option ast_t) (children : List ast_t)

/-- The token id of a node: `ast_id`. -/
def ast_id : ast_t → token_id
  | .node id _ _ _ _ => id

/-- The string of the token of a node: `ast_name`. -/
def ast_name : ast_t → String
  | .node _ name _ _ _ => name

/-- The type annotation of a node: `ast_type`. -/
def ast_type : ast_t → Option ast_t
  | .node _ _ _ type _ => type

/-- The children of a node, first child first: the chain `ast_child`,
`ast_sibling`, ... up to NULL. -/
def ast_children : ast_t → List ast_t
  | .node _ _ _ _ children => children

/-- The child at an index, NULL (`none`) when there is none: `ast_childidx`. -/
def ast_childidx (ast : ast_t) (idx : Nat) : Option ast_t :=
  (ast_children ast)[idx]?

/-- The number of children: `ast_childcount`. -/
def ast_childcount (ast : ast_t) : Nat :=
  (ast_children ast).length

/-! ## The LLVM state -/

/-- A handle on an LLVM type. `struct id` is the named struct type created
`id`-th in the context: two handles on named structs are equal exactly when
they point to the same struct. `other` stands for any type set up outside
`gentype.c`. -/
inductive LLVMTypeRef where
  | int (bits : Nat)
  | half
  | float
  | double
  | struct (id : Nat)
  | pointer (elem : LLVMTypeRef)
  | other (n : Nat)
  deriving DecidableEq, Repr

/-- A struct type of the context created by `LLVMStructCreateNamed`: the name
it was created under (a struct created under the empty name has no name) and
its body, `none` while the struct is opaque (created, body not set). -/
structure StructType where
  name : String
  body : Option (List LLVMTypeRef)
  deriving DecidableEq, Repr

/-- Instructions that `make_trace` puts in a trace function. The operand
`field` of a trace call is the result of the `structGEP` of the slot, written
as the slot index. -/
inductive Instr where
  | bitcast (ty : LLVMTypeRef)
  | structGEP (idx : Nat)
  | traceknown (field : Nat) (callee : Option String)
  | traceunknown (field : Nat)
  | tracetag (field : Nat)
  | traceactor (field : Nat)
  | retVoid
  deriving DecidableEq, Repr

/-- A function of the module: the name it was created under (the name handed
to `LLVMAddFunction`, which LLVM makes unique by a suffix when the module has a
function of that name) and the instructions of its entry block. -/
structure Function where
  name : String
  body : List Instr
  deriving DecidableEq, Repr

/-- The compile context `compile_t` with the LLVM state reachable from it: the
named struct types of the context of `c->module` in creation order, the
functions of `c->module` in creation order, the function at the end of whose
entry block `c->builder` is positioned, and the two handles `c->descriptor_ptr`
and `c->object_ptr`. -/
structure compile_t where
  types : List StructType
  functions : List Function
  builder : Option Nat
  descriptor_ptr : LLVMTypeRef
  object_ptr : LLVMTypeRef
  deriving DecidableEq, Repr

/-- How a call ends: it returns a value, a failing `assert` aborts the process
(in a build with assertions), the behaviour is undefined (NULL dereference,
NULL string given to LLVM), or the recursion budget of the model is used
up. -/
inductive Outcome (α : Type) where
  | ret (v : α)
  | abort
  | undef
  | nofuel
  deriving DecidableEq, Repr

/-- Sequencing: continue with the returned value, keep any other ending. -/
def Outcome.bind {α β : Type} (x : Outcome α) (f : α → Outcome β) : Outcome β :=
  match x with
  | .ret v => f v
  | .abort => .abort
  | .undef => .undef
  | .nofuel => .nofuel

/-- What `gentype` and its helpers give back: the returned handle (`none` for
NULL) and the compile state they leave. -/
abbrev GenResult := Outcome (Option LLVMTypeRef × compile_t)

/-- The collaborators of `gentype.c` that live in other files: the table of
definitions that data pointers refer to, `is_bool` (subtype.h), `cap_for_type`
(cap.h), `genname_type` and `genname_fun` (genname.h), `reify` (reify.h) and
`codegen_finishfun` (codegen.h); and the one build setting the file reads,
whether `NDEBUG` is defined, which makes every `assert` an empty statement. -/
structure Env where
  defs : List ast_t
  is_bool : ast_t → Bool
  cap_for_type : ast_t → token_id
  genname_type : ast_t → Option String
  genname_fun : String → String → String
  reify : Option ast_t → Option ast_t → Option ast_t → ast_t
  codegen_finishfun : compile_t → Nat → Bool
  ndebug : Bool

/-- The data pointer of a node followed into the table of definitions:
`ast_data`. -/
def ast_data (E : Env) : ast_t → Option ast_t
  | .node _ _ (some k) _ _ => E.defs[k]?
  | .node _ _ none _ _ => none

/-- The name table of the context: index of the first struct type that is
entered under the given name. A struct with the empty name is not in the table
(LLVM gives a struct a name, and enters it in the table, only when the name is
not empty), so the empty name finds nothing. -/
def find_struct (name : String) : List StructType → Option Nat
  | [] => none
  | s :: rest =>
    if s.name = name ∧ name ≠ "" then some 0
    else (find_struct name rest).map (· + 1)

/-- Change the element at an index, leave a list without that index as it
is. -/
def update_at {α : Type} (f : α → α) : Nat → List α → List α
  | _, [] => []
  | 0, a :: l => f a :: l
  | n + 1, a :: l => a :: update_at f n l

/-- Lookup of a named struct type in the context of the module:
`LLVMGetTypeByName(c->module, name)`, NULL when no struct has that name. -/
def LLVMGetTypeByName (c : compile_t) (name : String) : Option LLVMTypeRef :=
  (find_struct name c.types).map LLVMTypeRef.struct

/-- Creation of an opaque named struct type in the context:
`LLVMStructCreateNamed`. With a name that is not empty the new struct is
visible to `LLVMGetTypeByName` from this point on; with the empty name the
struct is created without a name and no lookup finds it (`find_struct`).
(LLVM renames a struct whose name is taken; `gentype.c` only creates a struct
after the lookup of its name has failed, and a name that is not empty and not
found is not taken.) -/
def LLVMStructCreateNamed (c : compile_t) (name : String) :
    LLVMTypeRef × compile_t :=
  (.struct c.types.length, { c with types := c.types ++ [⟨name, none⟩] })

/-- Completion of a struct with its element types: `LLVMStructSetBody`. -/
def LLVMStructSetBody (c : compile_t) (type : LLVMTypeRef)
    (elements : List LLVMTypeRef) : compile_t :=
  match type with
  | .struct id =>
    { c with types := update_at (fun s => { s with body := some elements }) id c.types }
  | _ => c

/-- Pointer type in address space 0: `LLVMPointerType(type, 0)`. -/
def LLVMPointerType (type : LLVMTypeRef) : LLVMTypeRef :=
  .pointer type

/-- A new function with an empty entry block at the end of the module:
`LLVMAddFunction` followed by `LLVMAppendBasicBlock`. -/
def LLVMAddFunction (c : compile_t) (name : String) : Nat × compile_t :=
  (c.functions.length, { c with functions := c.functions ++ [⟨name, []⟩] })

/-- Position the builder at the end of the entry block of a function:
`LLVMPositionBuilderAtEnd`. -/
def LLVMPositionBuilderAtEnd (c : compile_t) (fn : Nat) : compile_t :=
  { c with builder := some fn }

/-- Append one instruction where the builder is positioned. -/
def builder_emit (c : compile_t) (i : Instr) : compile_t :=
  match c.builder with
  | some fn =>
    { c with functions := update_at (fun f => { f with body := f.body ++ [i] }) fn c.functions }
  | none => c

/-- The cast of the argument to a pointer to the layout: `LLVMBuildBitCast`. -/
def LLVMBuildBitCast (c : compile_t) (ty : LLVMTypeRef) : compile_t :=
  builder_emit c (.bitcast ty)

/-- The address of a slot of the object: `LLVMBuildStructGEP`. The value it
returns is identified with the slot index. -/
def LLVMBuildStructGEP (c : compile_t) (idx : Nat) : Nat × compile_t :=
  (idx, builder_emit c (.structGEP idx))

/-- The return of the trace function: `LLVMBuildRetVoid`. -/
def LLVMBuildRetVoid (c : compile_t) : compile_t :=
  builder_emit c .retVoid

/-- Modelled from the spec: `gencall.c` is not part of the sources; the spec
gives `emitKnownTrace(fieldSlot, calleeLayoutName)` as a backend primitive that
appends one traversal instruction. -/
def gencall_traceknown (c : compile_t) (field : Nat) (name : Option String) :
    compile_t :=
  builder_emit c (.traceknown field name)

/-- Modelled from the spec: `gencall.c` is not part of the sources; the spec
gives `emitUnknownTrace(fieldSlot)` as a backend primitive that appends one
traversal instruction. -/
def gencall_traceunknown (c : compile_t) (field : Nat) : compile_t :=
  builder_emit c (.traceunknown field)

/-- Modelled from the spec: `gencall.c` is not part of the sources; the spec
gives `emitTagTrace(fieldSlot)` as a backend primitive that appends one
traversal instruction. -/
def gencall_tracetag (c : compile_t) (field : Nat) : compile_t :=
  builder_emit c (.tracetag field)

/-- Modelled from the spec: `gencall.c` is not part of the sources; the spec
gives `emitActorTrace(fieldSlot)` as a backend primitive that appends one
traversal instruction. -/
def gencall_traceactor (c : compile_t) (field : Nat) : compile_t :=
  builder_emit c (.traceactor field)

/-! ## `make_trace` -/

/-- How a pass through the body of the `for` loop of `make_trace` ends: the
loop goes on to the next field (`next`), or a `return NULL` inside the loop
leaves `make_trace` at once (`stop`). -/
inductive TraceStep where
  | next (c : compile_t)
  | stop (c : compile_t)

/-- The body of the `for` loop of `make_trace` for the field `fields[i]`: the
address of slot `i + 1`, then the `switch` on the shape of the field. The two
`default:` branches are `assert(0); return NULL;`: an abort with assertions,
and with `NDEBUG` the `return NULL` out of `make_trace`. -/
def make_trace_field (E : Env) (c : compile_t) (i : Nat) (ast : ast_t) :
    Outcome TraceStep :=
  let (field, c) := LLVMBuildStructGEP c (i + 1)
  match ast_id ast with
  | TK_UNIONTYPE =>
    if !E.is_bool ast then
      let tag : Bool := E.cap_for_type ast = TK_TAG
      if tag then
        -- TODO: are we really a tag? need runtime info
        .ret (.next c)
      else
        .ret (.next (gencall_traceunknown c field))
    else
      .ret (.next c)
  | TK_TUPLETYPE => .ret (.next (gencall_traceknown c field (E.genname_type ast)))
  | TK_NOMINAL =>
    let tag : Bool := E.cap_for_type ast = TK_TAG
    match ast_data E ast with
    | none => .undef
    | some d =>
      match ast_id d with
      | TK_TRAIT =>
        if tag then .ret (.next (gencall_tracetag c field))
        else .ret (.next (gencall_traceunknown c field))
      | TK_DATA => .ret (.next c)
      | TK_CLASS =>
        if tag then .ret (.next (gencall_tracetag c field))
        else .ret (.next (gencall_traceknown c field (E.genname_type ast)))
      | TK_ACTOR => .ret (.next (gencall_traceactor c field))
      | _ => if E.ndebug then .ret (.stop c) else .abort
  | TK_ISECTTYPE | TK_STRUCTURAL =>
    let tag : Bool := E.cap_for_type ast = TK_TAG
    if tag then .ret (.next (gencall_tracetag c field))
    else .ret (.next (gencall_traceunknown c field))
  | _ => if E.ndebug then .ret (.stop c) else .abort

/-- The `for` loop of `make_trace` from index `i` on: `next` when the loop has
run through all fields, `stop` when a pass returned NULL out of
`make_trace`. -/
def make_trace_loop (E : Env) : compile_t → Nat → List ast_t → Outcome TraceStep
  | c, _, [] => .ret (.next c)
  | c, i, ast :: rest =>
    (make_trace_field E c i ast).bind fun s =>
      match s with
      | .next c1 => make_trace_loop E c1 (i + 1) rest
      | .stop c1 => .ret (.stop c1)

/-- Creation of the trace function of a layout: `make_trace`. Returns the new
function (its index in the module), or NULL when `codegen_finishfun` rejects
it, or NULL from inside the loop (then the function is left as it is, without
its `ret void` and without the call of `codegen_finishfun`). -/
def make_trace (E : Env) (c : compile_t) (name : String) (type : LLVMTypeRef)
    (fields : List ast_t) : Outcome (Option Nat × compile_t) :=
  let trace_name := E.genname_fun name "$trace"
  let (trace_fn, c) := LLVMAddFunction c trace_name
  let c := LLVMPositionBuilderAtEnd c trace_fn
  let type_ptr := LLVMPointerType type
  let c := LLVMBuildBitCast c type_ptr
  (make_trace_loop E c 0 fields).bind fun s =>
    match s with
    | .stop c => .ret (none, c)
    | .next c =>
      let c := LLVMBuildRetVoid c
      if !E.codegen_finishfun c trace_fn then .ret (none, c)
      else .ret (some trace_fn, c)

/-! ## `make_struct` -/

/-- The `for` loop of `make_struct`: the element types gathered so far are
`elements`; each remaining field is resolved with `gentype` (the argument
`gt`), and the first NULL ends the loop with NULL. -/
def make_struct_loop (gt : compile_t → ast_t → GenResult) :
    compile_t → List LLVMTypeRef → List ast_t →
      Outcome (Option (List LLVMTypeRef) × compile_t)
  | c, elements, [] => .ret (some elements, c)
  | c, elements, f :: rest =>
    (gt c f).bind fun r =>
      match r with
      | (none, c1) => .ret (none, c1)
      | (some t, c1) => make_struct_loop gt c1 (elements ++ [t]) rest

/-- Construction of a layout and of its trace function: `make_struct`. -/
def make_struct (E : Env) (gt : compile_t → ast_t → GenResult) (c : compile_t)
    (name : String) (fields : List ast_t) : GenResult :=
  let (type, c) := LLVMStructCreateNamed c name
  -- create the type descriptor as element 0
  (make_struct_loop gt c [c.descriptor_ptr] fields).bind fun r =>
    match r with
    | (none, c) => .ret (none, c)
    | (some elements, c) =>
      let c := LLVMStructSetBody c type elements
      (make_trace E c name type fields).bind fun t =>
        match t with
        | (none, c) => .ret (none, c)
        | (some _, c) => .ret (some type, c)

/-! ## `get_fields` and `make_object` -/

/-- Whether a member is a field: `TK_FVAR` or `TK_FLET`. -/
def is_field (member : ast_t) : Bool :=
  match ast_id member with
  | TK_FVAR | TK_FLET => true
  | _ => false

/-- The first loop of `get_fields`: every `TK_FVAR` or `TK_FLET` among the
members from the current one on adds one to `n`. -/
def get_fields_count : List ast_t → Nat → Nat
  | [], n => n
  | member :: rest, n =>
    match ast_id member with
    | TK_FVAR | TK_FLET => get_fields_count rest (n + 1)
    | _ => get_fields_count rest n

/-- The second loop of `get_fields`: every `TK_FVAR` or `TK_FLET` among the
members from the current one on stores its reified type at `fields[index]`
and advances `index`. -/
def get_fields_fill (E : Env) (typeparams typeargs : Option ast_t) :
    List ast_t → List (Option ast_t) → Nat → List (Option ast_t)
  | [], fields, _ => fields
  | member :: rest, fields, index =>
    match ast_id member with
    | TK_FVAR | TK_FLET =>
      get_fields_fill E typeparams typeargs rest
        (fields.set index (some (E.reify (ast_type member) typeparams typeargs)))
        (index + 1)
    | _ => get_fields_fill E typeparams typeargs rest fields index

/-- The array of field pointers read as the list of fields. An entry that is
still NULL is a pointer that `gentype` and `make_trace` dereference. -/
def field_array : List (Option ast_t) → Outcome (List ast_t)
  | [] => .ret []
  | none :: _ => .undef
  | some f :: rest => (field_array rest).bind fun l => .ret (f :: l)

/-- The reified field types of a nominal type: `get_fields`. A data definition
has no fields. The array comes zeroed from `calloc`, with one entry per field
counted by the first loop; its length is the out-parameter `count`. The first
statement is `assert(ast_id(ast) == TK_NOMINAL)`. -/
def get_fields (E : Env) (ast : ast_t) : Outcome (List ast_t) :=
  if ast_id ast ≠ TK_NOMINAL ∧ E.ndebug = false then .abort
  else
    match ast_data E ast with
    | none => .undef
    | some d =>
      if ast_id d = TK_DATA then .ret []
      else
        let typeargs := ast_childidx ast 2
        let typeparams := ast_childidx d 1
        match ast_childidx d 4 with
        | none => .undef
        | some members =>
          let n := get_fields_count (ast_children members) 0
          let fields : List (Option ast_t) := List.replicate n none
          let fields :=
            get_fields_fill E typeparams typeargs (ast_children members) fields 0
          field_array fields

/-- Lookup or construction of the layout of a nominal type: `make_object`.
The middle component is the out-parameter `exists`, `none` when it is not
written. (`free_fields` releases memory and has no other effect.) -/
def make_object (E : Env) (gt : compile_t → ast_t → GenResult) (c : compile_t)
    (ast : ast_t) : Outcome (Option LLVMTypeRef × Option Bool × compile_t) :=
  match E.genname_type ast with
  | none => .ret (none, none, c)
  | some name =>
    match LLVMGetTypeByName c name with
    | some type => .ret (some (LLVMPointerType type), some true, c)
    | none =>
      (get_fields E ast).bind fun fields =>
        (make_struct E gt c name fields).bind fun r =>
          match r with
          | (none, c) => .ret (none, none, c)
          | (some type, c) => .ret (some (LLVMPointerType type), some false, c)

/-! ## The dispatchers -/

/-- Resolution of a data type: `gentype_data`. -/
def gentype_data (E : Env) (gt : compile_t → ast_t → GenResult) (c : compile_t)
    (ast : ast_t) : GenResult :=
  match ast_childidx ast 1 with
  | none => .undef
  | some id =>
    let name := ast_name id
    if name = "True" ∨ name = "False" then .ret (some (.int 1), c)
    else if name = "I8" ∨ name = "U8" then .ret (some (.int 8), c)
    else if name = "I16" ∨ name = "U16" then .ret (some (.int 16), c)
    else if name = "I32" ∨ name = "U32" then .ret (some (.int 32), c)
    else if name = "I64" ∨ name = "U64" then .ret (some (.int 64), c)
    else if name = "I128" ∨ name = "U128" then .ret (some (.int 128), c)
    else if name = "F16" then .ret (some .half, c)
    else if name = "F32" then .ret (some .float, c)
    else if name = "F64" then .ret (some .double, c)
    else
      (make_object E gt c ast).bind fun r =>
        match r with
        | (type, exists_, c) =>
          if exists_ = some true ∨ type = none then .ret (type, c)
          else
            -- TODO: create a type descriptor, singleton instance if not a primitive
            .ret (type, c)

/-- Resolution of a class type: `gentype_class`. -/
def gentype_class (E : Env) (gt : compile_t → ast_t → GenResult) (c : compile_t)
    (ast : ast_t) : GenResult :=
  (make_object E gt c ast).bind fun r =>
    match r with
    | (type, exists_, c) =>
      if exists_ = some true ∨ type = none then .ret (type, c)
      else
        -- TODO: create a type descriptor
        .ret (type, c)

/-- Resolution of an actor type: `gentype_actor`. -/
def gentype_actor (E : Env) (gt : compile_t → ast_t → GenResult) (c : compile_t)
    (ast : ast_t) : GenResult :=
  (make_object E gt c ast).bind fun r =>
    match r with
    | (type, exists_, c) =>
      if exists_ = some true ∨ type = none then .ret (type, c)
      else
        -- TODO: create an actor descriptor, message type function, dispatch function
        .ret (type, c)

/-- Resolution of a nominal type by the kind of its definition:
`gentype_nominal`. The first statement is
`assert(ast_id(ast) == TK_NOMINAL)`, the `default:` branch is
`assert(0); return NULL;`. -/
def gentype_nominal (E : Env) (gt : compile_t → ast_t → GenResult)
    (c : compile_t) (ast : ast_t) : GenResult :=
  if ast_id ast ≠ TK_NOMINAL ∧ E.ndebug = false then .abort
  else
    match ast_data E ast with
    | none => .undef
    | some d =>
      match ast_id d with
      | TK_TRAIT => .ret (some c.object_ptr, c)
      | TK_DATA => gentype_data E gt c ast
      | TK_CLASS => gentype_class E gt c ast
      | TK_ACTOR => gentype_actor E gt c ast
      | _ => if E.ndebug then .ret (none, c) else .abort

/-- Resolution of a tuple type: `gentype_tuple`. The name is handed to
`LLVMGetTypeByName` as it comes from `genname_type`, NULL included. -/
def gentype_tuple (E : Env) (gt : compile_t → ast_t → GenResult) (c : compile_t)
    (ast : ast_t) : GenResult :=
  match E.genname_type ast with
  | none => .undef
  | some name =>
    match LLVMGetTypeByName c name with
    | some type => .ret (some (LLVMPointerType type), c)
    | none =>
      let fields := ast_children ast
      (make_struct E gt c name fields).bind fun r =>
        match r with
        | (none, c) => .ret (none, c)
        | (some type, c) => .ret (some (LLVMPointerType type), c)

/-- The body of `gentype`, its recursive calls going through `gt`. The
`default:` branch is `assert(0); return NULL;`. -/
def gentype_body (E : Env) (gt : compile_t → ast_t → GenResult) (c : compile_t)
    (ast : ast_t) : GenResult :=
  match ast_id ast with
  | TK_UNIONTYPE =>
    if E.is_bool ast then .ret (some (.int 1), c)
    else .ret (some c.object_ptr, c)
  | TK_ISECTTYPE => .ret (some c.object_ptr, c)
  | TK_TUPLETYPE => gentype_tuple E gt c ast
  | TK_NOMINAL => gentype_nominal E gt c ast
  | TK_STRUCTURAL => .ret (some c.object_ptr, c)
  | _ => if E.ndebug then .ret (none, c) else .abort

/-- The backend type of a type AST: `gentype`. The first argument bounds the
depth of the recursion through `make_struct`. -/
def gentype (E : Env) : Nat → compile_t → ast_t → GenResult
  | 0 => fun _ _ => .nofuel
  | n + 1 => fun c ast => gentype_body E (gentype E n) c ast

/-! ## Vocabulary of the statements -/

/-- The fixed table of the primitive resolver, written after the wording of the
specification: `True`, `False` are 1-bit, `I8`/`U8` 8-bit, `I16`/`U16` 16-bit,
`I32`/`U32` 32-bit, `I64`/`U64` 64-bit, `I128`/`U128` 128-bit integers, `F16`,
`F32`, `F64` half, single and double precision floats. -/
def builtin_table : List (String × LLVMTypeRef) :=
  [("True", .int 1), ("False", .int 1),
   ("I8", .int 8), ("U8", .int 8),
   ("I16", .int 16), ("U16", .int 16),
   ("I32", .int 32), ("U32", .int 32),
   ("I64", .int 64), ("U64", .int 64),
   ("I128", .int 128), ("U128", .int 128),
   ("F16", .half), ("F32", .float), ("F64", .double)]

/-- The primitive resolver of the specification: the scalar of a built-in
name, `none` (NotFound) for every other name. -/
def resolveBuiltin (name : String) : Option LLVMTypeRef :=
  (builtin_table.find? fun e => decide (e.1 = name)).map Prod.snd

/-- The kind of the definition of a nominal type: the token id of `ast_data`,
`none` when the data pointer is NULL. -/
def def_kind (E : Env) (ast : ast_t) : Option token_id :=
  (ast_data E ast).map ast_id

/-- The name that `gentype_data` compares with the built-in names: the string
of child 1 of the nominal type. -/
def nominal_name (ast : ast_t) : Option String :=
  (ast_childidx ast 1).map ast_name

/-- Instructions appended one after the other where the builder stands. -/
def emit_list (c : compile_t) (is : List Instr) : compile_t :=
  is.foldl builder_emit c

/-- A state with a single empty function and the builder in it, on which a
piece of `make_trace` is run to read off the instructions it emits. -/
def probe_ctx : compile_t :=
  ⟨[], [⟨"", []⟩], some 0, .other 0, .other 0⟩

/-- The instructions of the first function of a state. -/
def emitted (c : compile_t) : List Instr :=
  match c.functions with
  | f :: _ => f.body
  | [] => []

/-- The instructions that a full pass through the loop body of `make_trace`
emits for the field `fields[i]`. A field whose shape the `switch` has no case
for has no full pass, in either build: it is `abort` here, as it is with
assertions (what `make_trace_field` does with `NDEBUG` is in
`make_trace_field_eq`). -/
def field_trace (E : Env) (i : Nat) (ast : ast_t) : Outcome (List Instr) :=
  (make_trace_field E probe_ctx i ast).bind fun s =>
    match s with
    | .next c => .ret (emitted c)
    | .stop _ => .abort

/-- The instructions that the loop of `make_trace` emits from index `i` on. -/
def loop_trace (E : Env) : Nat → List ast_t → Outcome (List Instr)
  | _, [] => .ret []
  | i, ast :: rest =>
    (field_trace E i ast).bind fun a =>
      (loop_trace E (i + 1) rest).bind fun b => .ret (a ++ b)

/-- Whether an instruction is a traversal instruction: one of the four trace
calls of `gencall`. -/
def is_traversal : Instr → Bool
  | .traceknown _ _ => true
  | .traceunknown _ => true
  | .tracetag _ => true
  | .traceactor _ => true
  | _ => false

/-- The slot that a traversal instruction visits. -/
def traversal_slot : Instr → Option Nat
  | .traceknown field _ => some field
  | .traceunknown field => some field
  | .tracetag field => some field
  | .traceactor field => some field
  | _ => none

/-- The traversal instructions of a function body that visit a given slot, in
order. -/
def traversals_at (slot : Nat) (body : List Instr) : List Instr :=
  body.filter fun x => decide (traversal_slot x = some slot)

/-- The body of the function that a call of `make_trace` from state `c` has
added in state `c1`: the function at the index that was free in `c`. -/
def trace_body (c c1 : compile_t) : List Instr :=
  match c1.functions[c.functions.length]? with
  | some f => f.body
  | none => []

/-- The shapes of field that the `switch` of `make_trace` has a case for. -/
def supported_field (E : Env) (ast : ast_t) : Prop :=
  ast_id ast = TK_UNIONTYPE ∨ ast_id ast = TK_TUPLETYPE ∨
  ast_id ast = TK_ISECTTYPE ∨ ast_id ast = TK_STRUCTURAL ∨
  (ast_id ast = TK_NOMINAL ∧
    (def_kind E ast = some TK_TRAIT ∨ def_kind E ast = some TK_DATA ∨
     def_kind E ast = some TK_CLASS ∨ def_kind E ast = some TK_ACTOR))

/-- The list of fields from which the layout of a composite type is built:
the children of a tuple, `get_fields` of a nominal type. -/
def layout_fields (E : Env) (ast : ast_t) : Outcome (List ast_t) :=
  if ast_id ast = TK_TUPLETYPE then .ret (ast_children ast) else get_fields E ast

/-- The shape of the body of a layout registered under `name`: slot 0 is the
descriptor pointer, and the number of slots is one more than the number of
fields of a type whose canonical name is `name`. -/
def layout_shaped (E : Env) (descriptor : LLVMTypeRef) (name : String)
    (body : List LLVMTypeRef) : Prop :=
  body.head? = some descriptor ∧
  ∃ ast fields, E.genname_type ast = some name ∧
    layout_fields E ast = .ret fields ∧ body.length = fields.length + 1

/-- The slots of a struct type; an opaque struct has none. -/
def slots (s : StructType) : List LLVMTypeRef :=
  s.body.getD []

/-- Composite type uses: tuples, and nominal types whose definition is a
class, an actor, or a data definition outside the table of built-in names. -/
def composite (E : Env) (ast : ast_t) : Prop :=
  ast_id ast = TK_TUPLETYPE ∨
  (ast_id ast = TK_NOMINAL ∧
    (def_kind E ast = some TK_CLASS ∨ def_kind E ast = some TK_ACTOR ∨
     (def_kind E ast = some TK_DATA ∧
      ∃ name, nominal_name ast = some name ∧ resolveBuiltin name = none)))

/-- What a returning call of `gentype` may do to the layouts: the handles
`descriptor_ptr` and `object_ptr` stay, the struct types present stay as they
are, the struct types added have the shape of a layout once their body is set,
and all of them have a body when the call returned a type. -/
def extends_layouts (E : Env) (c : compile_t) (r : Option LLVMTypeRef)
    (c1 : compile_t) : Prop :=
  c1.descriptor_ptr = c.descriptor_ptr ∧ c1.object_ptr = c.object_ptr ∧
  ∃ ext, c1.types = c.types ++ ext ∧
    (∀ s ∈ ext, ∀ b, s.body = some b → layout_shaped E c.descriptor_ptr s.name b) ∧
    (r ≠ none → ∀ s ∈ ext, s.body ≠ none)

/-- The states reached from a state without layouts by calls of `gentype` that
return. The flag says that every call so far returned a type (none returned
NULL). -/
inductive Reachable (E : Env) : Bool → compile_t → Prop where
  | start (c : compile_t) (h : c.types = []) : Reachable E true c
  | call (ok : Bool) (c c1 : compile_t) (fuel : Nat) (ast : ast_t)
      (r : Option LLVMTypeRef) (h : Reachable E ok c)
      (hcall : gentype E fuel c ast = .ret (r, c1)) :
      Reachable E (ok && r.isSome) c1

/-! ## Sample program -/

/-- A childless node. -/
def leaf (id : token_id) (name : String) : ast_t :=
  .node id name none none []

/-- A use of the definition at index `k`, under the given name and
capability. -/
def nominal_use (name : String) (k : Nat) (cap : token_id) : ast_t :=
  .node TK_NOMINAL "" (some k) none
    [leaf (TK_OTHER 0) "", leaf (TK_OTHER 1) name, leaf (TK_OTHER 0) "",
     leaf cap "", leaf (TK_OTHER 0) ""]

/-- A `var` field with a declared type. -/
def fvar (name : String) (ty : ast_t) : ast_t :=
  .node TK_FVAR name none (some ty) []

/-- A definition of the given kind: name, type parameters, two further
children, members. -/
def definition (kind : token_id) (name : String) (members : List ast_t) : ast_t :=
  .node kind "" none none
    [leaf (TK_OTHER 1) name, leaf (TK_OTHER 0) "", leaf (TK_OTHER 0) "",
     leaf (TK_OTHER 0) "", .node (TK_OTHER 2) "" none none members]

/-- Canonical names of the sample program: the name of a nominal use, a fixed
name for tuples. -/
def sample_genname : ast_t → Option String
  | .node TK_NOMINAL _ _ _ (_ :: .node _ n _ _ _ :: _) => some n
  | .node TK_TUPLETYPE _ _ _ _ => some "$tuple"
  | _ => none

/-- Capability of a type of the sample program: the token of child 3. -/
def sample_cap (ast : ast_t) : token_id :=
  match ast_childidx ast 3 with
  | some x => ast_id x
  | none => TK_OTHER 0

/-- The sample program: `Point` (two `I32` fields and a method), the data type
`I32`, a self-referential class `Node`, a trait `T`, an actor `A`, and a class
`Broken` with a field whose type has no canonical name. -/
def sample_env : Env where
  defs :=
    [definition TK_CLASS "Point"
       [fvar "x" (nominal_use "I32" 1 (TK_OTHER 5)), leaf (TK_OTHER 9) "fun",
        fvar "y" (nominal_use "I32" 1 (TK_OTHER 5))],
     definition TK_DATA "I32" [],
     definition TK_CLASS "Node"
       [fvar "next" (nominal_use "Node" 2 (TK_OTHER 5)),
        fvar "t" (nominal_use "Node" 2 TK_TAG)],
     definition TK_TRAIT "T" [],
     definition TK_ACTOR "A"
       [fvar "p" (nominal_use "Point" 0 (TK_OTHER 5)),
        fvar "q" (nominal_use "T" 3 TK_TAG)],
     definition TK_CLASS "Broken"
       [fvar "z" (.node TK_NOMINAL "" (some 0) none [])]]
  is_bool := fun _ => false
  cap_for_type := sample_cap
  genname_type := sample_genname
  genname_fun := fun a b => a ++ b
  reify := fun t _ _ => t.getD (leaf (TK_OTHER 0) "")
  codegen_finishfun := fun _ _ => true
  ndebug := false

/-- A compile state with no layout and no function. -/
def sample_ctx : compile_t :=
  ⟨[], [], none, .other 0, .other 1⟩

/-- The sample state after the layout of `Point` has been built. -/
def sample_point_ctx : compile_t where
  types := [⟨"Point", some [.other 0, .int 32, .int 32]⟩]
  functions :=
    [⟨"Point$trace",
      [.bitcast (.pointer (.struct 0)), .structGEP 1, .structGEP 2, .retVoid]⟩]
  builder := some 0
  descriptor_ptr := .other 0
  object_ptr := .other 1

/-- The sample state after the construction of the layout of `Broken` has
failed at its field. -/
def sample_broken_ctx : compile_t where
  types := [⟨"Broken", none⟩]
  functions := []
  builder := none
  descriptor_ptr := .other 0
  object_ptr := .other 1

/-- The sample program with a backend verification that rejects every
function. -/
def sample_env_reject : Env :=
  { sample_env with codegen_finishfun := fun _ _ => false }

/-- The scalar of a field whose name is a built-in name. -/
def builtin_scalar (ast : ast_t) : Option LLVMTypeRef :=
  (nominal_name ast).bind resolveBuiltin

/-- Fields of built-in scalar type: nominal types with a data definition and a
built-in name. -/
def builtin_field (E : Env) (ast : ast_t) : Prop :=
  ast_id ast = TK_NOMINAL ∧ def_kind E ast = some TK_DATA ∧
    (builtin_scalar ast).isSome = true

/-- The sample program with a data definition `D` that declares a field. -/
def sample_env_data : Env :=
  { sample_env with
    defs := [definition TK_DATA "D" [fvar "x" (nominal_use "D" 0 (TK_OTHER 5))]] }

/-- The sample program with a `genname_type` that computes no canonical
name. -/
def sample_env_unnamed : Env :=
  { sample_env with genname_type := fun _ => none }

/-- The sample program with a `genname_type` that computes the empty string as
the canonical name of every type. -/
def sample_env_anon : Env :=
  { sample_env with genname_type := fun _ => some "" }

/-- The sample program compiled with `NDEBUG`. -/
def sample_env_ndebug : Env :=
  { sample_env with ndebug := true }

/-- The tuple type `(I32, A)` of the sample program. -/
def sample_tuple : ast_t :=
  .node TK_TUPLETYPE "" none none
    [nominal_use "I32" 1 (TK_OTHER 5), nominal_use "A" 4 (TK_OTHER 5)]

/-- Shapes that neither `gentype` nor the `switch` of `make_trace` has a case
for: a node that is none of union, intersection, tuple, nominal, structural,
or a nominal type whose definition is none of trait, data, class, actor. -/
def unsupported_shape (E : Env) (ast : ast_t) : Prop :=
  (ast_id ast ≠ TK_UNIONTYPE ∧ ast_id ast ≠ TK_ISECTTYPE ∧
    ast_id ast ≠ TK_TUPLETYPE ∧ ast_id ast ≠ TK_NOMINAL ∧
    ast_id ast ≠ TK_STRUCTURAL) ∨
  (ast_id ast = TK_NOMINAL ∧
    ∃ k, def_kind E ast = some k ∧ k ≠ TK_TRAIT ∧ k ≠ TK_DATA ∧ k ≠ TK_CLASS ∧
      k ≠ TK_ACTOR)

/-- The fields `fields` are resolved one after the other by `gt`, from state
`c` on, each to a type (none to NULL): the types are `ts`, in order, and the
state after the last one is `c2`. -/
inductive resolved_in_order (gt : compile_t → ast_t → GenResult) :
    compile_t → List ast_t → List LLVMTypeRef → compile_t → Prop where
  | nil (c : compile_t) : resolved_in_order gt c [] [] c
  | cons (c c1 c2 : compile_t) (f : ast_t) (rest : List ast_t) (t : LLVMTypeRef)
      (ts : List LLVMTypeRef) (h : gt c f = .ret (some t, c1))
      (hrest : resolved_in_order gt c1 rest ts c2) :
      resolved_in_order gt c (f :: rest) (t :: ts) c2

/-- The state that `make_trace` leaves when its loop emits `is`: the trace
function of the layout `name` is added at the end of the module and the
builder stands in it. -/
def with_trace (E : Env) (c : compile_t) (type : LLVMTypeRef) (name : String)
    (is : List Instr) : compile_t :=
  { c with
    functions := c.functions ++
      [⟨E.genname_fun name "$trace", .bitcast (.pointer type) :: is ++ [.retVoid]⟩],
    builder := some c.functions.length }

/-- The state that `make_trace` leaves when its loop has emitted `is` and then
returns NULL from inside the loop: the trace function is the last function of
the module, the cast and `is` in it, without a return. -/
def cut_trace (E : Env) (c : compile_t) (type : LLVMTypeRef) (name : String)
    (is : List Instr) : compile_t :=
  { c with
    functions := c.functions ++
      [⟨E.genname_fun name "$trace", .bitcast (.pointer type) :: is⟩],
    builder := some c.functions.length }

/-- What a returning resolution of a composite type with canonical name `name`
leaves: a struct created under `name`, which is the struct that the name table
gives for `name` when `name` is not empty, and as result NULL or the pointer to
that struct. -/
def layout_under (name : String) (t : Option LLVMTypeRef) (c1 : compile_t) :
    Prop :=
  ∃ id, (c1.types.map StructType.name)[id]? = some name ∧
    (name ≠ "" → find_struct name c1.types = some id) ∧
    (t = none ∨ t = some (.pointer (.struct id)))

/-- The state in which `make_struct` ends once the fields are resolved: the
body of the struct `type` is set to `elements` and the trace function of the
layout, with the instructions `is` of the loop of `make_trace`, is added. -/
def finished_layout (E : Env) (c2 : compile_t) (type : LLVMTypeRef) (name : String)
    (elements : List LLVMTypeRef) (is : List Instr) : compile_t :=
  with_trace E (LLVMStructSetBody c2 type elements) type name is

/-- The sample state after the layout of the actor `A` has been built from
`sample_ctx`: the layout of `A`, then the layout of `Point`, with their trace
functions in the order of completion. -/
def sample_actor_ctx : compile_t where
  types :=
    [⟨"A", some [.other 0, .pointer (.struct 1), .other 1]⟩,
     ⟨"Point", some [.other 0, .int 32, .int 32]⟩]
  functions :=
    [⟨"Point$trace",
      [.bitcast (.pointer (.struct 1)), .structGEP 1, .structGEP 2, .retVoid]⟩,
     ⟨"A$trace",
      [.bitcast (.pointer (.struct 0)), .structGEP 1, .traceknown 1 (some "Point"),
       .structGEP 2, .tracetag 2, .retVoid]⟩]
  builder := some 1
  descriptor_ptr := .other 0
  object_ptr := .other 1

/-- The sample state in the middle of the construction of the tuple
`(I32, A)`: the struct of the tuple is created, and the actor `A` has been
resolved. -/
def sample_tuple_mid_ctx : compile_t where
  types :=
    [⟨"$tuple", none⟩,
     ⟨"A", some [.other 0, .pointer (.struct 2), .other 1]⟩,
     ⟨"Point", some [.other 0, .int 32, .int 32]⟩]
  functions :=
    [⟨"Point$trace",
      [.bitcast (.pointer (.struct 2)), .structGEP 1, .structGEP 2, .retVoid]⟩,
     ⟨"A$trace",
      [.bitcast (.pointer (.struct 1)), .structGEP 1, .traceknown 1 (some "Point"),
       .structGEP 2, .tracetag 2, .retVoid]⟩]
  builder := some 1
  descriptor_ptr := .other 0
  object_ptr := .other 1

/-- The slot whose address a `structGEP` instruction computes. -/
def gep_slot : Instr → Option Nat
  | .structGEP idx => some idx
  | _ => none

/-- From state `c` to state `c1`, layouts and trace functions are built at
most once per canonical name that is not the empty string: the structs added
are named by the list `names`, in which no name but the empty string occurs
twice and none was registered in `c`; the functions added are the trace
functions of the list `traced`, in which no name but the empty string occurs
twice and which holds names of `names` only. -/
def builds_once (E : Env) (c c1 : compile_t) : Prop :=
  ∃ names traced : List String,
    c1.types.map (fun s => s.name) = c.types.map (fun s => s.name) ++ names ∧
    (names.filter fun N => decide (N ≠ "")).Nodup ∧
    (∀ N ∈ names, find_struct N c.types = none) ∧
    c1.functions.map (fun f => f.name) =
      c.functions.map (fun f => f.name) ++
        traced.map (fun N => E.genname_fun N "$trace") ∧
    (traced.filter fun N => decide (N ≠ "")).Nodup ∧ (∀ N ∈ traced, N ∈ names)

/-- A sequence of returning calls of `gentype`, from any state. -/
inductive call_sequence (E : Env) : compile_t → compile_t → Prop where
  | nil (c : compile_t) : call_sequence E c c
  | call (c c1 c2 : compile_t) (fuel : Nat) (ast : ast_t) (r : Option LLVMTypeRef)
      (h : call_sequence E c c1) (hcall : gentype E fuel c1 ast = .ret (r, c2)) :
      call_sequence E c c2

/-- The number of canonical names of the list `S` that are not registered in
the state `c`. -/
def unregistered (S : List String) (c : compile_t) : Nat :=
  (S.filter fun N => (find_struct N c.types).isNone).length

/-- A set `U` of types that is closed under fields and whose composite types
have their canonical names in the finite list `S`: the types reached from a
finite set of definitions with finitely many canonical names. -/
def closed_universe (E : Env) (S : List String) (U : ast_t → Prop) : Prop :=
  ∀ ast, U ast → composite E ast →
    (∀ N, E.genname_type ast = some N → N ∈ S) ∧
    (∀ fields, layout_fields E ast = .ret fields → ∀ f ∈ fields, U f)

/-- The two uses of the class `Node` in the sample program. -/
def sample_node_uses (ast : ast_t) : Prop :=
  ast = nominal_use "Node" 2 (TK_OTHER 5) ∨ ast = nominal_use "Node" 2 TK_TAG

/-- A set `U` of types that `gentype.c` has a case for: every type has a
supported shape, a data type has its name child, a tuple has a canonical name,
and the fields of a composite type can be extracted. -/
def well_formed_universe (E : Env) (U : ast_t → Prop) : Prop :=
  ∀ ast, U ast →
    supported_field E ast ∧
    (ast_id ast = TK_NOMINAL → def_kind E ast = some TK_DATA →
      (nominal_name ast).isSome = true) ∧
    (ast_id ast = TK_TUPLETYPE → (E.genname_type ast).isSome = true) ∧
    (composite E ast → ∃ fields, layout_fields E ast = .ret fields)

/-! ## Theorems -/

theorem resolveBuiltin_eq_ite (name : String) :
    resolveBuiltin name =
      if name = "True" ∨ name = "False" then some (.int 1)
      else if name = "I8" ∨ name = "U8" then some (.int 8)
      else if name = "I16" ∨ name = "U16" then some (.int 16)
      else if name = "I32" ∨ name = "U32" then some (.int 32)
      else if name = "I64" ∨ name = "U64" then some (.int 64)
      else if name = "I128" ∨ name = "U128" then some (.int 128)
      else if name = "F16" then some .half
      else if name = "F32" then some .float
      else if name = "F64" then some .double
      else none := by
  unfold resolveBuiltin builtin_table
  simp only [List.find?_cons, List.find?_nil]
  by_cases h1 : "True" = name
  · subst h1; rfl
  by_cases h2 : "False" = name
  · subst h2; rfl
  by_cases h3 : "I8" = name
  · subst h3; rfl
  by_cases h4 : "U8" = name
  · subst h4; rfl
  by_cases h5 : "I16" = name
  · subst h5; rfl
  by_cases h6 : "U16" = name
  · subst h6; rfl
  by_cases h7 : "I32" = name
  · subst h7; rfl
  by_cases h8 : "U32" = name
  · subst h8; rfl
  by_cases h9 : "I64" = name
  · subst h9; rfl
  by_cases h10 : "U64" = name
  · subst h10; rfl
  by_cases h11 : "I128" = name
  · subst h11; rfl
  by_cases h12 : "U128" = name
  · subst h12; rfl
  by_cases h13 : "F16" = name
  · subst h13; rfl
  by_cases h14 : "F32" = name
  · subst h14; rfl
  by_cases h15 : "F64" = name
  · subst h15; rfl
  have e : ∀ s : String, (s = name) = (name = s) := fun s => propext eq_comm
  simp only [h1, h2, h3, h4, h5, h6, h7, h8, h9, h10, h11, h12, h13, h14, h15,
    decide_False, ← e, or_self, if_false, Option.map_none']

theorem gentype_data_resolve (E : Env) (gt : compile_t → ast_t → GenResult)
    (c : compile_t) (ast : ast_t) (name : String)
    (h : nominal_name ast = some name) :
    gentype_data E gt c ast =
      match resolveBuiltin name with
      | some scalar => .ret (some scalar, c)
      | none => (make_object E gt c ast).bind fun r => .ret (r.1, r.2.2) := by
  unfold nominal_name at h
  cases hid : ast_childidx ast 1 with
  | none => simp [hid] at h
  | some id =>
    have hn : ast_name id = name := by simpa [hid] using h
    rw [resolveBuiltin_eq_ite]
    unfold gentype_data
    simp only [hid, hn]
    by_cases h0 : name = "True" ∨ name = "False"
    · rw [if_pos h0, if_pos h0]
    rw [if_neg h0, if_neg h0]
    by_cases h1 : name = "I8" ∨ name = "U8"
    · rw [if_pos h1, if_pos h1]
    rw [if_neg h1, if_neg h1]
    by_cases h2 : name = "I16" ∨ name = "U16"
    · rw [if_pos h2, if_pos h2]
    rw [if_neg h2, if_neg h2]
    by_cases h3 : name = "I32" ∨ name = "U32"
    · rw [if_pos h3, if_pos h3]
    rw [if_neg h3, if_neg h3]
    by_cases h4 : name = "I64" ∨ name = "U64"
    · rw [if_pos h4, if_pos h4]
    rw [if_neg h4, if_neg h4]
    by_cases h5 : name = "I128" ∨ name = "U128"
    · rw [if_pos h5, if_pos h5]
    rw [if_neg h5, if_neg h5]
    by_cases h6 : name = "F16"
    · rw [if_pos h6, if_pos h6]
    rw [if_neg h6, if_neg h6]
    by_cases h7 : name = "F32"
    · rw [if_pos h7, if_pos h7]
    rw [if_neg h7, if_neg h7]
    by_cases h8 : name = "F64"
    · rw [if_pos h8, if_pos h8]
    rw [if_neg h8, if_neg h8]
    show _ = (make_object E gt c ast).bind _
    congr 1; funext r; obtain ⟨t, e, c1⟩ := r; simp

/-- C1: `gentype_data` on a nominal type whose name (the string of child 1,
which names the data definition) is `name` returns exactly the scalar of the
fixed table when `name` is one of the 15 built-in names, leaving the compile
state as it is; for every other string (the comparison is exact) it returns
what `make_object` returns for the type. -/
theorem gentype_data_table (E : Env) (gt : compile_t → ast_t → GenResult)
    (c : compile_t) (ast : ast_t) (name : String)
    (h : nominal_name ast = some name) :
    gentype_data E gt c ast =
      match resolveBuiltin name with
      | some scalar => .ret (some scalar, c)
      | none => (make_object E gt c ast).bind fun r => .ret (r.1, r.2.2) :=
  gentype_data_resolve E gt c ast name h

/-- C1 at `I32` of the sample program: the 32-bit integer, state untouched. -/
theorem gentype_data_table_witness :
    nominal_name (nominal_use "I32" 1 (TK_OTHER 5)) = some "I32" ∧
    gentype_data sample_env (gentype sample_env 0) sample_ctx
        (nominal_use "I32" 1 (TK_OTHER 5)) =
      .ret (some (.int 32), sample_ctx) :=
  ⟨rfl, (gentype_data_table sample_env (gentype sample_env 0) sample_ctx
    (nominal_use "I32" 1 (TK_OTHER 5)) "I32" rfl).trans (by
      rw [resolveBuiltin_eq_ite]; rfl)⟩

/-- C2: with budget for one call, `gentype` returns the 1-bit scalar for a
union for which `is_bool` holds and `c->object_ptr` for any other union, for an
intersection, for a structural type and for a nominal type whose definition is
a trait; in each case the compile state it leaves is the state it was given:
no layout is registered and no trace function is added. -/
theorem gentype_opaque_handle (E : Env) (fuel : Nat) (c : compile_t) (ast : ast_t)
    (h : ast_id ast = TK_UNIONTYPE ∨ ast_id ast = TK_ISECTTYPE ∨
      ast_id ast = TK_STRUCTURAL ∨
      (ast_id ast = TK_NOMINAL ∧ def_kind E ast = some TK_TRAIT)) :
    gentype E (fuel + 1) c ast =
      .ret (some (if ast_id ast = TK_UNIONTYPE ∧ E.is_bool ast = true then .int 1
        else c.object_ptr), c) := by
  show gentype_body E (gentype E fuel) c ast = _
  unfold gentype_body
  rcases h with h | h | h | ⟨h, hk⟩
  · rw [h]
    cases hb : E.is_bool ast <;> simp
  · rw [h]; simp
  · rw [h]; simp
  · rw [h]
    unfold def_kind at hk
    cases hd : ast_data E ast with
    | none => simp [hd] at hk
    | some d =>
      have hdk : ast_id d = TK_TRAIT := by simpa [hd] using hk
      simp [gentype_nominal, h, hd, hdk]

/-- C2 at the trait `T` of the sample program. -/
theorem gentype_opaque_handle_witness :
    (ast_id (nominal_use "T" 3 TK_TAG) = TK_UNIONTYPE ∨
      ast_id (nominal_use "T" 3 TK_TAG) = TK_ISECTTYPE ∨
      ast_id (nominal_use "T" 3 TK_TAG) = TK_STRUCTURAL ∨
      (ast_id (nominal_use "T" 3 TK_TAG) = TK_NOMINAL ∧
        def_kind sample_env (nominal_use "T" 3 TK_TAG) = some TK_TRAIT)) ∧
    gentype sample_env 1 sample_ctx (nominal_use "T" 3 TK_TAG) =
      .ret (some (.other 1), sample_ctx) :=
  ⟨Or.inr (Or.inr (Or.inr ⟨rfl, rfl⟩)),
   gentype_opaque_handle sample_env 0 sample_ctx (nominal_use "T" 3 TK_TAG)
     (Or.inr (Or.inr (Or.inr ⟨rfl, rfl⟩)))⟩

theorem gentype_builtin (E : Env) (fuel : Nat) (c : compile_t)
    (ast : ast_t) (name : String) (scalar : LLVMTypeRef)
    (hid : ast_id ast = TK_NOMINAL) (hk : def_kind E ast = some TK_DATA)
    (hn : nominal_name ast = some name)
    (hs : resolveBuiltin name = some scalar) :
    gentype E (fuel + 1) c ast = .ret (some scalar, c) := by
  show gentype_body E (gentype E fuel) c ast = _
  unfold gentype_body
  rw [hid]
  unfold def_kind at hk
  cases hd : ast_data E ast with
  | none => simp [hd] at hk
  | some d =>
    have hdk : ast_id d = TK_DATA := by simpa [hd] using hk
    simp only [gentype_nominal, hid, hd, hdk, ne_eq, not_true_eq_false, false_and, if_false]
    rw [gentype_data_resolve E (gentype E fuel) c ast name hn, hs]

/-- C6: primitive bypass. For a nominal type whose definition is a data
definition and whose name is one of the 15 built-in scalar names, `gentype`
(with budget for one call, from any state) returns the scalar of the table and
leaves the compile state as it was given: no layout is registered and no trace
function is emitted. -/
theorem gentype_primitive_bypass (E : Env) (fuel : Nat) (c : compile_t)
    (ast : ast_t) (name : String) (scalar : LLVMTypeRef)
    (hid : ast_id ast = TK_NOMINAL) (hk : def_kind E ast = some TK_DATA)
    (hn : nominal_name ast = some name)
    (hs : resolveBuiltin name = some scalar) :
    gentype E (fuel + 1) c ast = .ret (some scalar, c) :=
  gentype_builtin E fuel c ast name scalar hid hk hn hs

/-- C6 at `I32` of the sample program. -/
theorem gentype_primitive_bypass_witness :
    ast_id (nominal_use "I32" 1 (TK_OTHER 5)) = TK_NOMINAL ∧
    def_kind sample_env (nominal_use "I32" 1 (TK_OTHER 5)) = some TK_DATA ∧
    nominal_name (nominal_use "I32" 1 (TK_OTHER 5)) = some "I32" ∧
    resolveBuiltin "I32" = some (.int 32) ∧
    gentype sample_env 1 sample_ctx (nominal_use "I32" 1 (TK_OTHER 5)) =
      .ret (some (.int 32), sample_ctx) :=
  ⟨rfl, rfl, rfl, by rw [resolveBuiltin_eq_ite]; rfl,
   gentype_primitive_bypass sample_env 0 sample_ctx
     (nominal_use "I32" 1 (TK_OTHER 5)) "I32" (.int 32) rfl rfl rfl
     (by rw [resolveBuiltin_eq_ite]; rfl)⟩

/-! ### The trace function, instruction by instruction -/

@[simp] theorem Outcome.bind_ret {α β : Type} (v : α) (f : α → Outcome β) :
    (Outcome.ret v).bind f = f v := rfl

@[simp] theorem Outcome.bind_abort {α β : Type} (f : α → Outcome β) :
    (Outcome.abort : Outcome α).bind f = .abort := rfl

@[simp] theorem Outcome.bind_undef {α β : Type} (f : α → Outcome β) :
    (Outcome.undef : Outcome α).bind f = .undef := rfl

@[simp] theorem Outcome.bind_nofuel {α β : Type} (f : α → Outcome β) :
    (Outcome.nofuel : Outcome α).bind f = .nofuel := rfl

theorem emit_list_append (c : compile_t) (a b : List Instr) :
    emit_list c (a ++ b) = emit_list (emit_list c a) b := by
  simp [emit_list, List.foldl_append]

theorem emitted_probe_one (a : Instr) :
    emitted (builder_emit probe_ctx a) = [a] := rfl

theorem emitted_probe_two (a b : Instr) :
    emitted (builder_emit (builder_emit probe_ctx a) b) = [a, b] := rfl

theorem emit_list_one (c : compile_t) (a : Instr) :
    emit_list c [a] = builder_emit c a := rfl

theorem emit_list_two (c : compile_t) (a b : Instr) :
    emit_list c [a, b] = builder_emit (builder_emit c a) b := rfl

theorem make_trace_field_eq (E : Env) (c : compile_t) (i : Nat) (ast : ast_t) :
    make_trace_field E c i ast =
      match field_trace E i ast with
      | .ret is => .ret (.next (emit_list c is))
      | .abort =>
        if E.ndebug then .ret (.stop (emit_list c [.structGEP (i + 1)]))
        else .abort
      | .undef => .undef
      | .nofuel => .nofuel := by
  unfold field_trace make_trace_field
  cases h : ast_id ast <;>
    simp only [LLVMBuildStructGEP, gencall_traceunknown, gencall_traceknown,
      gencall_tracetag, gencall_traceactor, Outcome.bind_abort] <;>
    (repeat' split) <;>
    (try simp only [Outcome.bind_ret, Outcome.bind_abort, Outcome.bind_undef,
      emitted_probe_one, emitted_probe_two, Outcome.ret.injEq, reduceCtorEq,
      if_true, if_false] at *) <;>
    (try subst_vars) <;>
    (try simp only [emit_list_one, emit_list_two])

/-- The loop of `make_trace` from the instructions of its full passes: it runs
through when every pass is full; at the first field without a full pass it
aborts with assertions and returns NULL out of `make_trace` with `NDEBUG`. -/
theorem make_trace_loop_eq (E : Env) (fields : List ast_t) :
    ∀ (c : compile_t) (i : Nat),
      match loop_trace E i fields with
      | .ret is => make_trace_loop E c i fields = .ret (.next (emit_list c is))
      | .abort =>
        if E.ndebug then
          ∃ is, make_trace_loop E c i fields = .ret (.stop (emit_list c is))
        else make_trace_loop E c i fields = .abort
      | .undef => make_trace_loop E c i fields = .undef
      | .nofuel => make_trace_loop E c i fields = .nofuel := by
  induction fields with
  | nil => intro c i; rfl
  | cons ast rest ih =>
    intro c i
    have hf := make_trace_field_eq E c i ast
    simp only [make_trace_loop, loop_trace]
    cases hft : field_trace E i ast with
    | ret a =>
      rw [hft] at hf
      simp only [hf, Outcome.bind_ret]
      have h2 := ih (emit_list c a) (i + 1)
      cases hlt : loop_trace E (i + 1) rest with
      | ret b =>
        rw [hlt] at h2
        simp only [Outcome.bind_ret, h2, emit_list_append]
      | abort =>
        rw [hlt] at h2
        simp only [Outcome.bind_abort]
        cases hn : E.ndebug with
        | false => simpa [hn] using h2
        | true =>
          simp only [hn, if_true] at h2 ⊢
          obtain ⟨is, his⟩ := h2
          exact ⟨a ++ is, by rw [his, emit_list_append]⟩
      | undef => rw [hlt] at h2; simpa using h2
      | nofuel => rw [hlt] at h2; simpa using h2
    | abort =>
      rw [hft] at hf
      simp only [hf, Outcome.bind_abort]
      cases hn : E.ndebug with
      | false => simp
      | true => simp only [if_true, Outcome.bind_ret]; exact ⟨_, rfl⟩
    | undef => rw [hft] at hf; simp [hf]
    | nofuel => rw [hft] at hf; simp [hf]

theorem make_trace_loop_ret (E : Env) (fields : List ast_t) (c : compile_t)
    (i : Nat) (is : List Instr) (h : loop_trace E i fields = .ret is) :
    make_trace_loop E c i fields = .ret (.next (emit_list c is)) := by
  have := make_trace_loop_eq E fields c i
  rw [h] at this
  exact this

theorem update_at_append_length {α : Type} (f : α → α) (l : List α) (a : α)
    (e : List α) : update_at f l.length (l ++ a :: e) = l ++ f a :: e := by
  induction l with
  | nil => rfl
  | cons x l ih => simp [update_at, ih]

theorem emit_list_positioned (is : List Instr) :
    ∀ (c : compile_t) (fs : List Function) (f : Function),
      c.functions = fs ++ [f] → c.builder = some fs.length →
      emit_list c is =
        { c with functions := fs ++ [{ f with body := f.body ++ is }] } := by
  induction is with
  | nil =>
    intro c fs f hf _
    simp [emit_list, ← hf]
  | cons x is ih =>
    intro c fs f hf hb
    have h1 : builder_emit c x =
        { c with functions := fs ++ [{ f with body := f.body ++ [x] }] } := by
      simp [builder_emit, hb, hf, update_at_append_length]
    show emit_list (builder_emit c x) is = _
    rw [ih (builder_emit c x) fs { f with body := f.body ++ [x] }
      (by rw [h1]) (by rw [h1]; exact hb), h1]
    simp

theorem emit_list_added (c : compile_t) (fname : String) (x : Instr)
    (is : List Instr) :
    emit_list (builder_emit
        { c with
          functions := c.functions ++ [⟨fname, []⟩],
          builder := some c.functions.length } x) is =
      { c with
        functions := c.functions ++ [⟨fname, x :: is⟩],
        builder := some c.functions.length } := by
  have := emit_list_positioned (x :: is)
    { c with
      functions := c.functions ++ [⟨fname, []⟩],
      builder := some c.functions.length } c.functions ⟨fname, []⟩ rfl rfl
  simp only [List.nil_append] at this
  rw [← this]
  rfl

/-- The state that `make_trace` leaves when its loop emits `is`: one more
function, holding the cast, `is` and the return, with the builder in it. -/
theorem make_trace_ret (E : Env) (c : compile_t) (name : String)
    (type : LLVMTypeRef) (fields : List ast_t) (is : List Instr)
    (his : loop_trace E 0 fields = .ret is) :
    make_trace E c name type fields =
        .ret (if E.codegen_finishfun
            { c with
              functions := c.functions ++
                [⟨E.genname_fun name "$trace",
                  .bitcast (.pointer type) :: is ++ [.retVoid]⟩],
              builder := some c.functions.length } c.functions.length = true
          then some c.functions.length else none,
          { c with
            functions := c.functions ++
              [⟨E.genname_fun name "$trace",
                .bitcast (.pointer type) :: is ++ [.retVoid]⟩],
            builder := some c.functions.length }) := by
  unfold make_trace
  simp only [LLVMAddFunction, LLVMPositionBuilderAtEnd, LLVMBuildBitCast,
    LLVMPointerType, LLVMBuildRetVoid, make_trace_loop_ret E fields _ 0 is his]
  have key : builder_emit (emit_list (builder_emit
      { c with
        functions := c.functions ++ [⟨E.genname_fun name "$trace", []⟩],
        builder := some c.functions.length } (.bitcast (.pointer type))) is)
      .retVoid =
      { c with
        functions := c.functions ++
          [⟨E.genname_fun name "$trace",
            .bitcast (.pointer type) :: is ++ [.retVoid]⟩],
        builder := some c.functions.length } := by
    rw [List.cons_append, ← emit_list_added c (E.genname_fun name "$trace")
      (Instr.bitcast (.pointer type)) (is ++ [Instr.retVoid])]
    simp [emit_list, List.foldl_append]
  simp only [Outcome.bind_ret, key]
  cases E.codegen_finishfun _ _ <;> simp

/-- Every ending of `make_trace`, from the instructions of the full passes of
its loop. With `NDEBUG` a field without a full pass makes it return NULL and
leave the new function without its return. -/
theorem make_trace_eq (E : Env) (c : compile_t) (name : String)
    (type : LLVMTypeRef) (fields : List ast_t) :
    match loop_trace E 0 fields with
    | .ret is =>
      make_trace E c name type fields =
        .ret (if E.codegen_finishfun
            { c with
              functions := c.functions ++
                [⟨E.genname_fun name "$trace",
                  .bitcast (.pointer type) :: is ++ [.retVoid]⟩],
              builder := some c.functions.length } c.functions.length = true
          then some c.functions.length else none,
          { c with
            functions := c.functions ++
              [⟨E.genname_fun name "$trace",
                .bitcast (.pointer type) :: is ++ [.retVoid]⟩],
            builder := some c.functions.length })
    | .abort =>
      if E.ndebug then
        ∃ is, make_trace E c name type fields =
          .ret (none,
            { c with
              functions := c.functions ++
                [⟨E.genname_fun name "$trace", .bitcast (.pointer type) :: is⟩],
              builder := some c.functions.length })
      else make_trace E c name type fields = .abort
    | .undef => make_trace E c name type fields = .undef
    | .nofuel => make_trace E c name type fields = .nofuel := by
  cases hl : loop_trace E 0 fields with
  | ret is => exact make_trace_ret E c name type fields is hl
  | abort =>
    have h := make_trace_loop_eq E fields
      (builder_emit
        { c with
          functions := c.functions ++ [⟨E.genname_fun name "$trace", []⟩],
          builder := some c.functions.length } (.bitcast (.pointer type))) 0
    rw [hl] at h
    cases hn : E.ndebug with
    | false =>
      simp only [hn, Bool.false_eq_true, if_false] at h ⊢
      unfold make_trace
      simp only [LLVMAddFunction, LLVMPositionBuilderAtEnd, LLVMBuildBitCast,
        LLVMPointerType, h, Outcome.bind_abort]
    | true =>
      simp only [hn, if_true] at h ⊢
      obtain ⟨is, his⟩ := h
      refine ⟨is, ?_⟩
      unfold make_trace
      simp only [LLVMAddFunction, LLVMPositionBuilderAtEnd, LLVMBuildBitCast,
        LLVMPointerType, his, Outcome.bind_ret, emit_list_added]
  | undef =>
    have h := make_trace_loop_eq E fields
      (builder_emit
        { c with
          functions := c.functions ++ [⟨E.genname_fun name "$trace", []⟩],
          builder := some c.functions.length } (.bitcast (.pointer type))) 0
    rw [hl] at h
    unfold make_trace
    simp only [LLVMAddFunction, LLVMPositionBuilderAtEnd, LLVMBuildBitCast,
      LLVMPointerType, h, Outcome.bind_undef]
  | nofuel =>
    have h := make_trace_loop_eq E fields
      (builder_emit
        { c with
          functions := c.functions ++ [⟨E.genname_fun name "$trace", []⟩],
          builder := some c.functions.length } (.bitcast (.pointer type))) 0
    rw [hl] at h
    unfold make_trace
    simp only [LLVMAddFunction, LLVMPositionBuilderAtEnd, LLVMBuildBitCast,
      LLVMPointerType, h, Outcome.bind_nofuel]

theorem field_trace_shape (E : Env) (i : Nat) (ast : ast_t) (is : List Instr)
    (h : field_trace E i ast = .ret is) :
    ∃ tr, is = .structGEP (i + 1) :: tr ∧ tr.length ≤ 1 ∧
      ∀ x ∈ tr, traversal_slot x = some (i + 1) := by
  unfold field_trace make_trace_field at h
  revert h
  cases hid : ast_id ast <;>
    simp only [LLVMBuildStructGEP, gencall_traceunknown, gencall_traceknown,
      gencall_tracetag, gencall_traceactor, Outcome.bind_abort] <;>
    (repeat' split) <;>
    simp only [Outcome.bind_ret, Outcome.bind_abort, Outcome.bind_undef,
      emitted_probe_one, emitted_probe_two, Outcome.ret.injEq, reduceCtorEq,
      false_implies] <;>
    (rintro rfl; exact ⟨_, rfl, by simp, by simp [traversal_slot]⟩)

theorem field_trace_supported (E : Env) (i : Nat) (ast : ast_t)
    (h : supported_field E ast) : ∃ is, field_trace E i ast = .ret is := by
  unfold field_trace make_trace_field
  simp only [LLVMBuildStructGEP, gencall_traceunknown, gencall_traceknown,
    gencall_tracetag, gencall_traceactor]
  rcases h with h | h | h | h | ⟨h, hk⟩
  · rw [h]; simp only []; (repeat' split) <;> exact ⟨_, rfl⟩
  · rw [h]; exact ⟨_, rfl⟩
  · rw [h]; simp only []; (repeat' split) <;> exact ⟨_, rfl⟩
  · rw [h]; simp only []; (repeat' split) <;> exact ⟨_, rfl⟩
  · rw [h]
    unfold def_kind at hk
    cases hd : ast_data E ast with
    | none => simp [hd] at hk
    | some d =>
      simp only [hd, Option.map_some', Option.some.injEq] at hk
      simp only [hd]
      rcases hk with hk | hk | hk | hk <;> rw [hk] <;> simp only [] <;>
        (repeat' split) <;> exact ⟨_, rfl⟩

theorem loop_trace_supported (E : Env) (fields : List ast_t) :
    ∀ (j : Nat), (∀ f ∈ fields, supported_field E f) →
      ∃ is, loop_trace E j fields = .ret is := by
  induction fields with
  | nil => intro j _; exact ⟨[], rfl⟩
  | cons ast rest ih =>
    intro j h
    obtain ⟨a, ha⟩ := field_trace_supported E j ast (h ast (List.mem_cons_self _ _))
    obtain ⟨b, hb⟩ := ih (j + 1) (fun f hf => h f (List.mem_cons_of_mem _ hf))
    exact ⟨a ++ b, by simp [loop_trace, ha, hb]⟩

theorem loop_trace_cons_ret (E : Env) (j : Nat) (ast : ast_t) (rest : List ast_t)
    (is : List Instr) (h : loop_trace E j (ast :: rest) = .ret is) :
    ∃ a b, field_trace E j ast = .ret a ∧ loop_trace E (j + 1) rest = .ret b ∧
      is = a ++ b := by
  unfold loop_trace at h
  cases ha : field_trace E j ast with
  | ret a =>
    cases hb : loop_trace E (j + 1) rest with
    | ret b =>
      simp only [ha, hb, Outcome.bind_ret, Outcome.ret.injEq] at h
      exact ⟨a, b, rfl, rfl, h.symm⟩
    | abort => simp [ha, hb] at h
    | undef => simp [ha, hb] at h
    | nofuel => simp [ha, hb] at h
  | abort => simp [ha] at h
  | undef => simp [ha] at h
  | nofuel => simp [ha] at h

theorem loop_trace_slots (E : Env) (fields : List ast_t) :
    ∀ (j : Nat) (is : List Instr), loop_trace E j fields = .ret is →
      ∀ x ∈ is, ∀ s, traversal_slot x = some s →
        j + 1 ≤ s ∧ s ≤ j + fields.length := by
  induction fields with
  | nil =>
    intro j is h x hx
    simp only [loop_trace, Outcome.ret.injEq] at h
    subst h
    simp at hx
  | cons ast rest ih =>
    intro j is h x hx s hs
    obtain ⟨a, b, ha, hb, rfl⟩ := loop_trace_cons_ret E j ast rest is h
    obtain ⟨tr, rfl, _, htr⟩ := field_trace_shape E j ast a ha
    rcases List.mem_append.mp hx with hx | hx
    · rcases List.mem_cons.mp hx with hx | hx
      · subst hx; simp [traversal_slot] at hs
      · have := htr x hx
        rw [hs] at this
        simp only [Option.some.injEq] at this
        simp only [List.length_cons]
        omega
    · have := ih (j + 1) b hb x hx s hs
      simp only [List.length_cons]
      omega

theorem traversals_at_eq_nil (slot : Nat) (body : List Instr)
    (h : ∀ x ∈ body, traversal_slot x ≠ some slot) :
    traversals_at slot body = [] := by
  unfold traversals_at
  rw [List.filter_eq_nil_iff]
  intro x hx
  simpa using h x hx

theorem traversals_at_append (slot : Nat) (a b : List Instr) :
    traversals_at slot (a ++ b) = traversals_at slot a ++ traversals_at slot b := by
  simp [traversals_at]

theorem loop_trace_at (E : Env) (fields : List ast_t) :
    ∀ (j k : Nat) (is : List Instr) (ast : ast_t),
      loop_trace E j fields = .ret is → fields[k]? = some ast →
      ∃ fis, field_trace E (j + k) ast = .ret fis ∧
        traversals_at (j + k + 1) is = traversals_at (j + k + 1) fis := by
  induction fields with
  | nil => intro j k is ast _ hk; simp at hk
  | cons f rest ih =>
    intro j k is ast h hk
    obtain ⟨a, b, ha, hb, rfl⟩ := loop_trace_cons_ret E j f rest is h
    cases k with
    | zero =>
      simp only [List.getElem?_cons_zero, Option.some.injEq] at hk
      subst hk
      refine ⟨a, ha, ?_⟩
      rw [traversals_at_append, traversals_at_eq_nil (j + 0 + 1) b, List.append_nil]
      intro x hx hs
      have := (loop_trace_slots E rest (j + 1) b hb x hx _ hs).1
      omega
    | succ k =>
      simp only [List.getElem?_cons_succ] at hk
      obtain ⟨fis, hf, ht⟩ := ih (j + 1) k b ast hb hk
      have e : j + 1 + k = j + (k + 1) := by omega
      rw [e] at hf ht
      refine ⟨fis, hf, ?_⟩
      rw [traversals_at_append, ht, traversals_at_eq_nil (j + (k + 1) + 1) a,
        List.nil_append]
      intro x hx hs
      obtain ⟨tr, rfl, _, htr⟩ := field_trace_shape E j f a ha
      rcases List.mem_cons.mp hx with hx | hx
      · subst hx; simp [traversal_slot] at hs
      · have := htr x hx
        rw [hs] at this
        simp only [Option.some.injEq] at this
        omega

/-- For a list of fields of supported shapes `make_trace` returns, and the
traversal instructions of the new function on slot `i + 1` are the ones the
loop body emits for `fields[i]`. Types and handles are left as they were. -/
theorem make_trace_slot (E : Env) (c : compile_t) (name : String)
    (type : LLVMTypeRef) (fields : List ast_t) (i : Nat) (ast : ast_t)
    (hsup : ∀ f ∈ fields, supported_field E f) (hi : fields[i]? = some ast) :
    ∃ r c1 fis, make_trace E c name type fields = .ret (r, c1) ∧
      field_trace E i ast = .ret fis ∧
      traversals_at (i + 1) (trace_body c c1) = traversals_at (i + 1) fis := by
  obtain ⟨is, his⟩ := loop_trace_supported E fields 0 hsup
  obtain ⟨fis, hf, ht⟩ := loop_trace_at E fields 0 i is ast his hi
  simp only [Nat.zero_add] at hf ht
  rw [make_trace_ret E _ _ _ _ is his]
  refine ⟨_, _, fis, rfl, hf, ?_⟩
  simp only [trace_body, List.getElem?_concat_length]
  rw [← ht]
  show traversals_at (i + 1) ([Instr.bitcast (.pointer type)] ++ (is ++ [.retVoid])) = _
  rw [traversals_at_append, traversals_at_append]
  simp [traversals_at, traversal_slot]

theorem field_trace_union (E : Env) (i : Nat) (ast : ast_t)
    (hid : ast_id ast = TK_UNIONTYPE) :
    field_trace E i ast =
      .ret (if E.is_bool ast = false ∧ E.cap_for_type ast ≠ TK_TAG
        then [.structGEP (i + 1), .traceunknown (i + 1)]
        else [.structGEP (i + 1)]) := by
  unfold field_trace make_trace_field
  simp only [hid, LLVMBuildStructGEP, gencall_traceunknown]
  cases hb : E.is_bool ast <;> by_cases hc : E.cap_for_type ast = TK_TAG <;>
    simp [hc, emitted_probe_one, emitted_probe_two]

theorem field_trace_isect_structural (E : Env) (i : Nat) (ast : ast_t)
    (hid : ast_id ast = TK_ISECTTYPE ∨ ast_id ast = TK_STRUCTURAL) :
    field_trace E i ast =
      .ret [.structGEP (i + 1),
        if E.cap_for_type ast = TK_TAG then .tracetag (i + 1)
        else .traceunknown (i + 1)] := by
  unfold field_trace make_trace_field
  rcases hid with hid | hid <;>
    simp only [hid, LLVMBuildStructGEP, gencall_traceunknown, gencall_tracetag] <;>
    by_cases hc : E.cap_for_type ast = TK_TAG <;>
    simp [hc, emitted_probe_two]

theorem field_trace_nominal (E : Env) (i : Nat) (ast : ast_t) (k : token_id)
    (hid : ast_id ast = TK_NOMINAL) (hk : def_kind E ast = some k) :
    field_trace E i ast =
      match k with
      | TK_TRAIT =>
        .ret [.structGEP (i + 1),
          if E.cap_for_type ast = TK_TAG then .tracetag (i + 1)
          else .traceunknown (i + 1)]
      | TK_DATA => .ret [.structGEP (i + 1)]
      | TK_CLASS =>
        .ret [.structGEP (i + 1),
          if E.cap_for_type ast = TK_TAG then .tracetag (i + 1)
          else .traceknown (i + 1) (E.genname_type ast)]
      | TK_ACTOR => .ret [.structGEP (i + 1), .traceactor (i + 1)]
      | _ => .abort := by
  unfold def_kind at hk
  cases hd : ast_data E ast with
  | none => simp [hd] at hk
  | some d =>
    have hdk : ast_id d = k := by simpa [hd] using hk
    unfold field_trace make_trace_field
    simp only [hid, hd, hdk, LLVMBuildStructGEP, gencall_traceunknown,
      gencall_tracetag, gencall_traceknown, gencall_traceactor]
    cases k <;> by_cases hc : E.cap_for_type ast = TK_TAG <;>
      cases hn : E.ndebug <;>
      simp [hc, emitted_probe_one, emitted_probe_two]

/-- C7 fails as stated. For the one-field list holding a use of the trait `T`
with capability `tag`, the trace function that `make_trace` builds contains a
traversal instruction on slot 1: the tag trace emitted by `gencall_tracetag`. -/
theorem tag_field_is_traced :
    sample_env.cap_for_type (nominal_use "T" 3 TK_TAG) = TK_TAG ∧
    ast_id (nominal_use "T" 3 TK_TAG) = TK_NOMINAL ∧
    def_kind sample_env (nominal_use "T" 3 TK_TAG) = some TK_TRAIT ∧
    ∃ c1, make_trace sample_env sample_ctx "S" (.struct 0)
        [nominal_use "T" 3 TK_TAG] = .ret (some 0, c1) ∧
      traversals_at 1 (trace_body sample_ctx c1) = [.tracetag 1] ∧
      traversals_at 1 (trace_body sample_ctx c1) ≠ [] :=
  ⟨rfl, rfl, rfl, _, rfl, rfl, by decide⟩

/-- C7, amended: for a list of fields of supported shapes and a field
`fields[i]` whose capability resolves to tag and which is a nominal type with a
trait or class definition, an intersection or a structural type, `make_trace`
returns and its trace function holds exactly one traversal instruction on slot
`i + 1`: the tag trace of `gencall_tracetag`, and no known, unknown or actor
trace. -/
theorem make_trace_tag_field (E : Env) (c : compile_t) (name : String)
    (type : LLVMTypeRef) (fields : List ast_t) (i : Nat) (ast : ast_t)
    (hsup : ∀ f ∈ fields, supported_field E f) (hi : fields[i]? = some ast)
    (hcap : E.cap_for_type ast = TK_TAG)
    (hshape : (ast_id ast = TK_NOMINAL ∧
        (def_kind E ast = some TK_TRAIT ∨ def_kind E ast = some TK_CLASS)) ∨
      ast_id ast = TK_ISECTTYPE ∨ ast_id ast = TK_STRUCTURAL) :
    ∃ r c1, make_trace E c name type fields = .ret (r, c1) ∧
      traversals_at (i + 1) (trace_body c c1) = [.tracetag (i + 1)] := by
  obtain ⟨r, c1, fis, hm, hf, ht⟩ := make_trace_slot E c name type fields i ast hsup hi
  refine ⟨r, c1, hm, ?_⟩
  rw [ht]
  rcases hshape with ⟨hid, hk | hk⟩ | hid | hid
  · rw [field_trace_nominal E i ast _ hid hk] at hf
    simp only [Outcome.ret.injEq] at hf
    subst hf
    simp [traversals_at, traversal_slot, hcap]
  · rw [field_trace_nominal E i ast _ hid hk] at hf
    simp only [Outcome.ret.injEq] at hf
    subst hf
    simp [traversals_at, traversal_slot, hcap]
  · rw [field_trace_isect_structural E i ast (Or.inl hid)] at hf
    simp only [Outcome.ret.injEq] at hf
    subst hf
    simp [traversals_at, traversal_slot, hcap]
  · rw [field_trace_isect_structural E i ast (Or.inr hid)] at hf
    simp only [Outcome.ret.injEq] at hf
    subst hf
    simp [traversals_at, traversal_slot, hcap]

/-- C7, amended, at the second field of the class `Node` of the sample program
(a use of `Node` with capability `tag`). -/
theorem make_trace_tag_field_witness :
    ∃ r c1, make_trace sample_env sample_ctx "Node" (.struct 0)
        [nominal_use "Node" 2 (TK_OTHER 5), nominal_use "Node" 2 TK_TAG] =
          .ret (r, c1) ∧
      traversals_at (1 + 1) (trace_body sample_ctx c1) = [.tracetag (1 + 1)] :=
  make_trace_tag_field sample_env sample_ctx "Node" (.struct 0)
    [nominal_use "Node" 2 (TK_OTHER 5), nominal_use "Node" 2 TK_TAG] 1
    (nominal_use "Node" 2 TK_TAG)
    (by
      intro f hf
      simp only [List.mem_cons, List.mem_singleton, List.not_mem_nil, or_false] at hf
      rcases hf with rfl | rfl <;>
        exact Or.inr (Or.inr (Or.inr (Or.inr ⟨rfl, Or.inr (Or.inr (Or.inl rfl))⟩))))
    rfl rfl (Or.inl ⟨rfl, Or.inr rfl⟩)

/-- C8: for a list of fields of supported shapes and a field `fields[i]` whose
capability does not resolve to tag, the trace function of `make_trace` holds
exactly one traversal instruction on slot `i + 1`: an unknown (dynamic) trace
when the field is a nominal type with a trait definition, an intersection or a
structural type, and a known trace whose callee is `genname_type` of the field
itself when the field is a nominal type with a class definition. -/
theorem make_trace_untagged_field (E : Env) (c : compile_t) (name : String)
    (type : LLVMTypeRef) (fields : List ast_t) (i : Nat) (ast : ast_t)
    (hsup : ∀ f ∈ fields, supported_field E f) (hi : fields[i]? = some ast)
    (hcap : E.cap_for_type ast ≠ TK_TAG)
    (hshape : (ast_id ast = TK_NOMINAL ∧
        (def_kind E ast = some TK_TRAIT ∨ def_kind E ast = some TK_CLASS)) ∨
      ast_id ast = TK_ISECTTYPE ∨ ast_id ast = TK_STRUCTURAL) :
    ∃ r c1, make_trace E c name type fields = .ret (r, c1) ∧
      traversals_at (i + 1) (trace_body c c1) =
        [if ast_id ast = TK_NOMINAL ∧ def_kind E ast = some TK_CLASS
          then .traceknown (i + 1) (E.genname_type ast)
          else .traceunknown (i + 1)] := by
  obtain ⟨r, c1, fis, hm, hf, ht⟩ := make_trace_slot E c name type fields i ast hsup hi
  refine ⟨r, c1, hm, ?_⟩
  rw [ht]
  rcases hshape with ⟨hid, hk | hk⟩ | hid | hid
  · rw [field_trace_nominal E i ast _ hid hk] at hf
    simp only [Outcome.ret.injEq] at hf
    subst hf
    simp [traversals_at, traversal_slot, hcap, hk]
  · rw [field_trace_nominal E i ast _ hid hk] at hf
    simp only [Outcome.ret.injEq] at hf
    subst hf
    simp [traversals_at, traversal_slot, hcap, hk, hid]
  · rw [field_trace_isect_structural E i ast (Or.inl hid)] at hf
    simp only [Outcome.ret.injEq] at hf
    subst hf
    simp [traversals_at, traversal_slot, hcap, hid]
  · rw [field_trace_isect_structural E i ast (Or.inr hid)] at hf
    simp only [Outcome.ret.injEq] at hf
    subst hf
    simp [traversals_at, traversal_slot, hcap, hid]

/-- C8 at the first field of the class `Node` of the sample program (a use of
`Node` whose capability is not `tag`): one known trace through `Node`. -/
theorem make_trace_untagged_field_witness :
    ∃ r c1, make_trace sample_env sample_ctx "Node" (.struct 0)
        [nominal_use "Node" 2 (TK_OTHER 5), nominal_use "Node" 2 TK_TAG] =
          .ret (r, c1) ∧
      traversals_at (0 + 1) (trace_body sample_ctx c1) =
        [.traceknown (0 + 1) (some "Node")] :=
  make_trace_untagged_field sample_env sample_ctx "Node" (.struct 0)
    [nominal_use "Node" 2 (TK_OTHER 5), nominal_use "Node" 2 TK_TAG] 0
    (nominal_use "Node" 2 (TK_OTHER 5))
    (by
      intro f hf
      simp only [List.mem_cons, List.mem_singleton, List.not_mem_nil, or_false] at hf
      rcases hf with rfl | rfl <;>
        exact Or.inr (Or.inr (Or.inr (Or.inr ⟨rfl, Or.inr (Or.inr (Or.inl rfl))⟩))))
    rfl (by decide) (Or.inl ⟨rfl, Or.inr rfl⟩)

/-- C9: for a list of fields of supported shapes and a union field `fields[i]`
for which `is_bool` does not hold, the trace function of `make_trace` holds no
traversal instruction on slot `i + 1` when the capability of the union resolves
to tag, and exactly one, an unknown (dynamic) trace, when it does not. -/
theorem make_trace_union_field (E : Env) (c : compile_t) (name : String)
    (type : LLVMTypeRef) (fields : List ast_t) (i : Nat) (ast : ast_t)
    (hsup : ∀ f ∈ fields, supported_field E f) (hi : fields[i]? = some ast)
    (hid : ast_id ast = TK_UNIONTYPE) (hbool : E.is_bool ast = false) :
    ∃ r c1, make_trace E c name type fields = .ret (r, c1) ∧
      traversals_at (i + 1) (trace_body c c1) =
        if E.cap_for_type ast = TK_TAG then [] else [.traceunknown (i + 1)] := by
  obtain ⟨r, c1, fis, hm, hf, ht⟩ := make_trace_slot E c name type fields i ast hsup hi
  refine ⟨r, c1, hm, ?_⟩
  rw [ht]
  rw [field_trace_union E i ast hid] at hf
  simp only [Outcome.ret.injEq] at hf
  subst hf
  by_cases hc : E.cap_for_type ast = TK_TAG <;>
    simp [traversals_at, traversal_slot, hc, hbool]

/-- C9 at a union of the sample program whose capability is not `tag`, as the
only field. -/
theorem make_trace_union_field_witness :
    ∃ r c1, make_trace sample_env sample_ctx "U" (.struct 0)
        [leaf TK_UNIONTYPE ""] = .ret (r, c1) ∧
      traversals_at (0 + 1) (trace_body sample_ctx c1) = [.traceunknown (0 + 1)] :=
  make_trace_union_field sample_env sample_ctx "U" (.struct 0)
    [leaf TK_UNIONTYPE ""] 0 (leaf TK_UNIONTYPE "")
    (by
      intro f hf
      simp only [List.mem_singleton] at hf
      subst hf
      exact Or.inl rfl)
    rfl rfl rfl

/-! ### Layouts across a call of `gentype` -/

theorem make_trace_types (E : Env) (c : compile_t) (name : String)
    (type : LLVMTypeRef) (fields : List ast_t) (r : Option Nat) (c1 : compile_t)
    (h : make_trace E c name type fields = .ret (r, c1)) :
    c1.types = c.types ∧ c1.descriptor_ptr = c.descriptor_ptr ∧
      c1.object_ptr = c.object_ptr := by
  have h0 := make_trace_eq E c name type fields
  cases hl : loop_trace E 0 fields with
  | ret is =>
    rw [hl] at h0
    simp only [h0, Outcome.ret.injEq, Prod.mk.injEq] at h
    obtain ⟨_, rfl⟩ := h
    exact ⟨rfl, rfl, rfl⟩
  | abort =>
    rw [hl] at h0
    cases hn : E.ndebug with
    | false =>
      simp only [hn, Bool.false_eq_true, if_false] at h0
      rw [h0] at h
      simp at h
    | true =>
      simp only [hn, if_true] at h0
      obtain ⟨is, his⟩ := h0
      simp only [his, Outcome.ret.injEq, Prod.mk.injEq] at h
      obtain ⟨_, rfl⟩ := h
      exact ⟨rfl, rfl, rfl⟩
  | undef => rw [hl] at h0; simp [h0] at h
  | nofuel => rw [hl] at h0; simp [h0] at h

theorem bind_eq_ret {α β : Type} (x : Outcome α) (f : α → Outcome β) (b : β)
    (h : x.bind f = .ret b) : ∃ a, x = .ret a ∧ f a = .ret b := by
  cases x with
  | ret a => exact ⟨a, rfl, h⟩
  | abort => simp at h
  | undef => simp at h
  | nofuel => simp at h

theorem make_struct_loop_post (E : Env) (gt : compile_t → ast_t → GenResult)
    (H : ∀ c ast r c1, gt c ast = .ret (r, c1) → extends_layouts E c r c1)
    (fields : List ast_t) :
    ∀ (c : compile_t) (els : List LLVMTypeRef)
      (r : Option (List LLVMTypeRef)) (c1 : compile_t),
      make_struct_loop gt c els fields = .ret (r, c1) →
      c1.descriptor_ptr = c.descriptor_ptr ∧ c1.object_ptr = c.object_ptr ∧
      ∃ ext, c1.types = c.types ++ ext ∧
        (∀ s ∈ ext, ∀ b, s.body = some b →
          layout_shaped E c.descriptor_ptr s.name b) ∧
        (r ≠ none → ∀ s ∈ ext, s.body ≠ none) ∧
        (∀ els1, r = some els1 →
          ∃ more, els1 = els ++ more ∧ more.length = fields.length) := by
  induction fields with
  | nil =>
    intro c els r c1 h
    simp only [make_struct_loop, Outcome.ret.injEq, Prod.mk.injEq] at h
    obtain ⟨rfl, rfl⟩ := h
    exact ⟨rfl, rfl, [], by simp, by simp, by simp, by simp⟩
  | cons f rest ih =>
    intro c els r c1 h
    simp only [make_struct_loop] at h
    obtain ⟨⟨t, c2⟩, hg, h⟩ := bind_eq_ret _ _ _ h
    obtain ⟨hd, ho, ext, he, hsh, hbody⟩ := H c f t c2 hg
    cases t with
    | none =>
      simp only [Outcome.ret.injEq, Prod.mk.injEq] at h
      obtain ⟨rfl, rfl⟩ := h
      exact ⟨hd, ho, ext, he, hsh, by simp, by simp⟩
    | some t =>
      simp only at h
      obtain ⟨hd2, ho2, ext2, he2, hsh2, hbody2, hels⟩ := ih c2 (els ++ [t]) r c1 h
      refine ⟨hd2.trans hd, ho2.trans ho, ext ++ ext2, ?_, ?_, ?_, ?_⟩
      · rw [he2, he, List.append_assoc]
      · intro s hs b hb
        rcases List.mem_append.mp hs with hs | hs
        · exact hsh s hs b hb
        · rw [← hd]; exact hsh2 s hs b hb
      · intro hr s hs
        rcases List.mem_append.mp hs with hs | hs
        · exact hbody (by simp) s hs
        · exact hbody2 hr s hs
      · intro els1 hr
        obtain ⟨more, rfl, hlen⟩ := hels els1 hr
        exact ⟨t :: more, by simp, by simp [hlen]⟩

/-- What `make_struct` leaves behind when it returns: one struct named `name`
right after the structs that were there, opaque or with a descriptor and one
slot per field, followed by the structs that the fields added. -/
theorem make_struct_post (E : Env) (gt : compile_t → ast_t → GenResult)
    (H : ∀ c ast r c1, gt c ast = .ret (r, c1) → extends_layouts E c r c1)
    (c : compile_t) (name : String) (fields : List ast_t)
    (r : Option LLVMTypeRef) (c1 : compile_t)
    (h : make_struct E gt c name fields = .ret (r, c1)) :
    c1.descriptor_ptr = c.descriptor_ptr ∧ c1.object_ptr = c.object_ptr ∧
    ∃ bo ext, c1.types = c.types ++ ⟨name, bo⟩ :: ext ∧
      (∀ b, bo = some b →
        b.head? = some c.descriptor_ptr ∧ b.length = fields.length + 1) ∧
      (∀ s ∈ ext, ∀ b, s.body = some b →
        layout_shaped E c.descriptor_ptr s.name b) ∧
      (r ≠ none → bo ≠ none ∧ ∀ s ∈ ext, s.body ≠ none) ∧
      (∀ t, r = some t → t = .struct c.types.length) := by
  unfold make_struct at h
  simp only [LLVMStructCreateNamed] at h
  obtain ⟨⟨els, c2⟩, hl, h⟩ := bind_eq_ret _ _ _ h
  obtain ⟨hd, ho, ext, he, hsh, hbody, hels⟩ :=
    make_struct_loop_post E gt H fields _ _ els c2 hl
  simp only at hd ho he hsh
  cases els with
  | none =>
    simp only [Outcome.ret.injEq, Prod.mk.injEq] at h
    obtain ⟨rfl, rfl⟩ := h
    refine ⟨hd, ho, none, ext, ?_, by simp, hsh, by simp, by simp⟩
    rw [he, List.append_assoc]; rfl
  | some els =>
    simp only at h
    obtain ⟨⟨t, c3⟩, ht, h⟩ := bind_eq_ret _ _ _ h
    obtain ⟨ht1, ht2, ht3⟩ := make_trace_types E _ _ _ _ _ _ ht
    obtain ⟨more, rfl, hlen⟩ := hels els rfl
    have hty : c3.types = c.types ++ ⟨name, some ([c.descriptor_ptr] ++ more)⟩ :: ext := by
      rw [ht1]
      simp only [LLVMStructSetBody, he, List.append_assoc, List.singleton_append]
      exact update_at_append_length _ c.types ⟨name, none⟩ ext
    have hres : c1 = c3 ∧ (r = none ∨ r = some (.struct c.types.length)) := by
      cases t with
      | none =>
        simp only [Outcome.ret.injEq, Prod.mk.injEq] at h
        exact ⟨h.2.symm, Or.inl h.1.symm⟩
      | some t =>
        simp only [Outcome.ret.injEq, Prod.mk.injEq] at h
        exact ⟨h.2.symm, Or.inr h.1.symm⟩
    obtain ⟨rfl, hr⟩ := hres
    refine ⟨?_, ?_, some ([c.descriptor_ptr] ++ more), ext, hty, ?_, hsh, ?_, ?_⟩
    · rw [ht2]; exact hd
    · rw [ht3]; exact ho
    · intro b hb
      simp only [Option.some.injEq] at hb
      subst hb
      exact ⟨rfl, by simp [hlen]⟩
    · intro _
      exact ⟨by simp, hbody (by simp)⟩
    · intro t ht
      rcases hr with hr | hr
      · rw [hr] at ht; simp at ht
      · rw [hr] at ht; simp only [Option.some.injEq] at ht; exact ht.symm

theorem getElem?_append_cons_length {α : Type} (l : List α) (a : α) (r : List α) :
    (l ++ a :: r)[l.length]? = some a := by
  rw [List.getElem?_append_right (Nat.le_refl _)]
  simp

theorem find_struct_empty (l : List StructType) : find_struct "" l = none := by
  induction l with
  | nil => rfl
  | cons s l ih => simp [find_struct, ih]

theorem find_struct_ne_empty (name : String) (l : List StructType) (i : Nat)
    (h : find_struct name l = some i) : name ≠ "" := by
  rintro rfl
  rw [find_struct_empty] at h
  simp at h

theorem find_struct_getElem (name : String) (l : List StructType) :
    ∀ i, find_struct name l = some i →
      (l.map StructType.name)[i]? = some name := by
  induction l with
  | nil => intro i h; simp [find_struct] at h
  | cons s l ih =>
    intro i h
    unfold find_struct at h
    by_cases hs : s.name = name ∧ name ≠ ""
    · rw [if_pos hs] at h
      simp only [Option.some.injEq] at h
      subst h
      simp [hs.1]
    · rw [if_neg hs] at h
      cases hf : find_struct name l with
      | none => simp [hf] at h
      | some j =>
        simp only [hf, Option.map_some', Option.some.injEq] at h
        subst h
        rw [List.map_cons, List.getElem?_cons_succ]
        exact ih j hf

theorem names_body_irrelevant (l e : List StructType) (n : String)
    (b b2 : Option (List LLVMTypeRef)) :
    (l ++ ⟨n, b⟩ :: e).map StructType.name =
      (l ++ ⟨n, b2⟩ :: e).map StructType.name := by
  simp

theorem names_append_cons_length (l e : List StructType) (n : String)
    (b : Option (List LLVMTypeRef)) :
    ((l ++ ⟨n, b⟩ :: e).map StructType.name)[l.length]? = some n := by
  rw [List.map_append, List.map_cons]
  have := getElem?_append_cons_length (l.map StructType.name) n
    (e.map StructType.name)
  rwa [List.length_map] at this

theorem find_struct_append_of_some (name : String) (l e : List StructType)
    (i : Nat) (h : find_struct name l = some i) :
    find_struct name (l ++ e) = some i := by
  induction l generalizing i with
  | nil => simp [find_struct] at h
  | cons s l ih =>
    rw [List.cons_append]
    unfold find_struct at h ⊢
    by_cases hs : s.name = name ∧ name ≠ ""
    · rw [if_pos hs] at h ⊢; exact h
    · rw [if_neg hs] at h ⊢
      cases hf : find_struct name l with
      | none => simp [hf] at h
      | some j => rw [ih j hf]; rw [hf] at h; exact h

theorem find_struct_append_cons_of_none (name : String) (l e : List StructType)
    (b : Option (List LLVMTypeRef)) (hne : name ≠ "")
    (h : find_struct name l = none) :
    find_struct name (l ++ ⟨name, b⟩ :: e) = some l.length := by
  induction l with
  | nil => simp [find_struct, hne]
  | cons s l ih =>
    rw [List.cons_append]
    unfold find_struct at h ⊢
    by_cases hs : s.name = name ∧ name ≠ ""
    · rw [if_pos hs] at h; simp at h
    · rw [if_neg hs] at h ⊢
      simp only [Option.map_eq_none'] at h
      rw [ih h]
      simp

theorem extends_layouts_refl (E : Env) (c : compile_t) (r : Option LLVMTypeRef) :
    extends_layouts E c r c :=
  ⟨rfl, rfl, [], by simp, by simp, by simp⟩

/-- The layouts after a returning call of `make_struct` made for the type
`ast`, whose canonical name is `name` and whose fields are `fields`. -/
theorem make_struct_extends (E : Env) (gt : compile_t → ast_t → GenResult)
    (H : ∀ c ast r c1, gt c ast = .ret (r, c1) → extends_layouts E c r c1)
    (c : compile_t) (ast : ast_t) (name : String) (fields : List ast_t)
    (r : Option LLVMTypeRef) (c1 : compile_t)
    (hname : E.genname_type ast = some name)
    (hfields : layout_fields E ast = .ret fields)
    (hfind : find_struct name c.types = none)
    (h : make_struct E gt c name fields = .ret (r, c1)) :
    extends_layouts E c r c1 ∧
      (c1.types.map StructType.name)[c.types.length]? = some name ∧
      (name ≠ "" → find_struct name c1.types = some c.types.length) ∧
      (r = none ∨ r = some (.struct c.types.length)) := by
  obtain ⟨hd, ho, bo, ext, hty, hbo, hsh, hbody, hr⟩ :=
    make_struct_post E gt H c name fields r c1 h
  refine ⟨⟨hd, ho, ⟨name, bo⟩ :: ext, hty, ?_, ?_⟩, ?_, ?_, ?_⟩
  · intro s hs b hb
    rcases List.mem_cons.mp hs with rfl | hs
    · obtain ⟨h1, h2⟩ := hbo b hb
      exact ⟨h1, ast, fields, hname, hfields, h2⟩
    · exact hsh s hs b hb
  · intro hne s hs
    rcases List.mem_cons.mp hs with rfl | hs
    · exact (hbody hne).1
    · exact (hbody hne).2 s hs
  · rw [hty]
    exact names_append_cons_length _ _ _ _
  · intro hne
    rw [hty]; exact find_struct_append_cons_of_none name c.types ext bo hne hfind
  · cases r with
    | none => exact Or.inl rfl
    | some t => exact Or.inr (by rw [hr t rfl])

theorem make_object_post (E : Env) (gt : compile_t → ast_t → GenResult)
    (H : ∀ c ast r c1, gt c ast = .ret (r, c1) → extends_layouts E c r c1)
    (c : compile_t) (ast : ast_t) (t : Option LLVMTypeRef) (e : Option Bool)
    (c1 : compile_t) (hid : ast_id ast = TK_NOMINAL)
    (h : make_object E gt c ast = .ret (t, e, c1)) :
    extends_layouts E c t c1 ∧
      ∀ name, E.genname_type ast = some name → layout_under name t c1 := by
  unfold make_object at h
  cases hn : E.genname_type ast with
  | none =>
    simp only [hn, Outcome.ret.injEq, Prod.mk.injEq] at h
    obtain ⟨rfl, _, rfl⟩ := h
    exact ⟨extends_layouts_refl E c none, by simp⟩
  | some name =>
    simp only [hn, LLVMGetTypeByName] at h
    cases hf : find_struct name c.types with
    | some id =>
      simp only [hf, Option.map_some', Outcome.ret.injEq, Prod.mk.injEq] at h
      obtain ⟨rfl, _, rfl⟩ := h
      refine ⟨extends_layouts_refl E c _, ?_⟩
      intro name1 h1
      simp only [Option.some.injEq] at h1
      subst h1
      exact ⟨id, find_struct_getElem name c.types id hf, fun _ => hf, Or.inr rfl⟩
    | none =>
      simp only [hf, Option.map_none'] at h
      obtain ⟨fields, hg, h⟩ := bind_eq_ret _ _ _ h
      obtain ⟨⟨r, c2⟩, hm, h⟩ := bind_eq_ret _ _ _ h
      have hlf : layout_fields E ast = .ret fields := by
        unfold layout_fields
        rw [if_neg (by rw [hid]; decide)]
        exact hg
      obtain ⟨hext, hat, hfind, hr⟩ :=
        make_struct_extends E gt H c ast name fields r c2 hn hlf hf hm
      cases r with
      | none =>
        simp only [Outcome.ret.injEq, Prod.mk.injEq] at h
        obtain ⟨rfl, _, rfl⟩ := h
        refine ⟨hext, ?_⟩
        intro name1 h1
        simp only [Option.some.injEq] at h1
        subst h1
        exact ⟨_, hat, hfind, Or.inl rfl⟩
      | some ty =>
        simp only [Outcome.ret.injEq, Prod.mk.injEq] at h
        obtain ⟨rfl, _, rfl⟩ := h
        obtain ⟨hd, ho, ext, he, hsh, hbody⟩ := hext
        refine ⟨⟨hd, ho, ext, he, hsh, fun _ => hbody (by simp)⟩, ?_⟩
        intro name1 h1
        simp only [Option.some.injEq] at h1
        subst h1
        refine ⟨_, hat, hfind, Or.inr ?_⟩
        rcases hr with hr | hr
        · simp at hr
        · simp only [Option.some.injEq] at hr
          rw [hr]; rfl

theorem gentype_tuple_post (E : Env) (gt : compile_t → ast_t → GenResult)
    (H : ∀ c ast r c1, gt c ast = .ret (r, c1) → extends_layouts E c r c1)
    (c : compile_t) (ast : ast_t) (t : Option LLVMTypeRef) (c1 : compile_t)
    (hid : ast_id ast = TK_TUPLETYPE)
    (h : gentype_tuple E gt c ast = .ret (t, c1)) :
    extends_layouts E c t c1 ∧
      ∀ name, E.genname_type ast = some name → layout_under name t c1 := by
  unfold gentype_tuple at h
  cases hn : E.genname_type ast with
  | none => simp [hn] at h
  | some name =>
    simp only [hn, LLVMGetTypeByName] at h
    cases hf : find_struct name c.types with
    | some id =>
      simp only [hf, Option.map_some', Outcome.ret.injEq, Prod.mk.injEq] at h
      obtain ⟨rfl, rfl⟩ := h
      refine ⟨extends_layouts_refl E c _, ?_⟩
      intro name1 h1
      simp only [Option.some.injEq] at h1
      subst h1
      exact ⟨id, find_struct_getElem name c.types id hf, fun _ => hf, Or.inr rfl⟩
    | none =>
      simp only [hf, Option.map_none'] at h
      obtain ⟨⟨r, c2⟩, hm, h⟩ := bind_eq_ret _ _ _ h
      have hlf : layout_fields E ast = .ret (ast_children ast) := by
        unfold layout_fields
        rw [if_pos hid]
      obtain ⟨hext, hat, hfind, hr⟩ :=
        make_struct_extends E gt H c ast name _ r c2 hn hlf hf hm
      cases r with
      | none =>
        simp only [Outcome.ret.injEq, Prod.mk.injEq] at h
        obtain ⟨rfl, rfl⟩ := h
        refine ⟨hext, ?_⟩
        intro name1 h1
        simp only [Option.some.injEq] at h1
        subst h1
        exact ⟨_, hat, hfind, Or.inl rfl⟩
      | some ty =>
        simp only [Outcome.ret.injEq, Prod.mk.injEq] at h
        obtain ⟨rfl, rfl⟩ := h
        obtain ⟨hd, ho, ext, he, hsh, hbody⟩ := hext
        refine ⟨⟨hd, ho, ext, he, hsh, fun _ => hbody (by simp)⟩, ?_⟩
        intro name1 h1
        simp only [Option.some.injEq] at h1
        subst h1
        refine ⟨_, hat, hfind, Or.inr ?_⟩
        rcases hr with hr | hr
        · simp at hr
        · simp only [Option.some.injEq] at hr
          rw [hr]; rfl

theorem make_object_wrapper (E : Env) (gt : compile_t → ast_t → GenResult)
    (c : compile_t) (ast : ast_t) (t : Option LLVMTypeRef) (c1 : compile_t)
    (h : ((make_object E gt c ast).bind fun r =>
        match r with
        | (type, exists_, c) =>
          if exists_ = some true ∨ type = none then Outcome.ret (type, c)
          else .ret (type, c)) = .ret (t, c1)) :
    ∃ e, make_object E gt c ast = .ret (t, e, c1) := by
  obtain ⟨⟨t2, e, c2⟩, hm, h⟩ := bind_eq_ret _ _ _ h
  simp only [ite_self, Outcome.ret.injEq, Prod.mk.injEq] at h
  obtain ⟨rfl, rfl⟩ := h
  exact ⟨e, hm⟩

theorem gentype_data_post (E : Env) (gt : compile_t → ast_t → GenResult)
    (c : compile_t) (ast : ast_t) (t : Option LLVMTypeRef) (c1 : compile_t)
    (h : gentype_data E gt c ast = .ret (t, c1)) :
    ∃ name, nominal_name ast = some name ∧
      ((∃ scalar, resolveBuiltin name = some scalar ∧ t = some scalar ∧ c1 = c) ∨
       (resolveBuiltin name = none ∧ ∃ e, make_object E gt c ast = .ret (t, e, c1))) := by
  cases hn : nominal_name ast with
  | none =>
    unfold nominal_name at hn
    unfold gentype_data at h
    cases hc : ast_childidx ast 1 with
    | none => simp [hc] at h
    | some id => simp [hc] at hn
  | some name =>
    refine ⟨name, rfl, ?_⟩
    rw [gentype_data_resolve E gt c ast name hn] at h
    cases hr : resolveBuiltin name with
    | some scalar =>
      simp only [hr, Outcome.ret.injEq, Prod.mk.injEq] at h
      exact Or.inl ⟨scalar, rfl, h.1.symm, h.2.symm⟩
    | none =>
      simp only [hr] at h
      obtain ⟨⟨t2, e, c2⟩, hm, h⟩ := bind_eq_ret _ _ _ h
      simp only [Outcome.ret.injEq, Prod.mk.injEq] at h
      obtain ⟨rfl, rfl⟩ := h
      exact Or.inr ⟨rfl, e, hm⟩

theorem gentype_body_post (E : Env) (gt : compile_t → ast_t → GenResult)
    (H : ∀ c ast r c1, gt c ast = .ret (r, c1) → extends_layouts E c r c1)
    (c : compile_t) (ast : ast_t) (t : Option LLVMTypeRef) (c1 : compile_t)
    (h : gentype_body E gt c ast = .ret (t, c1)) :
    extends_layouts E c t c1 ∧
      (composite E ast → ∀ name, E.genname_type ast = some name →
        layout_under name t c1) := by
  unfold gentype_body at h
  cases hid : ast_id ast <;> simp only [hid] at h
  case TK_UNIONTYPE =>
    have hc : c1 = c := by split at h <;> simp_all
    subst hc
    exact ⟨extends_layouts_refl E _ _, fun hcomp => by simp [composite, hid] at hcomp⟩
  case TK_ISECTTYPE =>
    simp only [Outcome.ret.injEq, Prod.mk.injEq] at h
    obtain ⟨_, rfl⟩ := h
    exact ⟨extends_layouts_refl E _ _, fun hcomp => by simp [composite, hid] at hcomp⟩
  case TK_STRUCTURAL =>
    simp only [Outcome.ret.injEq, Prod.mk.injEq] at h
    obtain ⟨_, rfl⟩ := h
    exact ⟨extends_layouts_refl E _ _, fun hcomp => by simp [composite, hid] at hcomp⟩
  case TK_TUPLETYPE =>
    obtain ⟨h1, h2⟩ := gentype_tuple_post E gt H c ast t c1 hid h
    exact ⟨h1, fun _ => h2⟩
  case TK_NOMINAL =>
    unfold gentype_nominal at h
    simp only [hid, ne_eq, not_true_eq_false, false_and, if_false] at h
    cases hd : ast_data E ast with
    | none => simp [hd] at h
    | some d =>
      have hk : def_kind E ast = some (ast_id d) := by simp [def_kind, hd]
      simp only [hd] at h
      cases hdk : ast_id d <;> simp only [hdk] at h hk
      case TK_TRAIT =>
        simp only [Outcome.ret.injEq, Prod.mk.injEq] at h
        obtain ⟨_, rfl⟩ := h
        exact ⟨extends_layouts_refl E _ _,
          fun hcomp => by simp [composite, hid, hk] at hcomp⟩
      case TK_DATA =>
        obtain ⟨name, hn, hcase⟩ := gentype_data_post E gt c ast t c1 h
        rcases hcase with ⟨scalar, hs, rfl, rfl⟩ | ⟨_, e, hm⟩
        · exact ⟨extends_layouts_refl E _ _,
            fun hcomp => by simp [composite, hid, hk, hn, hs] at hcomp⟩
        · obtain ⟨h1, h2⟩ := make_object_post E gt H c ast t e c1 hid hm
          exact ⟨h1, fun _ => h2⟩
      case TK_CLASS =>
        obtain ⟨e, hm⟩ := make_object_wrapper E gt c ast t c1 h
        obtain ⟨h1, h2⟩ := make_object_post E gt H c ast t e c1 hid hm
        exact ⟨h1, fun _ => h2⟩
      case TK_ACTOR =>
        obtain ⟨e, hm⟩ := make_object_wrapper E gt c ast t c1 h
        obtain ⟨h1, h2⟩ := make_object_post E gt H c ast t e c1 hid hm
        exact ⟨h1, fun _ => h2⟩
      all_goals
        (have hc : c1 = c := by split at h <;> simp_all
         subst hc
         exact ⟨extends_layouts_refl E _ _,
           fun hcomp => by simp [composite, hid, hk] at hcomp⟩)
  all_goals
    (have hc : c1 = c := by split at h <;> simp_all
     subst hc
     exact ⟨extends_layouts_refl E _ _,
       fun hcomp => by simp [composite, hid] at hcomp⟩)

/-- Every returning call of `gentype` extends the layouts. -/
theorem gentype_extends (E : Env) (fuel : Nat) :
    ∀ (c : compile_t) (ast : ast_t) (t : Option LLVMTypeRef) (c1 : compile_t),
      gentype E fuel c ast = .ret (t, c1) → extends_layouts E c t c1 := by
  induction fuel with
  | zero => intro c ast t c1 h; simp [gentype] at h
  | succ n ih =>
    intro c ast t c1 h
    exact (gentype_body_post E (gentype E n) ih c ast t c1 h).1

/-- After a returning call of `gentype` on a composite type with a canonical
name, there is a layout created under that name (registered under it when the
name is not empty), and the result, when it is not NULL, is the pointer to that
layout. -/
theorem gentype_registered (E : Env) (fuel : Nat) (c : compile_t) (ast : ast_t)
    (t : Option LLVMTypeRef) (c1 : compile_t) (name : String)
    (hcomp : composite E ast) (hname : E.genname_type ast = some name)
    (h : gentype E fuel c ast = .ret (t, c1)) :
    layout_under name t c1 := by
  cases fuel with
  | zero => simp [gentype] at h
  | succ n =>
    exact (gentype_body_post E (gentype E n) (gentype_extends E n) c ast t c1 h).2
      hcomp name hname

theorem make_object_hit (E : Env) (gt : compile_t → ast_t → GenResult)
    (c : compile_t) (ast : ast_t) (name : String) (id : Nat)
    (hname : E.genname_type ast = some name)
    (hfind : find_struct name c.types = some id) :
    make_object E gt c ast = .ret (some (.pointer (.struct id)), some true, c) := by
  simp [make_object, hname, LLVMGetTypeByName, hfind, LLVMPointerType]

/-- A composite type whose canonical name is registered resolves to the pointer
to the registered layout, and the state stays as it is. -/
theorem gentype_hit (E : Env) (fuel : Nat) (c : compile_t) (ast : ast_t)
    (name : String) (id : Nat) (hcomp : composite E ast)
    (hname : E.genname_type ast = some name)
    (hfind : find_struct name c.types = some id) :
    gentype E (fuel + 1) c ast = .ret (some (.pointer (.struct id)), c) := by
  show gentype_body E (gentype E fuel) c ast = _
  unfold gentype_body
  rcases hcomp with hid | ⟨hid, hk⟩
  · simp [hid, gentype_tuple, hname, LLVMGetTypeByName, hfind, LLVMPointerType]
  · simp only [hid, gentype_nominal, ne_eq, not_true_eq_false, false_and, if_false]
    unfold def_kind at hk
    cases hd : ast_data E ast with
    | none => simp [hd] at hk
    | some d =>
      simp only [hd, Option.map_some', Option.some.injEq] at hk
      rcases hk with hk | hk | ⟨hk, nm, hn, hr⟩
      · simp [hk, gentype_class, make_object_hit E _ c ast name id hname hfind]
      · simp [hk, gentype_actor, make_object_hit E _ c ast name id hname hfind]
      · simp only [hk]
        rw [gentype_data_resolve E _ c ast nm hn, hr]
        simp [make_object_hit E _ c ast name id hname hfind]

theorem make_object_miss (E : Env) (gt : compile_t → ast_t → GenResult)
    (c : compile_t) (ast : ast_t) (name : String)
    (hname : E.genname_type ast = some name)
    (hfind : find_struct name c.types = none) :
    ((make_object E gt c ast).bind fun r =>
        match r with
        | (type, exists_, c) =>
          if exists_ = some true ∨ type = none then Outcome.ret (type, c)
          else .ret (type, c)) =
      (get_fields E ast).bind fun fields =>
        (make_struct E gt c name fields).bind fun r =>
          .ret (r.1.map LLVMPointerType, r.2) := by
  simp only [make_object, hname, LLVMGetTypeByName, hfind, Option.map_none', ite_self]
  cases get_fields E ast with
  | ret fields =>
    simp only [Outcome.bind_ret]
    cases make_struct E gt c name fields with
    | ret r =>
      obtain ⟨t, c1⟩ := r
      cases t <;> simp
    | abort => rfl
    | undef => rfl
    | nofuel => rfl
  | abort => rfl
  | undef => rfl
  | nofuel => rfl

/-- A composite type whose canonical name is not registered resolves through
`make_struct`, called with the name and the fields of the type. -/
theorem gentype_composite_bind (E : Env) (fuel : Nat) (c : compile_t) (ast : ast_t)
    (name : String) (hcomp : composite E ast)
    (hname : E.genname_type ast = some name)
    (hfind : find_struct name c.types = none) :
    gentype E (fuel + 1) c ast =
      (layout_fields E ast).bind fun fields =>
        (make_struct E (gentype E fuel) c name fields).bind fun r =>
          .ret (r.1.map LLVMPointerType, r.2) := by
  show gentype_body E (gentype E fuel) c ast = _
  unfold gentype_body
  rcases hcomp with hid | ⟨hid, hk⟩
  · simp only [layout_fields, hid, if_true, Outcome.bind_ret]
    simp only [gentype_tuple, hname, LLVMGetTypeByName, hfind, Option.map_none']
    cases make_struct E (gentype E fuel) c name (ast_children ast) with
    | ret r =>
      obtain ⟨t, c1⟩ := r
      cases t <;> simp [LLVMPointerType]
    | abort => rfl
    | undef => rfl
    | nofuel => rfl
  · have hlf : layout_fields E ast = get_fields E ast := by
      simp [layout_fields, hid]
    rw [hlf]
    simp only [hid, gentype_nominal, ne_eq, not_true_eq_false, false_and, if_false]
    unfold def_kind at hk
    cases hd : ast_data E ast with
    | none => simp [hd] at hk
    | some d =>
      simp only [hd, Option.map_some', Option.some.injEq] at hk
      rcases hk with hk | hk | ⟨hk, nm, hn, hr⟩
      · simp only [hk, gentype_class]
        exact make_object_miss E _ c ast name hname hfind
      · simp only [hk, gentype_actor]
        exact make_object_miss E _ c ast name hname hfind
      · simp only [hk]
        unfold gentype_data
        have hc : ∃ id, ast_childidx ast 1 = some id ∧ ast_name id = nm := by
          unfold nominal_name at hn
          cases hc : ast_childidx ast 1 with
          | none => simp [hc] at hn
          | some id => exact ⟨id, rfl, by simpa [hc] using hn⟩
        obtain ⟨id, hc, hnm⟩ := hc
        have hite := resolveBuiltin_eq_ite nm
        rw [hr] at hite
        simp only [hc, hnm]
        by_cases h0 : nm = "True" ∨ nm = "False"
        · rw [if_pos h0] at hite; simp at hite
        rw [if_neg h0] at hite ⊢
        by_cases h1 : nm = "I8" ∨ nm = "U8"
        · rw [if_pos h1] at hite; simp at hite
        rw [if_neg h1] at hite ⊢
        by_cases h2 : nm = "I16" ∨ nm = "U16"
        · rw [if_pos h2] at hite; simp at hite
        rw [if_neg h2] at hite ⊢
        by_cases h3 : nm = "I32" ∨ nm = "U32"
        · rw [if_pos h3] at hite; simp at hite
        rw [if_neg h3] at hite ⊢
        by_cases h4 : nm = "I64" ∨ nm = "U64"
        · rw [if_pos h4] at hite; simp at hite
        rw [if_neg h4] at hite ⊢
        by_cases h5 : nm = "I128" ∨ nm = "U128"
        · rw [if_pos h5] at hite; simp at hite
        rw [if_neg h5] at hite ⊢
        by_cases h6 : nm = "F16"
        · rw [if_pos h6] at hite; simp at hite
        rw [if_neg h6] at hite ⊢
        by_cases h7 : nm = "F32"
        · rw [if_pos h7] at hite; simp at hite
        rw [if_neg h7] at hite ⊢
        by_cases h8 : nm = "F64"
        · rw [if_pos h8] at hite; simp at hite
        rw [if_neg h8]
        exact make_object_miss E _ c ast name hname hfind

theorem gentype_composite_eq (E : Env) (fuel : Nat) (c : compile_t) (ast : ast_t)
    (name : String) (fields : List ast_t) (hcomp : composite E ast)
    (hname : E.genname_type ast = some name)
    (hfind : find_struct name c.types = none)
    (hfields : layout_fields E ast = .ret fields) :
    gentype E (fuel + 1) c ast =
      (make_struct E (gentype E fuel) c name fields).bind fun r =>
        .ret (r.1.map LLVMPointerType, r.2) := by
  rw [gentype_composite_bind E fuel c ast name hcomp hname hfind, hfields]
  rfl

/-- C3 fails as stated, in two ways. The first resolution can return NULL
and leave the struct registered, so that the two results are NULL and a
pointer: the class `Broken` of the sample program, used with two capabilities.
And with a `genname_type` that gives the empty string, the struct of the first
resolution is in no name table: the second resolution of `Point` builds a
second struct, and the two results point to different layouts. -/
theorem same_name_two_results :
    (sample_env.genname_type (nominal_use "Broken" 5 (TK_OTHER 5)) =
        sample_env.genname_type (nominal_use "Broken" 5 TK_TAG) ∧
      gentype sample_env 2 sample_ctx (nominal_use "Broken" 5 (TK_OTHER 5)) =
        .ret (none, sample_broken_ctx) ∧
      gentype sample_env 2 sample_broken_ctx (nominal_use "Broken" 5 TK_TAG) =
        .ret (some (.pointer (.struct 0)), sample_broken_ctx)) ∧
    (sample_env_anon.genname_type (nominal_use "Point" 0 (TK_OTHER 5)) =
        sample_env_anon.genname_type (nominal_use "Point" 0 TK_TAG) ∧
      ∃ c1 c2,
        gentype sample_env_anon 2 sample_ctx (nominal_use "Point" 0 (TK_OTHER 5)) =
          .ret (some (.pointer (.struct 0)), c1) ∧
        gentype sample_env_anon 2 c1 (nominal_use "Point" 0 TK_TAG) =
          .ret (some (.pointer (.struct 1)), c2) ∧
        c2.types = [⟨"", some [.other 0, .int 32, .int 32]⟩,
          ⟨"", some [.other 0, .int 32, .int 32]⟩]) :=
  ⟨⟨rfl, rfl, rfl⟩, rfl, _, _, rfl, rfl, rfl⟩

/-- C3, amended: memoization. For two composite type uses `a1` and `a2` with
the same canonical name, which is not the empty string, and any starting
state: when `gentype` on `a1` returns, a layout is registered under the name,
the result of the first call is NULL or the pointer to that layout, and
`gentype` on `a2` (with budget for one call) returns the pointer to that same
layout, the same struct identity and not a copy, without changing the
state. -/
theorem gentype_memoized (E : Env) (fuel fuel2 : Nat) (c c1 : compile_t)
    (a1 a2 : ast_t) (name : String) (r1 : Option LLVMTypeRef)
    (h1 : composite E a1) (h2 : composite E a2)
    (hn1 : E.genname_type a1 = some name) (hn2 : E.genname_type a2 = some name)
    (hne : name ≠ "")
    (hfirst : gentype E fuel c a1 = .ret (r1, c1)) :
    ∃ id, find_struct name c1.types = some id ∧
      (r1 = none ∨ r1 = some (.pointer (.struct id))) ∧
      gentype E (fuel2 + 1) c1 a2 = .ret (some (.pointer (.struct id)), c1) := by
  obtain ⟨id, _, hfind, ht⟩ :=
    gentype_registered E fuel c a1 r1 c1 name h1 hn1 hfirst
  exact ⟨id, hfind hne, ht, gentype_hit E fuel2 c1 a2 name id h2 hn2 (hfind hne)⟩

/-- C3, amended, at two uses of `Point` of the sample program with different
capabilities: the second resolution returns the layout built by the first. -/
theorem gentype_memoized_witness :
    ∃ id, find_struct "Point" sample_point_ctx.types = some id ∧
      (some (LLVMTypeRef.pointer (.struct 0)) = none ∨
        some (LLVMTypeRef.pointer (.struct 0)) = some (.pointer (.struct id))) ∧
      gentype sample_env (0 + 1) sample_point_ctx (nominal_use "Point" 0 TK_TAG) =
        .ret (some (.pointer (.struct id)), sample_point_ctx) :=
  gentype_memoized sample_env 2 0 sample_ctx sample_point_ctx
    (nominal_use "Point" 0 (TK_OTHER 5)) (nominal_use "Point" 0 TK_TAG) "Point"
    (some (.pointer (.struct 0)))
    (Or.inr ⟨rfl, Or.inl rfl⟩) (Or.inr ⟨rfl, Or.inl rfl⟩) rfl rfl (by decide) rfl

/-- C5 fails as stated. In the sample program the construction of the layout
of `Broken` fails at its field (the field type has no canonical name):
`gentype` returns NULL and leaves the struct `Broken` registered without a
body, and the next call for the same type finds it by name and returns a
pointer to it instead of building the layout again. The same happens with the
body set when the verification of the trace function of `Point` fails. -/
theorem failed_layout_stays_registered :
    (gentype sample_env 2 sample_ctx (nominal_use "Broken" 5 (TK_OTHER 5)) =
        .ret (none, sample_broken_ctx) ∧
      find_struct "Broken" sample_broken_ctx.types = some 0 ∧
      sample_broken_ctx.types[0]? = some ⟨"Broken", none⟩ ∧
      gentype sample_env 2 sample_broken_ctx (nominal_use "Broken" 5 (TK_OTHER 5)) =
        .ret (some (.pointer (.struct 0)), sample_broken_ctx)) ∧
    (gentype sample_env_reject 2 sample_ctx (nominal_use "Point" 0 (TK_OTHER 5)) =
        .ret (none, sample_point_ctx) ∧
      find_struct "Point" sample_point_ctx.types = some 0 ∧
      gentype sample_env_reject 2 sample_point_ctx
          (nominal_use "Point" 0 (TK_OTHER 5)) =
        .ret (some (.pointer (.struct 0)), sample_point_ctx)) :=
  ⟨⟨rfl, rfl, rfl, rfl⟩, ⟨rfl, rfl, rfl⟩⟩

/-- C5, amended: when `gentype` returns NULL for a composite type with
canonical name `name` (a field failed to resolve, or the verification of the
trace function failed) and `name` is not the empty string, the struct created
under `name` stays registered, and a following call of `gentype` for the same
type finds it and returns the pointer to it, leaving the state as it is:
`make_struct` is not run again. When `name` is the empty string the struct is
in no name table, and the following call runs `make_struct` again. -/
theorem gentype_failure_keeps_layout (E : Env) (fuel fuel2 : Nat)
    (c c1 : compile_t) (ast : ast_t) (name : String)
    (hcomp : composite E ast) (hname : E.genname_type ast = some name)
    (hfail : gentype E fuel c ast = .ret (none, c1)) :
    (name ≠ "" →
      ∃ id, find_struct name c1.types = some id ∧
        gentype E (fuel2 + 1) c1 ast = .ret (some (.pointer (.struct id)), c1)) ∧
    (name = "" →
      gentype E (fuel2 + 1) c1 ast =
        (layout_fields E ast).bind fun fields =>
          (make_struct E (gentype E fuel2) c1 name fields).bind fun r =>
            .ret (r.1.map LLVMPointerType, r.2)) := by
  constructor
  · intro hne
    obtain ⟨id, _, hfind, _⟩ :=
      gentype_registered E fuel c ast none c1 name hcomp hname hfail
    exact ⟨id, hfind hne, gentype_hit E fuel2 c1 ast name id hcomp hname (hfind hne)⟩
  · intro he
    exact gentype_composite_bind E fuel2 c1 ast name hcomp hname
      (by rw [he]; exact find_struct_empty _)

/-- C5, amended, at the class `Broken` of the sample program. -/
theorem gentype_failure_keeps_layout_witness :
    ∃ id, find_struct "Broken" sample_broken_ctx.types = some id ∧
      gentype sample_env (0 + 1) sample_broken_ctx
          (nominal_use "Broken" 5 (TK_OTHER 5)) =
        .ret (some (.pointer (.struct id)), sample_broken_ctx) :=
  (gentype_failure_keeps_layout sample_env 2 0 sample_ctx sample_broken_ctx
    (nominal_use "Broken" 5 (TK_OTHER 5)) "Broken"
    (Or.inr ⟨rfl, Or.inl rfl⟩) rfl rfl).1 (by decide)

/-- C4 fails as stated. The state left by the failed construction of the
layout of `Broken` is reachable from the empty cache by one call of `gentype`,
and its layout `Broken` has no slot at all: its slot count is not the field
count (one) plus one, and it has no descriptor slot. -/
theorem reachable_layout_without_slots :
    Reachable sample_env false sample_broken_ctx ∧
    (⟨"Broken", none⟩ : StructType) ∈ sample_broken_ctx.types ∧
    get_fields sample_env (nominal_use "Broken" 5 (TK_OTHER 5)) =
      .ret [.node TK_NOMINAL "" (some 0) none []] ∧
    (slots ⟨"Broken", none⟩).length = 0 ∧
    ¬ layout_shaped sample_env sample_broken_ctx.descriptor_ptr "Broken"
      (slots ⟨"Broken", none⟩) :=
  ⟨Reachable.call true sample_ctx sample_broken_ctx 2
      (nominal_use "Broken" 5 (TK_OTHER 5)) none (Reachable.start sample_ctx rfl) rfl,
    List.mem_singleton.mpr rfl, rfl, rfl,
    fun h => by simp [slots] at h; exact absurd h.1 (by simp)⟩

/-- C4, amended: in every state reached from a state without layouts by calls
of `gentype`, every layout of the cache whose body has been set has the
descriptor pointer as slot 0 and one slot more than the fields of a type with
its canonical name; and when no call of the sequence returned NULL, every
layout of the cache has its body set. -/
theorem reachable_layouts_shaped (E : Env) (ok : Bool) (c : compile_t)
    (h : Reachable E ok c) :
    ∀ s ∈ c.types,
      (∀ b, s.body = some b → layout_shaped E c.descriptor_ptr s.name b) ∧
      (ok = true → s.body ≠ none) := by
  induction h with
  | start c h => intro s hs; simp [h] at hs
  | call ok c c1 fuel ast r _ hcall ih =>
    obtain ⟨hd, _, ext, he, hsh, hbody⟩ := gentype_extends E fuel c ast r c1 hcall
    intro s hs
    rw [he] at hs
    rw [hd]
    rcases List.mem_append.mp hs with hs | hs
    · refine ⟨(ih s hs).1, fun hok => (ih s hs).2 ?_⟩
      simp only [Bool.and_eq_true] at hok
      exact hok.1
    · refine ⟨hsh s hs, fun hok => hbody ?_ s hs⟩
      simp only [Bool.and_eq_true] at hok
      intro hr
      rw [hr] at hok
      simp at hok

/-- C4, amended, at the state of the sample program after `Point` has been
resolved. -/
theorem reachable_layouts_shaped_witness :
    Reachable sample_env true sample_point_ctx ∧
    (⟨"Point", some [.other 0, .int 32, .int 32]⟩ : StructType) ∈
      sample_point_ctx.types ∧
    layout_shaped sample_env sample_point_ctx.descriptor_ptr "Point"
      [.other 0, .int 32, .int 32] ∧
    (⟨"Point", some [.other 0, .int 32, .int 32]⟩ : StructType).body ≠ none :=
  ⟨Reachable.call true sample_ctx sample_point_ctx 2
      (nominal_use "Point" 0 (TK_OTHER 5)) (some (.pointer (.struct 0)))
      (Reachable.start sample_ctx rfl) rfl,
    List.mem_singleton.mpr rfl,
    (reachable_layouts_shaped sample_env true sample_point_ctx
      (Reachable.call true sample_ctx sample_point_ctx 2
        (nominal_use "Point" 0 (TK_OTHER 5)) (some (.pointer (.struct 0)))
        (Reachable.start sample_ctx rfl) rfl)
      ⟨"Point", some [.other 0, .int 32, .int 32]⟩
      (List.mem_singleton.mpr rfl)).1 _ rfl,
    (reachable_layouts_shaped sample_env true sample_point_ctx
      (Reachable.call true sample_ctx sample_point_ctx 2
        (nominal_use "Point" 0 (TK_OTHER 5)) (some (.pointer (.struct 0)))
        (Reachable.start sample_ctx rfl) rfl)
      ⟨"Point", some [.other 0, .int 32, .int 32]⟩
      (List.mem_singleton.mpr rfl)).2 rfl⟩

/-! ### Classes of scalar fields -/

theorem gentype_builtin_field (E : Env) (fuel : Nat) (c : compile_t) (f : ast_t)
    (h : builtin_field E f) :
    ∃ scalar, builtin_scalar f = some scalar ∧
      gentype E (fuel + 1) c f = .ret (some scalar, c) := by
  obtain ⟨hid, hk, hs⟩ := h
  cases hb : builtin_scalar f with
  | none => simp [hb] at hs
  | some scalar =>
    refine ⟨scalar, rfl, ?_⟩
    unfold builtin_scalar at hb
    cases hn : nominal_name f with
    | none => simp [hn] at hb
    | some name =>
      simp only [hn, Option.some_bind] at hb
      exact gentype_builtin E fuel c f name scalar hid hk hn hb

theorem get_fields_count_eq (members : List ast_t) :
    ∀ n, get_fields_count members n = n + (members.filter is_field).length := by
  induction members with
  | nil => intro n; simp [get_fields_count]
  | cons m rest ih =>
    intro n
    cases h : ast_id m <;>
      simp [get_fields_count, is_field, h, ih, List.filter_cons] <;> omega

theorem set_append_length {α : Type} (l : List α) (a x : α) (r : List α) :
    (l ++ a :: r).set l.length x = l ++ x :: r := by
  induction l with
  | nil => rfl
  | cons b l ih => simp [ih]

theorem get_fields_fill_eq (E : Env) (typeparams typeargs : Option ast_t)
    (members : List ast_t) :
    ∀ (filled : List (Option ast_t)),
      get_fields_fill E typeparams typeargs members
          (filled ++ List.replicate (members.filter is_field).length none)
          filled.length =
        filled ++ (members.filter is_field).map fun m =>
          some (E.reify (ast_type m) typeparams typeargs) := by
  induction members with
  | nil => intro filled; simp [get_fields_fill]
  | cons m rest ih =>
    intro filled
    by_cases hf : is_field m = true
    · have hstep : get_fields_fill E typeparams typeargs (m :: rest)
            (filled ++ List.replicate ((m :: rest).filter is_field).length none)
            filled.length =
          get_fields_fill E typeparams typeargs rest
            ((filled ++ [some (E.reify (ast_type m) typeparams typeargs)]) ++
              List.replicate (rest.filter is_field).length none)
            (filled ++ [some (E.reify (ast_type m) typeparams typeargs)]).length := by
        have hset : (filled ++ List.replicate ((m :: rest).filter is_field).length none).set
            filled.length (some (E.reify (ast_type m) typeparams typeargs)) =
            (filled ++ [some (E.reify (ast_type m) typeparams typeargs)]) ++
              List.replicate (rest.filter is_field).length none := by
          simp only [List.filter_cons, hf, if_true, List.length_cons, List.replicate_succ,
            set_append_length, List.append_assoc, List.singleton_append]
        unfold is_field at hf
        cases h : ast_id m <;> simp only [h] at hf <;>
          first
          | (exact absurd hf (by decide))
          | (simp only [get_fields_fill, h, hset, List.length_append, List.length_singleton])
      rw [hstep, ih]
      simp [List.filter_cons, hf]
    · have hstep : get_fields_fill E typeparams typeargs (m :: rest)
            (filled ++ List.replicate ((m :: rest).filter is_field).length none)
            filled.length =
          get_fields_fill E typeparams typeargs rest
            (filled ++ List.replicate (rest.filter is_field).length none)
            filled.length := by
        simp only [List.filter_cons, hf]
        unfold is_field at hf
        cases h : ast_id m <;> simp only [h] at hf <;>
          first
          | (exact absurd trivial hf)
          | (simp [get_fields_fill, h])
      rw [hstep, ih]
      simp [List.filter_cons, hf]

theorem field_array_some (l : List ast_t) : field_array (l.map some) = .ret l := by
  induction l with
  | nil => rfl
  | cons a l ih => simp [field_array, ih]

/-- The list that `get_fields` returns for a definition that is not a data
definition: the reified types of the `var` and `let` members, in order. -/
theorem get_fields_eq (E : Env) (ast d members : ast_t)
    (hid : ast_id ast = TK_NOMINAL) (hd : ast_data E ast = some d)
    (hk : ast_id d ≠ TK_DATA) (hm : ast_childidx d 4 = some members) :
    get_fields E ast =
      .ret (((ast_children members).filter is_field).map fun m =>
        E.reify (ast_type m) (ast_childidx d 1) (ast_childidx ast 2)) := by
  unfold get_fields
  simp only [hid, ne_eq, not_true_eq_false, false_and, if_false, hd, hk, hm]
  rw [get_fields_count_eq, Nat.zero_add]
  have := get_fields_fill_eq E (ast_childidx d 1) (ast_childidx ast 2)
    (ast_children members) []
  simp only [List.nil_append, List.length_nil] at this
  rw [this]
  have h2 := field_array_some (((ast_children members).filter is_field).map fun m =>
    E.reify (ast_type m) (ast_childidx d 1) (ast_childidx ast 2))
  rw [List.map_map] at h2
  exact h2

/-- C12 fails as stated: for a data definition `get_fields` sets the count to
zero before it looks at the members. The data definition `D` declares one
`var` member, and `get_fields` of a use of `D` returns no field. -/
theorem get_fields_data_no_fields :
    ast_id (nominal_use "D" 0 (TK_OTHER 5)) = TK_NOMINAL ∧
    ast_data sample_env_data (nominal_use "D" 0 (TK_OTHER 5)) =
      some (definition TK_DATA "D" [fvar "x" (nominal_use "D" 0 (TK_OTHER 5))]) ∧
    ((ast_childidx
        (definition TK_DATA "D" [fvar "x" (nominal_use "D" 0 (TK_OTHER 5))]) 4).map
      fun members => (ast_children members).countP is_field) = some 1 ∧
    get_fields sample_env_data (nominal_use "D" 0 (TK_OTHER 5)) = .ret [] :=
  ⟨rfl, rfl, rfl, rfl⟩

/-- C12, amended: for a nominal type use whose definition `d` is not a data
definition, `get_fields` returns the ordered list of the declared data fields
of `d`: as many entries as there are `var`/`let` members (other members are
skipped), the k-th entry being `reify` of the declared type of the k-th
`var`/`let` member, the type parameters of `d` (child 1) and the type arguments
of the use (child 2). For a data definition it returns no field, whatever the
members. -/
theorem get_fields_declared (E : Env) (ast d : ast_t)
    (hid : ast_id ast = TK_NOMINAL) (hd : ast_data E ast = some d) :
    (ast_id d = TK_DATA → get_fields E ast = .ret []) ∧
    (ast_id d ≠ TK_DATA → ∀ members, ast_childidx d 4 = some members →
      ∃ fields, get_fields E ast = .ret fields ∧
        fields.length = (ast_children members).countP is_field ∧
        ∀ k : Nat, fields[k]? =
          (((ast_children members).filter is_field)[k]?).map fun member =>
            E.reify (ast_type member) (ast_childidx d 1) (ast_childidx ast 2)) := by
  refine ⟨?_, ?_⟩
  · intro hk
    simp [get_fields, hid, hd, hk]
  · intro hk members hm
    refine ⟨_, get_fields_eq E ast d members hid hd hk hm, ?_, ?_⟩
    · simp [List.countP_eq_length_filter]
    · intro k
      simp [List.getElem?_map]

/-- C12, amended, at the class `Point` of the sample program: two fields, the
method between them skipped. -/
theorem get_fields_declared_witness :
    ∃ fields, get_fields sample_env (nominal_use "Point" 0 (TK_OTHER 5)) =
        .ret fields ∧
      fields.length = 2 ∧
      fields[0]? = some (nominal_use "I32" 1 (TK_OTHER 5)) ∧
      fields[1]? = some (nominal_use "I32" 1 (TK_OTHER 5)) ∧
      fields[2]? = none :=
  match (get_fields_declared sample_env (nominal_use "Point" 0 (TK_OTHER 5))
    (definition TK_CLASS "Point"
      [fvar "x" (nominal_use "I32" 1 (TK_OTHER 5)), leaf (TK_OTHER 9) "fun",
       fvar "y" (nominal_use "I32" 1 (TK_OTHER 5))]) rfl rfl).2 (by decide)
      (.node (TK_OTHER 2) "" none none
        [fvar "x" (nominal_use "I32" 1 (TK_OTHER 5)), leaf (TK_OTHER 9) "fun",
         fvar "y" (nominal_use "I32" 1 (TK_OTHER 5))]) rfl with
  | ⟨fields, h1, h2, h3⟩ =>
    ⟨fields, h1, h2.trans rfl, (h3 0).trans rfl, (h3 1).trans rfl, (h3 2).trans rfl⟩

/-! ### Types without a canonical name, shapes without a case -/

/-- A class, actor or data type outside the table whose canonical name cannot
be computed: `make_object` returns NULL before it looks at the cache, and the
state is left as it is. -/
theorem gentype_nominal_unnamed (E : Env) (fuel : Nat) (c : compile_t) (ast : ast_t)
    (hid : ast_id ast = TK_NOMINAL)
    (hk : def_kind E ast = some TK_CLASS ∨ def_kind E ast = some TK_ACTOR ∨
      (def_kind E ast = some TK_DATA ∧
        ∃ name, nominal_name ast = some name ∧ resolveBuiltin name = none))
    (hname : E.genname_type ast = none) :
    gentype E (fuel + 1) c ast = .ret (none, c) := by
  show gentype_body E (gentype E fuel) c ast = _
  unfold gentype_body
  simp only [hid, gentype_nominal, ne_eq, not_true_eq_false, false_and, if_false]
  unfold def_kind at hk
  cases hd : ast_data E ast with
  | none => simp [hd] at hk
  | some d =>
    simp only [hd, Option.map_some', Option.some.injEq] at hk
    rcases hk with hk | hk | ⟨hk, nm, hn, hr⟩
    · simp [hk, gentype_class, make_object, hname]
    · simp [hk, gentype_actor, make_object, hname]
    · simp only [hk]
      rw [gentype_data_resolve E _ c ast nm hn, hr]
      simp [make_object, hname]

/-- A tuple whose canonical name cannot be computed: the NULL name goes to
`LLVMGetTypeByName`. -/
theorem gentype_tuple_unnamed (E : Env) (fuel : Nat) (c : compile_t) (ast : ast_t)
    (hid : ast_id ast = TK_TUPLETYPE) (hname : E.genname_type ast = none) :
    gentype E (fuel + 1) c ast = .undef := by
  show gentype_body E (gentype E fuel) c ast = _
  simp [gentype_body, hid, gentype_tuple, hname]

/-- C14, the code at the failing input: with a `genname_type` that yields no
name, the class `Point` resolves to NULL with the state untouched, as the claim
says, but the tuple `(I32, A)` does not return NULL: `gentype_tuple` hands the
NULL name to `LLVMGetTypeByName`, which is undefined behaviour. -/
theorem gentype_tuple_name_unchecked :
    sample_env_unnamed.genname_type (nominal_use "Point" 0 (TK_OTHER 5)) = none ∧
    gentype sample_env_unnamed 1 sample_ctx (nominal_use "Point" 0 (TK_OTHER 5)) =
      .ret (none, sample_ctx) ∧
    ast_id sample_tuple = TK_TUPLETYPE ∧
    sample_env_unnamed.genname_type sample_tuple = none ∧
    gentype sample_env_unnamed 1 sample_ctx sample_tuple = .undef ∧
    (∀ fuel c1, gentype sample_env_unnamed (fuel + 1) sample_ctx sample_tuple ≠
      .ret (none, c1)) :=
  ⟨rfl, rfl, rfl, rfl, rfl, fun fuel c1 h => by
    rw [gentype_tuple_unnamed sample_env_unnamed fuel sample_ctx sample_tuple rfl rfl] at h
    exact Outcome.noConfusion h⟩

theorem field_trace_unsupported (E : Env) (i : Nat) (ast : ast_t)
    (h : unsupported_shape E ast) : field_trace E i ast = .abort := by
  rcases h with ⟨h1, h2, h3, h4, h5⟩ | ⟨hid, k, hk, k1, k2, k3, k4⟩
  · unfold field_trace make_trace_field
    cases hid : ast_id ast <;> cases hn : E.ndebug <;> simp_all
  · rw [field_trace_nominal E i ast k hid hk]
    cases k <;> simp_all

theorem loop_trace_unsupported (E : Env) (fields : List ast_t) :
    ∀ (j i : Nat) (ast : ast_t), fields[i]? = some ast → unsupported_shape E ast →
      (∀ (k : Nat) (f : ast_t), k < i → fields[k]? = some f → supported_field E f) →
      loop_trace E j fields = .abort := by
  induction fields with
  | nil => intro j i ast hi; simp at hi
  | cons f rest ih =>
    intro j i ast hi hbad hsup
    cases i with
    | zero =>
      simp only [List.getElem?_cons_zero, Option.some.injEq] at hi
      subst hi
      simp [loop_trace, field_trace_unsupported E j f hbad]
    | succ i =>
      simp only [List.getElem?_cons_succ] at hi
      obtain ⟨a, ha⟩ :=
        field_trace_supported E j f (hsup 0 f (Nat.succ_pos i) (by simp))
      have := ih (j + 1) i ast hi hbad (fun k g hk hg =>
        hsup (k + 1) g (Nat.succ_lt_succ hk) (by simpa using hg))
      simp [loop_trace, ha, this]

/-- The `default:` branches of `gentype` and `gentype_nominal` on a type
whose shape has no case: the abort of `assert(0)` with assertions, the
`return NULL` after it with `NDEBUG`. -/
theorem gentype_unsupported (E : Env) (fuel : Nat) (c : compile_t) (ast : ast_t)
    (h : unsupported_shape E ast) :
    gentype E (fuel + 1) c ast =
      if E.ndebug then .ret (none, c) else .abort := by
  show gentype_body E (gentype E fuel) c ast = _
  unfold gentype_body
  rcases h with ⟨h1, h2, h3, h4, h5⟩ | ⟨hid, k, hk, k1, k2, k3, k4⟩
  · cases hid : ast_id ast <;> simp_all
  · simp only [hid, gentype_nominal, ne_eq, not_true_eq_false, false_and, if_false]
    unfold def_kind at hk
    cases hd : ast_data E ast with
    | none => simp [hd] at hk
    | some d =>
      simp only [hd, Option.map_some', Option.some.injEq] at hk
      subst hk
      cases hdk : ast_id d <;> simp_all

/-- C15 fails as stated: the claim names no build. The `default:` branches
are `assert(0); return NULL;`, and compiled with `NDEBUG` the `assert` is
nothing: on a node that is not a type (`TK_OTHER`) `gentype` returns NULL, the
recoverable failure, and leaves the state as it is; and with such a node as
second field `make_trace` returns NULL and leaves its function without a
return. -/
theorem unsupported_shape_returns_null :
    unsupported_shape sample_env_ndebug (leaf (TK_OTHER 7) "") ∧
    gentype sample_env_ndebug 1 sample_ctx (leaf (TK_OTHER 7) "") =
      .ret (none, sample_ctx) ∧
    make_trace sample_env_ndebug sample_ctx "S" (.struct 0)
        [nominal_use "I32" 1 (TK_OTHER 5), leaf (TK_OTHER 7) ""] =
      .ret (none,
        { sample_ctx with
          functions :=
            [⟨"S$trace",
              [.bitcast (.pointer (.struct 0)), .structGEP 1, .structGEP 2]⟩],
          builder := some 0 }) :=
  ⟨Or.inl ⟨by decide, by decide, by decide, by decide, by decide⟩, rfl, rfl⟩

/-- C15, amended: a type whose shape has no case (none of nominal, union,
intersection, tuple, structural, or a nominal type whose definition is none of
trait, data, class, actor). Compiled with assertions, it makes `gentype` end in
the abort of `assert(0)`, which is not the return of NULL in any state; and as
the field `fields[i]` of a list whose earlier fields have supported shapes it
makes `make_trace` end in the same abort, again not a return. Compiled with
`NDEBUG`, it makes `gentype` return NULL and leave the state as it is, and
`make_trace` return NULL with its function added and left without a return. -/
theorem unsupported_shape_aborts (E : Env) (ast : ast_t)
    (h : unsupported_shape E ast) :
    (E.ndebug = false →
      (∀ fuel c, gentype E (fuel + 1) c ast = .abort ∧
        ∀ c1, gentype E (fuel + 1) c ast ≠ .ret (none, c1)) ∧
      (∀ c name type fields (i : Nat), fields[i]? = some ast →
        (∀ (k : Nat) (f : ast_t), k < i → fields[k]? = some f →
          supported_field E f) →
        make_trace E c name type fields = .abort ∧
        ∀ r c1, make_trace E c name type fields ≠ .ret (r, c1))) ∧
    (E.ndebug = true →
      (∀ fuel c, gentype E (fuel + 1) c ast = .ret (none, c)) ∧
      (∀ c name type fields (i : Nat), fields[i]? = some ast →
        (∀ (k : Nat) (f : ast_t), k < i → fields[k]? = some f →
          supported_field E f) →
        ∃ is, make_trace E c name type fields =
          .ret (none, cut_trace E c type name is))) := by
  refine ⟨fun hn => ⟨?_, ?_⟩, fun hn => ⟨?_, ?_⟩⟩
  · intro fuel c
    have habort : gentype E (fuel + 1) c ast = .abort := by
      rw [gentype_unsupported E fuel c ast h, hn]; rfl
    exact ⟨habort, fun c1 hc => by rw [habort] at hc; exact Outcome.noConfusion hc⟩
  · intro c name type fields i hi hsup
    have habort : make_trace E c name type fields = .abort := by
      have h0 := make_trace_eq E c name type fields
      rw [loop_trace_unsupported E fields 0 i ast hi h hsup] at h0
      simpa [hn] using h0
    exact ⟨habort, fun r c1 hc => by rw [habort] at hc; exact Outcome.noConfusion hc⟩
  · intro fuel c
    rw [gentype_unsupported E fuel c ast h, hn]; rfl
  · intro c name type fields i hi hsup
    have h0 := make_trace_eq E c name type fields
    rw [loop_trace_unsupported E fields 0 i ast hi h hsup] at h0
    simpa [hn, cut_trace] using h0

/-- C15, amended, at a node of the sample program that is not a type
(`TK_OTHER`), on its own and as the second field after an `I32`, compiled with
assertions. -/
theorem unsupported_shape_aborts_witness :
    (gentype sample_env (0 + 1) sample_ctx (leaf (TK_OTHER 7) "") = .abort ∧
      ∀ c1, gentype sample_env (0 + 1) sample_ctx (leaf (TK_OTHER 7) "") ≠
        .ret (none, c1)) ∧
    (make_trace sample_env sample_ctx "S" (.struct 0)
        [nominal_use "I32" 1 (TK_OTHER 5), leaf (TK_OTHER 7) ""] = .abort ∧
      ∀ r c1, make_trace sample_env sample_ctx "S" (.struct 0)
        [nominal_use "I32" 1 (TK_OTHER 5), leaf (TK_OTHER 7) ""] ≠ .ret (r, c1)) :=
  ⟨((unsupported_shape_aborts sample_env (leaf (TK_OTHER 7) "")
      (Or.inl ⟨by decide, by decide, by decide, by decide, by decide⟩)).1 rfl).1
      0 sample_ctx,
   ((unsupported_shape_aborts sample_env (leaf (TK_OTHER 7) "")
      (Or.inl ⟨by decide, by decide, by decide, by decide, by decide⟩)).1 rfl).2
      sample_ctx "S" (.struct 0)
      [nominal_use "I32" 1 (TK_OTHER 5), leaf (TK_OTHER 7) ""] 1 rfl
      (fun k f hk hf => by
        have hk0 : k = 0 := by omega
        subst hk0
        simp only [List.getElem?_cons_zero, Option.some.injEq] at hf
        subst hf
        exact Or.inr (Or.inr (Or.inr (Or.inr ⟨rfl, Or.inr (Or.inl rfl)⟩))))⟩

/-! ### Construction of a layout, step by step -/

theorem make_struct_loop_resolved (gt : compile_t → ast_t → GenResult)
    (c c2 : compile_t) (fields : List ast_t) (ts : List LLVMTypeRef)
    (h : resolved_in_order gt c fields ts c2) :
    ∀ els, make_struct_loop gt c els fields = .ret (some (els ++ ts), c2) := by
  induction h with
  | nil c => intro els; simp [make_struct_loop]
  | cons c c1 c2 f rest t ts h _ ih =>
    intro els
    simp [make_struct_loop, h, ih]

theorem make_struct_loop_failed (gt : compile_t → ast_t → GenResult)
    (c cpre cpost : compile_t) (done : List ast_t) (ts : List LLVMTypeRef)
    (f : ast_t) (rest : List ast_t)
    (h : resolved_in_order gt c done ts cpre)
    (hf : gt cpre f = .ret (none, cpost)) :
    ∀ els, make_struct_loop gt c els (done ++ f :: rest) = .ret (none, cpost) := by
  induction h with
  | nil c => intro els; simp [make_struct_loop, hf]
  | cons c c1 c2 g more t ts h _ ih =>
    intro els
    simp [make_struct_loop, h, ih hf]

theorem make_struct_loop_some (gt : compile_t → ast_t → GenResult)
    (fields : List ast_t) :
    ∀ (c : compile_t) (els els1 : List LLVMTypeRef) (c2 : compile_t),
      make_struct_loop gt c els fields = .ret (some els1, c2) →
      ∃ ts, els1 = els ++ ts ∧ resolved_in_order gt c fields ts c2 := by
  induction fields with
  | nil =>
    intro c els els1 c2 h
    simp only [make_struct_loop, Outcome.ret.injEq, Prod.mk.injEq,
      Option.some.injEq] at h
    obtain ⟨rfl, rfl⟩ := h
    exact ⟨[], by simp, .nil c⟩
  | cons f rest ih =>
    intro c els els1 c2 h
    simp only [make_struct_loop] at h
    obtain ⟨⟨t, c1⟩, hg, h⟩ := bind_eq_ret _ _ _ h
    cases t with
    | none => simp at h
    | some t =>
      simp only at h
      obtain ⟨ts, rfl, hr⟩ := ih c1 (els ++ [t]) els1 c2 h
      exact ⟨t :: ts, by simp, .cons c c1 c2 f rest t ts hg hr⟩

theorem make_struct_loop_none (gt : compile_t → ast_t → GenResult)
    (fields : List ast_t) :
    ∀ (c : compile_t) (els : List LLVMTypeRef) (c2 : compile_t),
      make_struct_loop gt c els fields = .ret (none, c2) →
      ∃ (i : Nat) (f : ast_t) (ts : List LLVMTypeRef) (cpre : compile_t),
        fields[i]? = some f ∧ resolved_in_order gt c (fields.take i) ts cpre ∧
        gt cpre f = .ret (none, c2) := by
  induction fields with
  | nil => intro c els c2 h; simp [make_struct_loop] at h
  | cons f rest ih =>
    intro c els c2 h
    simp only [make_struct_loop] at h
    obtain ⟨⟨t, c1⟩, hg, h⟩ := bind_eq_ret _ _ _ h
    cases t with
    | none =>
      simp only [Outcome.ret.injEq, Prod.mk.injEq, true_and] at h
      subst h
      exact ⟨0, f, [], c, by simp, .nil c, hg⟩
    | some t =>
      simp only at h
      obtain ⟨i, g, ts, cpre, hi, hr, hfail⟩ := ih c1 (els ++ [t]) c2 h
      exact ⟨i + 1, g, t :: ts, cpre, by simpa using hi,
        .cons c c1 cpre f (rest.take i) t ts hg hr, hfail⟩

theorem make_trace_resolved (E : Env) (c : compile_t) (name : String)
    (type : LLVMTypeRef) (fields : List ast_t) (is : List Instr)
    (his : loop_trace E 0 fields = .ret is) :
    make_trace E c name type fields =
      .ret (if E.codegen_finishfun (with_trace E c type name is) c.functions.length = true
          then some c.functions.length else none,
        with_trace E c type name is) := by
  rw [make_trace_ret E _ _ _ _ is his]
  rfl

theorem LLVMStructSetBody_functions (c : compile_t) (type : LLVMTypeRef)
    (elements : List LLVMTypeRef) :
    (LLVMStructSetBody c type elements).functions = c.functions := by
  unfold LLVMStructSetBody
  split <;> rfl

/-- `make_struct` when every field resolves and the loop of `make_trace` emits
`is`: the body is the descriptor followed by the types of the fields, and the
result is the struct, or NULL when the trace function is rejected. -/
theorem make_struct_resolved (E : Env) (gt : compile_t → ast_t → GenResult)
    (c c2 : compile_t) (name : String) (fields : List ast_t)
    (ts : List LLVMTypeRef) (is : List Instr)
    (h : resolved_in_order gt
      { c with types := c.types ++ [⟨name, none⟩] } fields ts c2)
    (his : loop_trace E 0 fields = .ret is) :
    make_struct E gt c name fields =
      .ret (if E.codegen_finishfun
            (finished_layout E c2 (.struct c.types.length) name
              (c.descriptor_ptr :: ts) is) c2.functions.length = true
          then some (.struct c.types.length) else none,
        finished_layout E c2 (.struct c.types.length) name
          (c.descriptor_ptr :: ts) is) := by
  unfold make_struct
  simp only [LLVMStructCreateNamed, make_struct_loop_resolved gt _ c2 fields ts h,
    Outcome.bind_ret, List.singleton_append]
  rw [make_trace_resolved E _ name _ fields is his, LLVMStructSetBody_functions]
  unfold finished_layout
  by_cases hb : E.codegen_finishfun
      (with_trace E (LLVMStructSetBody c2 (.struct c.types.length)
        (c.descriptor_ptr :: ts)) (.struct c.types.length) name is)
      c2.functions.length = true
  · simp [hb]
  · simp [hb]

/-- `make_struct` when a field resolves to NULL: the result is NULL and the
state is the one that the failing field left. -/
theorem make_struct_failed (E : Env) (gt : compile_t → ast_t → GenResult)
    (c cpre cpost : compile_t) (name : String) (done : List ast_t)
    (ts : List LLVMTypeRef) (f : ast_t) (rest : List ast_t)
    (h : resolved_in_order gt
      { c with types := c.types ++ [⟨name, none⟩] } done ts cpre)
    (hf : gt cpre f = .ret (none, cpost)) :
    make_struct E gt c name (done ++ f :: rest) = .ret (none, cpost) := by
  unfold make_struct
  simp only [LLVMStructCreateNamed,
    make_struct_loop_failed gt _ cpre cpost done ts f rest h hf, Outcome.bind_ret]

theorem resolved_in_order_extends (E : Env) (fuel : Nat) (c c2 : compile_t)
    (fields : List ast_t) (ts : List LLVMTypeRef)
    (h : resolved_in_order (gentype E fuel) c fields ts c2) :
    extends_layouts E c (some (.int 0)) c2 ∧ ts.length = fields.length := by
  induction h with
  | nil c => exact ⟨extends_layouts_refl E c _, rfl⟩
  | cons c c1 c2 f rest t ts h _ ih =>
    obtain ⟨hd, ho, ext, he, hsh, hbody⟩ := gentype_extends E fuel c f _ c1 h
    obtain ⟨⟨hd2, ho2, ext2, he2, hsh2, hbody2⟩, hlen⟩ := ih
    refine ⟨⟨hd2.trans hd, ho2.trans ho, ext ++ ext2, ?_, ?_, ?_⟩, by simp [hlen]⟩
    · rw [he2, he, List.append_assoc]
    · intro s hs b hb
      rcases List.mem_append.mp hs with hs | hs
      · exact hsh s hs b hb
      · rw [← hd]; exact hsh2 s hs b hb
    · intro _ s hs
      rcases List.mem_append.mp hs with hs | hs
      · exact hbody (by simp) s hs
      · exact hbody2 (by simp) s hs

theorem make_trace_ret_inv (E : Env) (c : compile_t) (name : String)
    (type : LLVMTypeRef) (fields : List ast_t) (r : Option Nat) (c1 : compile_t)
    (h : make_trace E c name type fields = .ret (r, c1)) :
    (∃ is, loop_trace E 0 fields = .ret is ∧ c1 = with_trace E c type name is ∧
      r = if E.codegen_finishfun (with_trace E c type name is) c.functions.length = true
        then some c.functions.length else none) ∨
    (E.ndebug = true ∧ loop_trace E 0 fields = .abort ∧ r = none ∧
      ∃ is, c1 = cut_trace E c type name is) := by
  have h0 := make_trace_eq E c name type fields
  cases hl : loop_trace E 0 fields with
  | ret is =>
    rw [make_trace_resolved E c name type fields is hl] at h
    simp only [Outcome.ret.injEq, Prod.mk.injEq] at h
    exact Or.inl ⟨is, rfl, h.2.symm, h.1.symm⟩
  | abort =>
    rw [hl] at h0
    cases hn : E.ndebug with
    | false =>
      simp only [hn, Bool.false_eq_true, if_false] at h0
      rw [h0] at h
      simp at h
    | true =>
      simp only [hn, if_true] at h0
      obtain ⟨is, his⟩ := h0
      simp only [his, Outcome.ret.injEq, Prod.mk.injEq] at h
      exact Or.inr ⟨rfl, rfl, h.1.symm, is, h.2.symm⟩
  | undef => rw [hl] at h0; simp [h0] at h
  | nofuel => rw [hl] at h0; simp [h0] at h

/-- What a returning `make_struct` has done: either a field resolved to NULL
after the fields before it resolved in order, and the state is the one that
field left; or all fields resolved in order, the body was set and the trace
function added, and the result is the struct unless the trace function was
rejected; or, compiled with `NDEBUG`, all fields resolved in order, the body
was set, and `make_trace` returned NULL at a field without a case, its
function left without a return. -/
theorem make_struct_ret_inv (E : Env) (gt : compile_t → ast_t → GenResult)
    (c : compile_t) (name : String) (fields : List ast_t)
    (r : Option LLVMTypeRef) (c1 : compile_t)
    (h : make_struct E gt c name fields = .ret (r, c1)) :
    (r = none ∧ ∃ (i : Nat) (f : ast_t) (ts : List LLVMTypeRef) (cpre : compile_t),
      fields[i]? = some f ∧
      resolved_in_order gt { c with types := c.types ++ [⟨name, none⟩] }
        (fields.take i) ts cpre ∧
      gt cpre f = .ret (none, c1)) ∨
    (∃ (ts : List LLVMTypeRef) (c2 : compile_t) (is : List Instr),
      resolved_in_order gt { c with types := c.types ++ [⟨name, none⟩] } fields ts c2 ∧
      loop_trace E 0 fields = .ret is ∧
      c1 = finished_layout E c2 (.struct c.types.length) name (c.descriptor_ptr :: ts) is ∧
      r = if E.codegen_finishfun c1 c2.functions.length = true
        then some (.struct c.types.length) else none) ∨
    (E.ndebug = true ∧ r = none ∧ loop_trace E 0 fields = .abort ∧
      ∃ (ts : List LLVMTypeRef) (c2 : compile_t) (is : List Instr),
        resolved_in_order gt { c with types := c.types ++ [⟨name, none⟩] }
          fields ts c2 ∧
        c1 = cut_trace E
          (LLVMStructSetBody c2 (.struct c.types.length) (c.descriptor_ptr :: ts))
          (.struct c.types.length) name is) := by
  have h0 := h
  unfold make_struct at h
  simp only [LLVMStructCreateNamed] at h
  obtain ⟨⟨els, c2⟩, hl, h⟩ := bind_eq_ret _ _ _ h
  cases els with
  | none =>
    simp only [Outcome.ret.injEq, Prod.mk.injEq] at h
    obtain ⟨rfl, rfl⟩ := h
    exact Or.inl ⟨rfl, make_struct_loop_none gt fields _ _ _ hl⟩
  | some els =>
    obtain ⟨ts, rfl, hres⟩ := make_struct_loop_some gt fields _ _ _ _ hl
    simp only at h
    obtain ⟨⟨tr, c3⟩, hmt, h⟩ := bind_eq_ret _ _ _ h
    rcases make_trace_ret_inv E _ name _ fields tr c3 hmt with
      ⟨is, his, _, _⟩ | ⟨hn, hab, rfl, is, rfl⟩
    · rw [make_struct_resolved E gt c c2 name fields ts is hres his] at h0
      simp only [Outcome.ret.injEq, Prod.mk.injEq] at h0
      obtain ⟨hr, hc⟩ := h0
      refine Or.inr (Or.inl ⟨ts, c2, is, hres, his, hc.symm, ?_⟩)
      rw [← hc]
      exact hr.symm
    · simp only [Outcome.ret.injEq, Prod.mk.injEq] at h
      obtain ⟨rfl, rfl⟩ := h
      exact Or.inr (Or.inr ⟨hn, rfl, hab, ts, c2, is, hres, by simp⟩)

theorem finished_layout_types (E : Env) (c c2 : compile_t) (name : String)
    (ext : List StructType) (elements : List LLVMTypeRef) (is : List Instr)
    (h : c2.types = c.types ++ ⟨name, none⟩ :: ext) :
    (finished_layout E c2 (.struct c.types.length) name elements is).types =
      c.types ++ ⟨name, some elements⟩ :: ext := by
  simp only [finished_layout, with_trace, LLVMStructSetBody, h]
  exact update_at_append_length _ c.types ⟨name, none⟩ ext

/-- A returning resolution of a composite type whose name is not registered is
a returning `make_struct` on the fields of the type. -/
theorem gentype_built_inv (E : Env) (fuel : Nat) (c : compile_t) (ast : ast_t)
    (name : String) (r : Option LLVMTypeRef) (c1 : compile_t)
    (hcomp : composite E ast) (hname : E.genname_type ast = some name)
    (hfind : find_struct name c.types = none)
    (h : gentype E (fuel + 1) c ast = .ret (r, c1)) :
    ∃ fields r1, layout_fields E ast = .ret fields ∧
      make_struct E (gentype E fuel) c name fields = .ret (r1, c1) ∧
      r = r1.map LLVMPointerType := by
  rw [gentype_composite_bind E fuel c ast name hcomp hname hfind] at h
  obtain ⟨fields, hf, h⟩ := bind_eq_ret _ _ _ h
  obtain ⟨⟨r1, c2⟩, hm, h⟩ := bind_eq_ret _ _ _ h
  simp only [Outcome.ret.injEq, Prod.mk.injEq] at h
  obtain ⟨rfl, rfl⟩ := h
  exact ⟨fields, r1, hf, hm, rfl⟩

theorem resolved_in_order_at (gt : compile_t → ast_t → GenResult)
    (c c2 : compile_t) (fields : List ast_t) (ts : List LLVMTypeRef)
    (h : resolved_in_order gt c fields ts c2) :
    ∀ (i : Nat) (f : ast_t), fields[i]? = some f →
      ∃ ci ci1 ti, gt ci f = .ret (some ti, ci1) ∧ ts[i]? = some ti ∧
        resolved_in_order gt c (fields.take i) (ts.take i) ci ∧
        resolved_in_order gt ci1 (fields.drop (i + 1)) (ts.drop (i + 1)) c2 := by
  induction h with
  | nil c => intro i f hi; simp at hi
  | cons c c1 c2 g rest t ts hg hrest ih =>
    intro i f hi
    cases i with
    | zero =>
      simp only [List.getElem?_cons_zero, Option.some.injEq] at hi
      subst hi
      exact ⟨c, c1, t, hg, by simp, .nil c, by simpa using hrest⟩
    | succ i =>
      simp only [List.getElem?_cons_succ] at hi
      obtain ⟨ci, ci1, ti, h1, h2, h3, h4⟩ := ih i f hi
      exact ⟨ci, ci1, ti, h1, by simpa using h2,
        by simpa using .cons c c1 ci g _ t _ hg h3, by simpa using h4⟩

/-- The successful construction of a layout, taken apart. -/
theorem gentype_built_some (E : Env) (fuel : Nat) (c c1 : compile_t) (ast : ast_t)
    (name : String) (t : LLVMTypeRef)
    (hcomp : composite E ast) (hname : E.genname_type ast = some name)
    (hfind : find_struct name c.types = none)
    (hok : gentype E (fuel + 1) c ast = .ret (some t, c1)) :
    ∃ fields ts c2 is ext,
      layout_fields E ast = .ret fields ∧
      resolved_in_order (gentype E fuel)
        { c with types := c.types ++ [⟨name, none⟩] } fields ts c2 ∧
      loop_trace E 0 fields = .ret is ∧
      c2.types = c.types ++ ⟨name, none⟩ :: ext ∧
      c1 = finished_layout E c2 (.struct c.types.length) name (c.descriptor_ptr :: ts) is ∧
      c1.types = c.types ++ ⟨name, some (c.descriptor_ptr :: ts)⟩ :: ext ∧
      t = .pointer (.struct c.types.length) ∧ ts.length = fields.length := by
  obtain ⟨fields, r1, hf, hm, hr⟩ :=
    gentype_built_inv E fuel c ast name _ c1 hcomp hname hfind hok
  rcases make_struct_ret_inv E _ c name fields r1 c1 hm with
    ⟨rfl, _⟩ | ⟨ts, c2, is, hres, his, hc1, hr1⟩ | ⟨_, rfl, _⟩
  · simp at hr
  · obtain ⟨⟨_, _, ext, he, _, _⟩, hlen⟩ :=
      resolved_in_order_extends E fuel _ c2 fields ts hres
    have he2 : c2.types = c.types ++ ⟨name, none⟩ :: ext := by
      rw [he]; simp
    refine ⟨fields, ts, c2, is, ext, hf, hres, his, he2, hc1, ?_, ?_, hlen⟩
    · rw [hc1]; exact finished_layout_types E c c2 name ext _ is he2
    · rw [hr1] at hr
      split at hr
      · simpa [LLVMPointerType] using hr
      · simp at hr
  · simp at hr

/-- C17: on every successful construction (the canonical name of the composite
type was not registered and `gentype` returns a type), the body of the layout
is the descriptor followed by the types of the fields in order: the fields are
the list of `get_fields` (the reified declared fields) for a nominal type and
the elements themselves for a tuple; they were resolved one after the other by
`gentype`; the body has one slot more than there are fields; and slot `i + 1`
is the type that `gentype` returned for `fields[i]`. -/
theorem layout_body_in_field_order (E : Env) (fuel : Nat) (c c1 : compile_t)
    (ast : ast_t) (name : String) (t : LLVMTypeRef)
    (hcomp : composite E ast) (hname : E.genname_type ast = some name)
    (hfind : find_struct name c.types = none)
    (hok : gentype E (fuel + 1) c ast = .ret (some t, c1)) :
    ∃ fields ts c2,
      layout_fields E ast = .ret fields ∧
      (ast_id ast = TK_TUPLETYPE → fields = ast_children ast) ∧
      (ast_id ast = TK_NOMINAL → get_fields E ast = .ret fields) ∧
      resolved_in_order (gentype E fuel)
        { c with types := c.types ++ [⟨name, none⟩] } fields ts c2 ∧
      t = .pointer (.struct c.types.length) ∧
      c1.types[c.types.length]? = some ⟨name, some (c.descriptor_ptr :: ts)⟩ ∧
      (c.descriptor_ptr :: ts).length = fields.length + 1 ∧
      ∀ (i : Nat) (f : ast_t), fields[i]? = some f →
        ∃ ci ci1 ti, gentype E fuel ci f = .ret (some ti, ci1) ∧
          (c.descriptor_ptr :: ts)[i + 1]? = some ti := by
  obtain ⟨fields, ts, c2, is, ext, hf, hres, _, _, _, hty, ht, hlen⟩ :=
    gentype_built_some E fuel c c1 ast name t hcomp hname hfind hok
  refine ⟨fields, ts, c2, hf, ?_, ?_, hres, ht, ?_, by simp [hlen], ?_⟩
  · intro hid
    simp only [layout_fields, hid, if_true, Outcome.ret.injEq] at hf
    exact hf.symm
  · intro hid
    simpa [layout_fields, hid] using hf
  · rw [hty]; exact getElem?_append_cons_length _ _ _
  · intro i f hi
    obtain ⟨ci, ci1, ti, h1, h2, _, _⟩ := resolved_in_order_at _ _ c2 fields ts hres i f hi
    exact ⟨ci, ci1, ti, h1, by simpa using h2⟩

/-- C17 at the actor `A` of the sample program: the body of its layout is the
descriptor, the pointer to the layout of `Point` and the object pointer of the
trait-typed field. -/
theorem layout_body_in_field_order_witness :
    ∃ fields ts,
      get_fields sample_env (nominal_use "A" 4 (TK_OTHER 5)) = .ret fields ∧
      sample_actor_ctx.types[0]? = some ⟨"A", some (.other 0 :: ts)⟩ ∧
      (LLVMTypeRef.other 0 :: ts).length = fields.length + 1 :=
  match layout_body_in_field_order sample_env 2 sample_ctx sample_actor_ctx
      (nominal_use "A" 4 (TK_OTHER 5)) "A" (.pointer (.struct 0))
      (Or.inr ⟨rfl, Or.inr (Or.inl rfl)⟩) rfl rfl rfl with
  | ⟨fields, ts, _, _, _, h3, _, _, h6, h7, _⟩ => ⟨fields, ts, h3 rfl, h6, h7⟩

theorem take_append_getElem_drop {α : Type} (l : List α) (i : Nat) (a : α)
    (h : l[i]? = some a) : l = l.take i ++ a :: l.drop (i + 1) := by
  induction l generalizing i with
  | nil => simp at h
  | cons b l ih =>
    cases i with
    | zero =>
      simp only [List.getElem?_cons_zero, Option.some.injEq] at h
      subst h
      simp
    | succ i =>
      simp only [List.getElem?_cons_succ] at h
      simp only [List.take_succ_cons, List.drop_succ_cons, List.cons_append,
        List.cons.injEq, true_and]
      exact ih i h

/-- C13: failure propagation. For a composite type whose canonical name is
computable and not registered and whose fields all have supported shapes:
when a field resolves to NULL after the fields before it resolved in order,
`gentype` returns NULL in the very state that field left (nothing is done after
it: the body is not set and `make_trace` is not called); when all fields
resolve, `gentype` returns, with the body set and the trace function added,
the pointer to the layout if `codegen_finishfun` accepts the trace function and
NULL if it rejects it; so a returning `gentype` returns NULL if and only if one
of its fields resolved to NULL or `codegen_finishfun` returned false. -/
theorem gentype_fails_iff (E : Env) (fuel : Nat) (c : compile_t) (ast : ast_t)
    (name : String) (fields : List ast_t)
    (hcomp : composite E ast) (hname : E.genname_type ast = some name)
    (hfind : find_struct name c.types = none)
    (hfields : layout_fields E ast = .ret fields)
    (hsup : ∀ f ∈ fields, supported_field E f) :
    (∀ (i : Nat) (f : ast_t) (ts : List LLVMTypeRef) (cpre cpost : compile_t),
      fields[i]? = some f →
      resolved_in_order (gentype E fuel)
        { c with types := c.types ++ [⟨name, none⟩] } (fields.take i) ts cpre →
      gentype E fuel cpre f = .ret (none, cpost) →
      gentype E (fuel + 1) c ast = .ret (none, cpost)) ∧
    (∀ (ts : List LLVMTypeRef) (c2 : compile_t),
      resolved_in_order (gentype E fuel)
        { c with types := c.types ++ [⟨name, none⟩] } fields ts c2 →
      ∃ is, loop_trace E 0 fields = .ret is ∧
        gentype E (fuel + 1) c ast =
          .ret (if E.codegen_finishfun
                (finished_layout E c2 (.struct c.types.length) name
                  (c.descriptor_ptr :: ts) is) c2.functions.length = true
              then some (.pointer (.struct c.types.length)) else none,
            finished_layout E c2 (.struct c.types.length) name
              (c.descriptor_ptr :: ts) is)) ∧
    (∀ (r : Option LLVMTypeRef) (c1 : compile_t),
      gentype E (fuel + 1) c ast = .ret (r, c1) →
      (r = none ↔
        ((∃ (i : Nat) (f : ast_t) (ts : List LLVMTypeRef) (cpre : compile_t),
            fields[i]? = some f ∧
            resolved_in_order (gentype E fuel)
              { c with types := c.types ++ [⟨name, none⟩] } (fields.take i) ts cpre ∧
            gentype E fuel cpre f = .ret (none, c1)) ∨
         (∃ (ts : List LLVMTypeRef) (c2 : compile_t) (is : List Instr),
            resolved_in_order (gentype E fuel)
              { c with types := c.types ++ [⟨name, none⟩] } fields ts c2 ∧
            loop_trace E 0 fields = .ret is ∧
            c1 = finished_layout E c2 (.struct c.types.length) name
              (c.descriptor_ptr :: ts) is ∧
            E.codegen_finishfun c1 c2.functions.length = false)))) := by
  have hfail : ∀ (i : Nat) (f : ast_t) (ts : List LLVMTypeRef) (cpre cpost : compile_t),
      fields[i]? = some f →
      resolved_in_order (gentype E fuel)
        { c with types := c.types ++ [⟨name, none⟩] } (fields.take i) ts cpre →
      gentype E fuel cpre f = .ret (none, cpost) →
      gentype E (fuel + 1) c ast = .ret (none, cpost) := by
    intro i f ts cpre cpost hi hres hf
    rw [gentype_composite_eq E fuel c ast name fields hcomp hname hfind hfields,
      take_append_getElem_drop fields i f hi,
      make_struct_failed E _ c cpre cpost name _ ts f _ hres hf]
    rfl
  have hall : ∀ (ts : List LLVMTypeRef) (c2 : compile_t),
      resolved_in_order (gentype E fuel)
        { c with types := c.types ++ [⟨name, none⟩] } fields ts c2 →
      ∃ is, loop_trace E 0 fields = .ret is ∧
        gentype E (fuel + 1) c ast =
          .ret (if E.codegen_finishfun
                (finished_layout E c2 (.struct c.types.length) name
                  (c.descriptor_ptr :: ts) is) c2.functions.length = true
              then some (.pointer (.struct c.types.length)) else none,
            finished_layout E c2 (.struct c.types.length) name
              (c.descriptor_ptr :: ts) is) := by
    intro ts c2 hres
    obtain ⟨is, his⟩ := loop_trace_supported E fields 0 hsup
    refine ⟨is, his, ?_⟩
    rw [gentype_composite_eq E fuel c ast name fields hcomp hname hfind hfields,
      make_struct_resolved E _ c c2 name fields ts is hres his]
    simp only [Outcome.bind_ret]
    split <;> rfl
  refine ⟨hfail, hall, ?_⟩
  intro r c1 hret
  constructor
  · intro hr
    subst hr
    obtain ⟨fields1, r1, hf1, hm, hr1⟩ :=
      gentype_built_inv E fuel c ast name _ c1 hcomp hname hfind hret
    rw [hfields] at hf1
    simp only [Outcome.ret.injEq] at hf1
    subst hf1
    rcases make_struct_ret_inv E _ c name fields r1 c1 hm with
      ⟨_, i, f, ts, cpre, hi, hres, hf⟩ | ⟨ts, c2, is, hres, his, hc1, hr2⟩ |
      ⟨_, _, hab, _⟩
    · exact Or.inl ⟨i, f, ts, cpre, hi, hres, hf⟩
    · refine Or.inr ⟨ts, c2, is, hres, his, hc1, ?_⟩
      cases hb : E.codegen_finishfun c1 c2.functions.length with
      | false => rfl
      | true =>
        rw [hb] at hr2
        rw [hr2] at hr1
        simp at hr1
    · obtain ⟨is, his⟩ := loop_trace_supported E fields 0 hsup
      rw [his] at hab
      exact Outcome.noConfusion hab
  · rintro (⟨i, f, ts, cpre, hi, hres, hf⟩ | ⟨ts, c2, is, hres, his, hc1, hb⟩)
    · rw [hfail i f ts cpre c1 hi hres hf] at hret
      simp only [Outcome.ret.injEq, Prod.mk.injEq] at hret
      exact hret.1.symm
    · obtain ⟨is2, his2, hg⟩ := hall ts c2 hres
      rw [his] at his2
      simp only [Outcome.ret.injEq] at his2
      subst his2
      rw [hg, ← hc1, hb] at hret
      simp only [Outcome.ret.injEq, Prod.mk.injEq] at hret
      simpa using hret.1.symm

/-- C13 at the class `Broken` of the sample program, whose only field resolves
to NULL: `gentype` returns NULL in the state left by the field. -/
theorem gentype_fails_iff_witness :
    gentype sample_env (1 + 1) sample_ctx (nominal_use "Broken" 5 (TK_OTHER 5)) =
      .ret (none, sample_broken_ctx) :=
  (gentype_fails_iff sample_env 1 sample_ctx (nominal_use "Broken" 5 (TK_OTHER 5))
    "Broken" [.node TK_NOMINAL "" (some 0) none []]
    (Or.inr ⟨rfl, Or.inl rfl⟩) rfl rfl rfl
    (by
      intro f hf
      simp only [List.mem_singleton] at hf
      subst hf
      exact Or.inr (Or.inr (Or.inr (Or.inr ⟨rfl, Or.inr (Or.inr (Or.inl rfl))⟩))))).1
    0 (.node TK_NOMINAL "" (some 0) none []) [] _ sample_broken_ctx rfl
    (.nil _) rfl

theorem find_struct_body_irrelevant (an : String) (l ext : List StructType)
    (name : String) (b1 b2 : Option (List LLVMTypeRef)) :
    find_struct an (l ++ ⟨name, b1⟩ :: ext) = find_struct an (l ++ ⟨name, b2⟩ :: ext) := by
  induction l with
  | nil => simp [find_struct]
  | cons s l ih =>
    rw [List.cons_append, List.cons_append]
    unfold find_struct
    rw [ih]

theorem field_trace_tuple (E : Env) (i : Nat) (ast : ast_t)
    (hid : ast_id ast = TK_TUPLETYPE) :
    field_trace E i ast =
      .ret [.structGEP (i + 1), .traceknown (i + 1) (E.genname_type ast)] := by
  unfold field_trace make_trace_field
  simp [hid, LLVMBuildStructGEP, gencall_traceknown, emitted_probe_two]

/-- A tuple of a scalar and an actor: the layout and the trace function. -/
theorem gentype_scalar_actor_tuple (E : Env) (fuel : Nat) (c c2 : compile_t)
    (tuple x a : ast_t) (name : String) (scalar ta : LLVMTypeRef)
    (hid : ast_id tuple = TK_TUPLETYPE) (hch : ast_children tuple = [x, a])
    (hname : E.genname_type tuple = some name)
    (hfind : find_struct name c.types = none)
    (hx : builtin_field E x) (hsc : builtin_scalar x = some scalar)
    (haid : ast_id a = TK_NOMINAL) (hak : def_kind E a = some TK_ACTOR)
    (ha : gentype E (fuel + 1) { c with types := c.types ++ [⟨name, none⟩] } a =
      .ret (some ta, c2)) :
    ∃ t c1 fn, gentype E (fuel + 2) c tuple = .ret (t, c1) ∧
      c1.types[c.types.length]? =
        some ⟨name, some [c.descriptor_ptr, scalar, ta]⟩ ∧
      c1.functions[c2.functions.length]? = some fn ∧
      c1.functions.length = c2.functions.length + 1 ∧
      fn.name = E.genname_fun name "$trace" ∧
      fn.body.filter is_traversal = [.traceactor 2] ∧
      (E.codegen_finishfun c1 c2.functions.length = true →
        t = some (.pointer (.struct c.types.length))) ∧
      (E.codegen_finishfun c1 c2.functions.length = false → t = none) ∧
      (∀ an, E.genname_type a = some an →
        ∃ id, ta = .pointer (.struct id) ∧
          (c1.types.map StructType.name)[id]? = some an ∧
          (an ≠ "" → find_struct an c1.types = some id)) := by
  have hlf : layout_fields E tuple = .ret [x, a] := by
    simp [layout_fields, hid, hch]
  obtain ⟨sc, hsc2, hgx⟩ :=
    gentype_builtin_field E fuel { c with types := c.types ++ [⟨name, none⟩] } x hx
  rw [hsc] at hsc2
  simp only [Option.some.injEq] at hsc2
  subst hsc2
  have hres : resolved_in_order (gentype E (fuel + 1))
      { c with types := c.types ++ [⟨name, none⟩] } [x, a] [scalar, ta] c2 :=
    .cons _ _ _ x [a] scalar [ta] hgx (.cons _ _ _ a [] ta [] ha (.nil c2))
  have his : loop_trace E 0 [x, a] =
      .ret [.structGEP 1, .structGEP 2, .traceactor 2] := by
    simp [loop_trace, field_trace_nominal E 0 x _ hx.1 hx.2.1,
      field_trace_nominal E 1 a _ haid hak]
  obtain ⟨hd, ho, ext, he, _, _⟩ := gentype_extends E (fuel + 1) _ a _ c2 ha
  have he2 : c2.types = c.types ++ ⟨name, none⟩ :: ext := by
    rw [he]; simp
  have hg : gentype E (fuel + 2) c tuple = _ :=
    gentype_composite_eq E (fuel + 1) c tuple name [x, a] (Or.inl hid) hname hfind hlf
  rw [make_struct_resolved E _ c c2 name [x, a] [scalar, ta] _ hres his] at hg
  simp only [Outcome.bind_ret] at hg
  have hty := finished_layout_types E c c2 name ext [c.descriptor_ptr, scalar, ta]
    [.structGEP 1, .structGEP 2, .traceactor 2] he2
  refine ⟨_, _, ⟨E.genname_fun name "$trace",
      .bitcast (.pointer (.struct c.types.length)) ::
        [.structGEP 1, .structGEP 2, .traceactor 2] ++ [.retVoid]⟩,
    hg, ?_, ?_, ?_, rfl, ?_, ?_, ?_, ?_⟩
  · rw [hty]; exact getElem?_append_cons_length _ _ _
  · simp only [finished_layout, with_trace, LLVMStructSetBody_functions]
    exact getElem?_append_cons_length _ _ _
  · simp [finished_layout, with_trace, LLVMStructSetBody_functions]
  · simp [List.filter_cons, is_traversal]
  · intro h; simp [h, LLVMPointerType]
  · intro h; simp [h]
  · intro an han
    obtain ⟨id, hat, hf, ht⟩ := gentype_registered E (fuel + 1) _ a (some ta) c2 an
      (Or.inr ⟨haid, Or.inr (Or.inl hak)⟩) han ha
    refine ⟨id, by simpa using ht, ?_, ?_⟩
    · rw [hty, names_body_irrelevant c.types ext name _ none, ← he2]
      exact hat
    · intro hne
      rw [hty, find_struct_body_irrelevant an c.types ext name _ none, ← he2]
      exact hf hne

/-- C11: whatever the capability of the field, in a list of fields of
supported shapes the trace function of `make_trace` holds exactly one traversal
instruction on slot `i + 1` for a field `fields[i]` that is a nominal type with
an actor definition, the actor trace, and exactly one for a tuple field, the
known trace whose callee is `genname_type` of the tuple. And a tuple `(x, a)`
with `x` of the built-in 32-bit scalar type and `a` an actor that resolves to
`ta`, under a canonical name not yet registered, resolves to a layout of three
slots (descriptor, 32-bit scalar, `ta`, which is the pointer to the layout
created under the canonical name of the actor, the one registered under that
name when the name is not empty) whose trace function holds one traversal
instruction, the actor trace on slot 2, and none on slot 1. -/
theorem actor_and_tuple_fields (E : Env) :
    (∀ (c : compile_t) (name : String) (type : LLVMTypeRef) (fields : List ast_t)
      (i : Nat) (ast : ast_t),
      (∀ f ∈ fields, supported_field E f) → fields[i]? = some ast →
      ((ast_id ast = TK_NOMINAL ∧ def_kind E ast = some TK_ACTOR) ∨
        ast_id ast = TK_TUPLETYPE) →
      ∃ r c1, make_trace E c name type fields = .ret (r, c1) ∧
        traversals_at (i + 1) (trace_body c c1) =
          [if ast_id ast = TK_TUPLETYPE then .traceknown (i + 1) (E.genname_type ast)
            else .traceactor (i + 1)]) ∧
    (∀ (fuel : Nat) (c c2 : compile_t) (tuple x a : ast_t) (name : String)
      (ta : LLVMTypeRef),
      ast_id tuple = TK_TUPLETYPE → ast_children tuple = [x, a] →
      E.genname_type tuple = some name → find_struct name c.types = none →
      builtin_field E x → builtin_scalar x = some (.int 32) →
      ast_id a = TK_NOMINAL → def_kind E a = some TK_ACTOR →
      gentype E (fuel + 1) { c with types := c.types ++ [⟨name, none⟩] } a =
        .ret (some ta, c2) →
      ∃ t c1 fn, gentype E (fuel + 2) c tuple = .ret (t, c1) ∧
        c1.types[c.types.length]? =
          some ⟨name, some [c.descriptor_ptr, .int 32, ta]⟩ ∧
        c1.functions[c2.functions.length]? = some fn ∧
        c1.functions.length = c2.functions.length + 1 ∧
        fn.name = E.genname_fun name "$trace" ∧
        fn.body.filter is_traversal = [.traceactor 2] ∧
        (E.codegen_finishfun c1 c2.functions.length = true →
          t = some (.pointer (.struct c.types.length))) ∧
        (E.codegen_finishfun c1 c2.functions.length = false → t = none) ∧
        (∀ an, E.genname_type a = some an →
          ∃ id, ta = .pointer (.struct id) ∧
            (c1.types.map StructType.name)[id]? = some an ∧
            (an ≠ "" → find_struct an c1.types = some id))) := by
  refine ⟨?_, ?_⟩
  · intro c name type fields i ast hsup hi hshape
    obtain ⟨r, c1, fis, hm, hf, ht⟩ := make_trace_slot E c name type fields i ast hsup hi
    refine ⟨r, c1, hm, ?_⟩
    rw [ht]
    rcases hshape with ⟨hid, hk⟩ | hid
    · rw [field_trace_nominal E i ast _ hid hk] at hf
      simp only [Outcome.ret.injEq] at hf
      subst hf
      simp [traversals_at, traversal_slot, hid]
    · rw [field_trace_tuple E i ast hid] at hf
      simp only [Outcome.ret.injEq] at hf
      subst hf
      simp [traversals_at, traversal_slot, hid]
  · intro fuel c c2 tuple x a name ta hid hch hname hfind hx hsc haid hak ha
    exact gentype_scalar_actor_tuple E fuel c c2 tuple x a name (.int 32) ta hid hch
      hname hfind hx hsc haid hak ha

/-- C11 at the tuple `(I32, A)` of the sample program. -/
theorem actor_and_tuple_fields_witness :
    (∃ r c1, make_trace sample_env sample_ctx "$tuple" (.struct 0)
        [nominal_use "I32" 1 (TK_OTHER 5), nominal_use "A" 4 (TK_OTHER 5)] =
          .ret (r, c1) ∧
      traversals_at (1 + 1) (trace_body sample_ctx c1) = [.traceactor (1 + 1)]) ∧
    (∃ t c1 fn, gentype sample_env (2 + 2) sample_ctx sample_tuple = .ret (t, c1) ∧
      c1.types[sample_ctx.types.length]? =
        some ⟨"$tuple", some [sample_ctx.descriptor_ptr, .int 32, .pointer (.struct 1)]⟩ ∧
      c1.functions[sample_tuple_mid_ctx.functions.length]? = some fn ∧
      c1.functions.length = sample_tuple_mid_ctx.functions.length + 1 ∧
      fn.name = sample_env.genname_fun "$tuple" "$trace" ∧
      fn.body.filter is_traversal = [.traceactor 2] ∧
      (sample_env.codegen_finishfun c1 sample_tuple_mid_ctx.functions.length = true →
        t = some (.pointer (.struct sample_ctx.types.length))) ∧
      (sample_env.codegen_finishfun c1 sample_tuple_mid_ctx.functions.length = false →
        t = none) ∧
      (∀ an, sample_env.genname_type (nominal_use "A" 4 (TK_OTHER 5)) = some an →
        ∃ id, LLVMTypeRef.pointer (.struct 1) = .pointer (.struct id) ∧
          (c1.types.map StructType.name)[id]? = some an ∧
          (an ≠ "" → find_struct an c1.types = some id))) :=
  ⟨(actor_and_tuple_fields sample_env).1 sample_ctx "$tuple" (.struct 0)
      [nominal_use "I32" 1 (TK_OTHER 5), nominal_use "A" 4 (TK_OTHER 5)] 1
      (nominal_use "A" 4 (TK_OTHER 5))
      (by
        intro f hf
        simp only [List.mem_cons, List.mem_singleton, List.not_mem_nil, or_false] at hf
        rcases hf with rfl | rfl
        · exact Or.inr (Or.inr (Or.inr (Or.inr ⟨rfl, Or.inr (Or.inl rfl)⟩)))
        · exact Or.inr (Or.inr (Or.inr (Or.inr ⟨rfl, Or.inr (Or.inr (Or.inr rfl))⟩))))
      rfl (Or.inl ⟨rfl, rfl⟩),
   (actor_and_tuple_fields sample_env).2 2 sample_ctx sample_tuple_mid_ctx sample_tuple
      (nominal_use "I32" 1 (TK_OTHER 5)) (nominal_use "A" 4 (TK_OTHER 5)) "$tuple"
      (.pointer (.struct 1)) rfl rfl rfl rfl ⟨rfl, rfl, rfl⟩ rfl rfl rfl rfl⟩

/-! ### Slots in order -/

theorem field_trace_slots (E : Env) (j : Nat) (ast : ast_t) (a : List Instr)
    (h : field_trace E j ast = .ret a) :
    (a.filterMap traversal_slot = [] ∨ a.filterMap traversal_slot = [j + 1]) ∧
      a.filterMap gep_slot = [j + 1] := by
  obtain ⟨tr, rfl, hlen, htr⟩ := field_trace_shape E j ast a h
  match tr, hlen, htr with
  | [], _, _ => exact ⟨Or.inl rfl, rfl⟩
  | [x], _, htr =>
    have hx := htr x (List.mem_singleton.mpr rfl)
    refine ⟨Or.inr ?_, ?_⟩
    · have h0 : traversal_slot (Instr.structGEP (j + 1)) = none := rfl
      simp only [List.filterMap_cons, h0, hx, List.filterMap_nil]
    · cases x <;> simp [traversal_slot] at hx <;> simp [List.filterMap_cons, gep_slot]
  | _ :: _ :: _, hlen, _ => simp at hlen

theorem loop_trace_pairwise (E : Env) (fields : List ast_t) :
    ∀ (j : Nat) (is : List Instr), loop_trace E j fields = .ret is →
      (is.filterMap traversal_slot).Pairwise (· < ·) ∧
      is.filterMap gep_slot = List.range' (j + 1) fields.length := by
  induction fields with
  | nil =>
    intro j is h
    simp only [loop_trace, Outcome.ret.injEq] at h
    subst h
    simp
  | cons f rest ih =>
    intro j is h
    obtain ⟨a, b, ha, hb, rfl⟩ := loop_trace_cons_ret E j f rest is h
    obtain ⟨hpair, hgep⟩ := ih (j + 1) b hb
    obtain ⟨hta, hga⟩ := field_trace_slots E j f a ha
    have hbs : ∀ s ∈ b.filterMap traversal_slot, j + 1 < s := by
      intro s hs
      obtain ⟨x, hx, hxs⟩ := List.mem_filterMap.mp hs
      have := (loop_trace_slots E rest (j + 1) b hb x hx s hxs).1
      omega
    refine ⟨?_, ?_⟩
    · rw [List.filterMap_append]
      rcases hta with hta | hta
      · rw [hta]; simpa using hpair
      · rw [hta]
        simp only [List.singleton_append, List.pairwise_cons]
        exact ⟨hbs, hpair⟩
    · rw [List.filterMap_append, hga, hgep, List.length_cons, List.range'_succ]
      rfl

/-- C19: for a list of `n` fields of supported shapes, the trace function of
`make_trace` visits the slots in order and at most once each: the slots of its
traversal instructions are strictly increasing and lie between 1 and `n` (none
is the descriptor slot 0, none is beyond `n`), the addresses it computes are
those of the slots 1 to `n` in order, and the instructions emitted for
`fields[i]` all address slot `i + 1`, at most one of them being a traversal
instruction. -/
theorem trace_slots_in_order (E : Env) (c : compile_t) (name : String)
    (type : LLVMTypeRef) (fields : List ast_t)
    (hsup : ∀ f ∈ fields, supported_field E f) :
    ∃ r c1, make_trace E c name type fields = .ret (r, c1) ∧
      ((trace_body c c1).filterMap traversal_slot).Pairwise (· < ·) ∧
      (∀ s ∈ (trace_body c c1).filterMap traversal_slot, 1 ≤ s ∧ s ≤ fields.length) ∧
      (trace_body c c1).filterMap gep_slot = List.range' 1 fields.length ∧
      (∀ (i : Nat) (ast : ast_t), fields[i]? = some ast →
        ∃ fis, field_trace E i ast = .ret fis ∧
          traversals_at (i + 1) (trace_body c c1) = traversals_at (i + 1) fis ∧
          (traversals_at (i + 1) (trace_body c c1)).length ≤ 1 ∧
          ∀ x ∈ fis, x = .structGEP (i + 1) ∨ traversal_slot x = some (i + 1)) := by
  obtain ⟨is, his⟩ := loop_trace_supported E fields 0 hsup
  obtain ⟨hpair, hgep⟩ := loop_trace_pairwise E fields 0 is his
  have hbody : trace_body c (with_trace E c type name is) =
      .bitcast (.pointer type) :: is ++ [.retVoid] := by
    simp [trace_body, with_trace]
  have htrav : (trace_body c (with_trace E c type name is)).filterMap traversal_slot =
      is.filterMap traversal_slot := by
    rw [hbody]
    simp [List.filterMap_cons, List.filterMap_append, traversal_slot]
  refine ⟨_, _, make_trace_resolved E c name type fields is his, ?_, ?_, ?_, ?_⟩
  · rw [htrav]; exact hpair
  · rw [htrav]
    intro s hs
    obtain ⟨x, hx, hxs⟩ := List.mem_filterMap.mp hs
    have := loop_trace_slots E fields 0 is his x hx s hxs
    omega
  · rw [hbody]
    simpa [List.filterMap_cons, List.filterMap_append, gep_slot] using hgep
  · intro i ast hi
    obtain ⟨fis, hf, ht⟩ := loop_trace_at E fields 0 i is ast his hi
    simp only [Nat.zero_add] at hf ht
    obtain ⟨tr, hfis, hlen, htr⟩ := field_trace_shape E i ast fis hf
    have hbt : traversals_at (i + 1) (trace_body c (with_trace E c type name is)) =
        traversals_at (i + 1) fis := by
      rw [hbody, ← ht]
      show traversals_at (i + 1) ([Instr.bitcast (.pointer type)] ++ (is ++ [.retVoid])) = _
      rw [traversals_at_append, traversals_at_append]
      simp [traversals_at, traversal_slot]
    refine ⟨fis, hf, hbt, ?_, ?_⟩
    · rw [hbt, hfis]
      have : traversals_at (i + 1) (Instr.structGEP (i + 1) :: tr) =
          traversals_at (i + 1) tr := by
        simp [traversals_at, traversal_slot]
      rw [this]
      exact le_trans (List.length_filter_le _ _) hlen
    · intro x hx
      rw [hfis] at hx
      rcases List.mem_cons.mp hx with hx | hx
      · exact Or.inl hx
      · exact Or.inr (htr x hx)

/-- C19 at the fields of the actor `A` of the sample program: a class-typed
field and a trait-typed field with capability `tag`. -/
theorem trace_slots_in_order_witness :
    ∃ r c1, make_trace sample_env sample_ctx "A" (.struct 0)
        [nominal_use "Point" 0 (TK_OTHER 5), nominal_use "T" 3 TK_TAG] = .ret (r, c1) ∧
      ((trace_body sample_ctx c1).filterMap traversal_slot).Pairwise (· < ·) ∧
      (∀ s ∈ (trace_body sample_ctx c1).filterMap traversal_slot,
        1 ≤ s ∧ s ≤ [nominal_use "Point" 0 (TK_OTHER 5),
          nominal_use "T" 3 TK_TAG].length) ∧
      (trace_body sample_ctx c1).filterMap gep_slot =
        List.range' 1 [nominal_use "Point" 0 (TK_OTHER 5),
          nominal_use "T" 3 TK_TAG].length ∧
      (∀ (i : Nat) (ast : ast_t),
        [nominal_use "Point" 0 (TK_OTHER 5), nominal_use "T" 3 TK_TAG][i]? = some ast →
        ∃ fis, field_trace sample_env i ast = .ret fis ∧
          traversals_at (i + 1) (trace_body sample_ctx c1) = traversals_at (i + 1) fis ∧
          (traversals_at (i + 1) (trace_body sample_ctx c1)).length ≤ 1 ∧
          ∀ x ∈ fis, x = .structGEP (i + 1) ∨ traversal_slot x = some (i + 1)) :=
  trace_slots_in_order sample_env sample_ctx "A" (.struct 0)
    [nominal_use "Point" 0 (TK_OTHER 5), nominal_use "T" 3 TK_TAG]
    (by
      intro f hf
      simp only [List.mem_cons, List.mem_singleton, List.not_mem_nil, or_false] at hf
      rcases hf with rfl | rfl
      · exact Or.inr (Or.inr (Or.inr (Or.inr ⟨rfl, Or.inr (Or.inr (Or.inl rfl))⟩)))
      · exact Or.inr (Or.inr (Or.inr (Or.inr ⟨rfl, Or.inl rfl⟩))))

/-! ### Known traces and the layouts they name -/

theorem field_trace_known (E : Env) (i : Nat) (ast : ast_t) (fis : List Instr)
    (s : Nat) (callee : Option String)
    (h : field_trace E i ast = .ret fis) (hx : Instr.traceknown s callee ∈ fis) :
    callee = E.genname_type ast ∧
      (ast_id ast = TK_TUPLETYPE ∨
        (ast_id ast = TK_NOMINAL ∧ def_kind E ast = some TK_CLASS)) := by
  cases hid : ast_id ast
  case TK_UNIONTYPE =>
    rw [field_trace_union E i ast hid] at h
    simp only [Outcome.ret.injEq] at h
    subst h
    split at hx <;> simp at hx
  case TK_ISECTTYPE =>
    rw [field_trace_isect_structural E i ast (Or.inl hid)] at h
    simp only [Outcome.ret.injEq] at h
    subst h
    split at hx <;> simp at hx
  case TK_STRUCTURAL =>
    rw [field_trace_isect_structural E i ast (Or.inr hid)] at h
    simp only [Outcome.ret.injEq] at h
    subst h
    split at hx <;> simp at hx
  case TK_TUPLETYPE =>
    rw [field_trace_tuple E i ast hid] at h
    simp only [Outcome.ret.injEq] at h
    subst h
    simp at hx
    exact ⟨hx.2, Or.inl rfl⟩
  case TK_NOMINAL =>
    cases hk : def_kind E ast with
    | none =>
      unfold def_kind at hk
      cases hd : ast_data E ast with
      | none => simp [field_trace, make_trace_field, hid, hd, LLVMBuildStructGEP] at h
      | some d => simp [hd] at hk
    | some k =>
      rw [field_trace_nominal E i ast k hid hk] at h
      cases k <;> simp only [Outcome.ret.injEq, reduceCtorEq] at h <;> subst h
      case TK_CLASS =>
        split at hx <;> simp at hx
        exact ⟨hx.2, Or.inr ⟨rfl, rfl⟩⟩
      case TK_TRAIT => split at hx <;> simp at hx
      all_goals simp at hx
  all_goals
    have hbad : unsupported_shape E ast := Or.inl (by simp [hid])
    rw [field_trace_unsupported E i ast hbad] at h
    simp at h

theorem loop_trace_mem (E : Env) (fields : List ast_t) :
    ∀ (j : Nat) (is : List Instr) (x : Instr) (s : Nat),
      loop_trace E j fields = .ret is → x ∈ is → traversal_slot x = some s →
      ∃ (k : Nat) (ast : ast_t) (fis : List Instr), fields[k]? = some ast ∧
        s = j + k + 1 ∧ field_trace E (j + k) ast = .ret fis ∧ x ∈ fis := by
  induction fields with
  | nil =>
    intro j is x s h hx
    simp only [loop_trace, Outcome.ret.injEq] at h
    subst h
    simp at hx
  | cons f rest ih =>
    intro j is x s h hx hs
    obtain ⟨a, b, ha, hb, rfl⟩ := loop_trace_cons_ret E j f rest is h
    rcases List.mem_append.mp hx with hx | hx
    · obtain ⟨tr, rfl, _, htr⟩ := field_trace_shape E j f _ ha
      refine ⟨0, f, _, by simp, ?_, ha, hx⟩
      rcases List.mem_cons.mp hx with hx | hx
      · subst hx; simp [traversal_slot] at hs
      · have := htr x hx
        rw [hs] at this
        simp only [Option.some.injEq] at this
        omega
    · obtain ⟨k, ast, fis, hk, hsk, hf, hxf⟩ := ih (j + 1) b x s hb hx hs
      have e : j + 1 + k = j + (k + 1) := by omega
      rw [e] at hf
      exact ⟨k + 1, ast, fis, by simpa using hk, by omega, hf, hxf⟩

theorem gentype_some_named (E : Env) (fuel : Nat) (c c1 : compile_t) (ast : ast_t)
    (t : LLVMTypeRef) (hcomp : composite E ast)
    (h : gentype E fuel c ast = .ret (some t, c1)) :
    ∃ name, E.genname_type ast = some name := by
  cases fuel with
  | zero => simp [gentype] at h
  | succ n =>
    cases hn : E.genname_type ast with
    | some name => exact ⟨name, rfl⟩
    | none =>
      rcases hcomp with hid | ⟨hid, hk⟩
      · rw [gentype_tuple_unnamed E n c ast hid hn] at h
        simp at h
      · rw [gentype_nominal_unnamed E n c ast hid hk hn] at h
        simp at h

theorem find_struct_of_extends (E : Env) (c c1 : compile_t) (r : Option LLVMTypeRef)
    (name : String) (id : Nat) (h : extends_layouts E c r c1)
    (hf : find_struct name c.types = some id) :
    find_struct name c1.types = some id := by
  obtain ⟨_, _, ext, he, _, _⟩ := h
  rw [he]
  exact find_struct_append_of_some name c.types ext id hf

theorem names_of_extends (E : Env) (c c1 : compile_t) (r : Option LLVMTypeRef)
    (name : String) (id : Nat) (h : extends_layouts E c r c1)
    (hf : (c.types.map StructType.name)[id]? = some name) :
    (c1.types.map StructType.name)[id]? = some name := by
  obtain ⟨_, _, ext, he, _, _⟩ := h
  have hlt : id < (c.types.map StructType.name).length := by
    by_contra hge
    rw [List.getElem?_eq_none (by omega)] at hf
    simp at hf
  rw [he, List.map_append, List.getElem?_append_left hlt]
  exact hf

/-- C20 fails as stated when a canonical name is the empty string. With a
`genname_type` that gives the empty string, `gentype` builds the layout of the
actor `A` of the sample program, and its trace function holds a known trace on
slot 1 whose callee name is the empty string; no layout is registered under
that name, in the state that `gentype` leaves or in any other: the layout of
the field was created without a name. -/
theorem known_trace_to_unnamed_layout :
    ∃ c1, gentype sample_env_anon 3 sample_ctx (nominal_use "A" 4 (TK_OTHER 5)) =
        .ret (some (.pointer (.struct 0)), c1) ∧
      c1.types =
        [⟨"", some [.other 0, .pointer (.struct 1), .other 1]⟩,
         ⟨"", some [.other 0, .int 32, .int 32]⟩] ∧
      c1.functions.getLast? =
        some ⟨"$trace",
          [.bitcast (.pointer (.struct 0)), .structGEP 1, .traceknown 1 (some ""),
           .structGEP 2, .tracetag 2, .retVoid]⟩ ∧
      LLVMGetTypeByName c1 "" = none ∧
      ∀ c : compile_t, LLVMGetTypeByName c "" = none :=
  ⟨_, rfl, rfl, rfl, rfl, fun c => by
    simp [LLVMGetTypeByName, find_struct_empty]⟩

/-- C20, amended: known-trace consistency. When `gentype` has built the
layout of a composite type (its canonical name was not registered and a type
is returned), the last function of the module is the trace function of that
layout, built by a call of `make_trace` from a state `c3`; and for every
known-trace instruction of that function on slot `i + 1`, the callee is a
canonical name `N`, slot `i + 1` of the enclosing layout is the pointer to a
layout that was created under `N` and exists in `c3`, at the time of the call
of `make_trace`, and when `N` is not the empty string that layout is the one
registered under `N`, in `c3` and in the final state. -/
theorem known_trace_consistent (E : Env) (fuel : Nat) (c c1 : compile_t)
    (ast : ast_t) (name : String) (t : LLVMTypeRef)
    (hcomp : composite E ast) (hname : E.genname_type ast = some name)
    (hfind : find_struct name c.types = none)
    (hok : gentype E (fuel + 1) c ast = .ret (some t, c1)) :
    ∃ body fn fields c3 k,
      c1.types[c.types.length]? = some ⟨name, some body⟩ ∧
      c1.functions.getLast? = some fn ∧
      fn.name = E.genname_fun name "$trace" ∧
      layout_fields E ast = .ret fields ∧
      make_trace E c3 name (.struct c.types.length) fields = .ret (some k, c1) ∧
      c3.functions[k]? = none ∧ c1.functions[k]? = some fn ∧
      ∀ (i : Nat) (callee : Option String), Instr.traceknown (i + 1) callee ∈ fn.body →
        ∃ N id, callee = some N ∧
          (c3.types.map StructType.name)[id]? = some N ∧
          body[i + 1]? = some (.pointer (.struct id)) ∧
          (N ≠ "" → find_struct N c3.types = some id ∧
            find_struct N c1.types = some id) := by
  obtain ⟨fields, ts, c2, is, ext, hf, hres, his, he2, hc1, hty, ht, hlen⟩ :=
    gentype_built_some E fuel c c1 ast name t hcomp hname hfind hok
  obtain ⟨fields1, r1, hf1, hm, hr⟩ :=
    gentype_built_inv E fuel c ast name _ c1 hcomp hname hfind hok
  rw [hf] at hf1
  simp only [Outcome.ret.injEq] at hf1
  subst hf1
  have hfin : E.codegen_finishfun c1 c2.functions.length = true := by
    rw [make_struct_resolved E _ c c2 name fields ts is hres his] at hm
    simp only [Outcome.ret.injEq, Prod.mk.injEq] at hm
    rw [← hm.1] at hr
    by_cases hb : E.codegen_finishfun c1 c2.functions.length = true
    · exact hb
    · rw [hc1] at hb
      simp [hb] at hr
  have hc3f : (LLVMStructSetBody c2 (.struct c.types.length)
      (c.descriptor_ptr :: ts)).functions = c2.functions :=
    LLVMStructSetBody_functions _ _ _
  have hc3t : (LLVMStructSetBody c2 (.struct c.types.length)
      (c.descriptor_ptr :: ts)).types =
      c.types ++ ⟨name, some (c.descriptor_ptr :: ts)⟩ :: ext := by
    rw [← hty, hc1]; rfl
  have hfun : c1.functions = c2.functions ++
      [⟨E.genname_fun name "$trace",
        .bitcast (.pointer (.struct c.types.length)) :: is ++ [.retVoid]⟩] := by
    rw [hc1]; simp [finished_layout, with_trace, hc3f]
  refine ⟨c.descriptor_ptr :: ts,
    ⟨E.genname_fun name "$trace",
      .bitcast (.pointer (.struct c.types.length)) :: is ++ [.retVoid]⟩, fields,
    LLVMStructSetBody c2 (.struct c.types.length) (c.descriptor_ptr :: ts),
    c2.functions.length, ?_, ?_, rfl, hf, ?_, ?_, ?_, ?_⟩
  · rw [hty]; exact getElem?_append_cons_length _ _ _
  · rw [hfun]; simp
  · rw [make_trace_resolved E _ name _ fields is his, hc3f]
    have e : with_trace E (LLVMStructSetBody c2 (.struct c.types.length)
        (c.descriptor_ptr :: ts)) (.struct c.types.length) name is = c1 := by
      rw [hc1]; rfl
    rw [e, hfin]
    rfl
  · rw [hc3f]; simp
  · rw [hfun]; exact getElem?_append_cons_length _ _ _
  · intro i callee hmem
    have hin : Instr.traceknown (i + 1) callee ∈ is := by
      simp only [List.cons_append, List.mem_cons, reduceCtorEq, List.mem_append,
        List.mem_singleton, or_false, false_or, List.not_mem_nil] at hmem
      exact hmem
    obtain ⟨k, f, fis, hk, hsk, hft, hxf⟩ :=
      loop_trace_mem E fields 0 is _ (i + 1) his hin rfl
    have hki : k = i := by omega
    subst hki
    simp only [Nat.zero_add] at hft
    obtain ⟨hcal, hshape⟩ := field_trace_known E k f fis (k + 1) callee hft hxf
    have hfcomp : composite E f := by
      rcases hshape with h | ⟨h1, h2⟩
      · exact Or.inl h
      · exact Or.inr ⟨h1, Or.inl h2⟩
    obtain ⟨ck, ck1, tk, hg, htk, _, hrest⟩ :=
      resolved_in_order_at _ _ c2 fields ts hres k f hk
    obtain ⟨N, hN⟩ := gentype_some_named E fuel ck ck1 f tk hfcomp hg
    obtain ⟨id, hat, hfs, htid⟩ :=
      gentype_registered E fuel ck f (some tk) ck1 N hfcomp hN hg
    have hext := (resolved_in_order_extends E fuel ck1 c2 _ _ hrest).1
    have hat3 : ((c.types ++ ⟨name, some (c.descriptor_ptr :: ts)⟩ :: ext).map
        StructType.name)[id]? = some N := by
      rw [names_body_irrelevant c.types ext name _ none, ← he2]
      exact names_of_extends E ck1 c2 _ N id hext hat
    have hfs3 : N ≠ "" →
        find_struct N (c.types ++ ⟨name, some (c.descriptor_ptr :: ts)⟩ :: ext) =
          some id := by
      intro hne
      rw [find_struct_body_irrelevant N c.types ext name _ none, ← he2]
      exact find_struct_of_extends E ck1 c2 _ N id hext (hfs hne)
    refine ⟨N, id, by rw [hcal, hN], by rw [hc3t]; exact hat3, ?_,
      fun hne => ⟨by rw [hc3t]; exact hfs3 hne, by rw [hty]; exact hfs3 hne⟩⟩
    rcases htid with htid | htid
    · simp at htid
    · simp only [Option.some.injEq] at htid
      subst htid
      simpa using htk

/-- C20, amended, at the actor `A` of the sample program, whose trace function
holds a known trace through `Point` on slot 1. -/
theorem known_trace_consistent_witness :
    ∃ body fn,
      sample_actor_ctx.types[0]? = some ⟨"A", some body⟩ ∧
      sample_actor_ctx.functions.getLast? = some fn ∧
      fn.name = "A$trace" ∧
      ∀ (i : Nat) (callee : Option String), Instr.traceknown (i + 1) callee ∈ fn.body →
        ∃ N id, callee = some N ∧
          body[i + 1]? = some (.pointer (.struct id)) ∧
          (N ≠ "" → find_struct N sample_actor_ctx.types = some id) :=
  match known_trace_consistent sample_env 2 sample_ctx sample_actor_ctx
      (nominal_use "A" 4 (TK_OTHER 5)) "A" (.pointer (.struct 0))
      (Or.inr ⟨rfl, Or.inr (Or.inl rfl)⟩) rfl rfl rfl with
  | ⟨body, fn, _, _, _, h1, h2, h3, _, _, _, _, h8⟩ =>
    ⟨body, fn, h1, h2, h3, fun i callee hmem =>
      match h8 i callee hmem with
      | ⟨N, id, e1, _, e3, e4⟩ => ⟨N, id, e1, e3, fun hne => (e4 hne).2⟩⟩

/-! ### At most one construction per canonical name -/

/-- A returning `gentype_body` either leaves the state as it is or is a
returning `make_struct` for a name that was not registered. -/
theorem gentype_body_inv (E : Env) (gt : compile_t → ast_t → GenResult)
    (c : compile_t) (ast : ast_t) (t : Option LLVMTypeRef) (c1 : compile_t)
    (h : gentype_body E gt c ast = .ret (t, c1)) :
    c1 = c ∨ ∃ name fields r1, find_struct name c.types = none ∧
      make_struct E gt c name fields = .ret (r1, c1) := by
  have hobj : ∀ e, make_object E gt c ast = .ret (t, e, c1) →
      c1 = c ∨ ∃ name fields r1, find_struct name c.types = none ∧
        make_struct E gt c name fields = .ret (r1, c1) := by
    intro e hm
    unfold make_object at hm
    cases hn : E.genname_type ast with
    | none =>
      simp only [hn, Outcome.ret.injEq, Prod.mk.injEq] at hm
      exact Or.inl hm.2.2.symm
    | some name =>
      simp only [hn, LLVMGetTypeByName] at hm
      cases hf : find_struct name c.types with
      | some id =>
        simp only [hf, Option.map_some', Outcome.ret.injEq, Prod.mk.injEq] at hm
        exact Or.inl hm.2.2.symm
      | none =>
        simp only [hf, Option.map_none'] at hm
        obtain ⟨fields, _, hm⟩ := bind_eq_ret _ _ _ hm
        obtain ⟨⟨r, c2⟩, hms, hm⟩ := bind_eq_ret _ _ _ hm
        have hc : c2 = c1 := by
          cases r <;> simp only [Outcome.ret.injEq, Prod.mk.injEq] at hm <;> exact hm.2.2
        subst hc
        exact Or.inr ⟨name, fields, r, hf, hms⟩
  unfold gentype_body at h
  cases hid : ast_id ast <;> simp only [hid] at h
  case TK_UNIONTYPE => exact Or.inl (by split at h <;> simp_all)
  case TK_ISECTTYPE =>
    simp only [Outcome.ret.injEq, Prod.mk.injEq] at h
    exact Or.inl h.2.symm
  case TK_STRUCTURAL =>
    simp only [Outcome.ret.injEq, Prod.mk.injEq] at h
    exact Or.inl h.2.symm
  case TK_TUPLETYPE =>
    unfold gentype_tuple at h
    cases hn : E.genname_type ast with
    | none => simp [hn] at h
    | some name =>
      simp only [hn, LLVMGetTypeByName] at h
      cases hf : find_struct name c.types with
      | some id =>
        simp only [hf, Option.map_some', Outcome.ret.injEq, Prod.mk.injEq] at h
        exact Or.inl h.2.symm
      | none =>
        simp only [hf, Option.map_none'] at h
        obtain ⟨⟨r, c2⟩, hms, h⟩ := bind_eq_ret _ _ _ h
        have hc : c2 = c1 := by
          cases r <;> simp only [Outcome.ret.injEq, Prod.mk.injEq] at h <;> exact h.2
        subst hc
        exact Or.inr ⟨name, _, r, hf, hms⟩
  case TK_NOMINAL =>
    unfold gentype_nominal at h
    simp only [hid, ne_eq, not_true_eq_false, false_and, if_false] at h
    cases hd : ast_data E ast with
    | none => simp [hd] at h
    | some d =>
      simp only [hd] at h
      cases hdk : ast_id d <;> simp only [hdk] at h
      case TK_TRAIT =>
        simp only [Outcome.ret.injEq, Prod.mk.injEq] at h
        exact Or.inl h.2.symm
      case TK_DATA =>
        obtain ⟨name, _, hcase⟩ := gentype_data_post E gt c ast t c1 h
        rcases hcase with ⟨_, _, _, hc⟩ | ⟨_, e, hm⟩
        · exact Or.inl hc
        · exact hobj e hm
      case TK_CLASS =>
        obtain ⟨e, hm⟩ := make_object_wrapper E gt c ast t c1 h
        exact hobj e hm
      case TK_ACTOR =>
        obtain ⟨e, hm⟩ := make_object_wrapper E gt c ast t c1 h
        exact hobj e hm
      all_goals exact Or.inl (by split at h <;> simp_all)
  all_goals exact Or.inl (by split at h <;> simp_all)

theorem builds_once_refl (E : Env) (c : compile_t) : builds_once E c c :=
  ⟨[], [], by simp, List.nodup_nil, by simp, by simp, List.nodup_nil, by simp⟩

theorem find_struct_eq_none_iff (name : String) (l : List StructType) :
    find_struct name l = none ↔ name = "" ∨ name ∉ l.map (fun s => s.name) := by
  by_cases hne : name = ""
  · subst hne
    simp [find_struct_empty]
  · simp only [hne, false_or]
    induction l with
    | nil => simp [find_struct]
    | cons s l ih =>
      unfold find_struct
      by_cases hs : s.name = name
      · simp [hs, hne]
      · simp only [hs, false_and, if_false, Option.map_eq_none', ih, List.map_cons,
          List.mem_cons, not_or]
        constructor
        · intro h; exact ⟨fun e => hs e.symm, h⟩
        · intro h; exact h.2

theorem builds_once_trans (E : Env) (c c1 c2 : compile_t)
    (h1 : builds_once E c c1) (h2 : builds_once E c1 c2) : builds_once E c c2 := by
  obtain ⟨n1, t1, hty1, hnd1, hnew1, hfn1, htd1, hsub1⟩ := h1
  obtain ⟨n2, t2, hty2, hnd2, hnew2, hfn2, htd2, hsub2⟩ := h2
  have hdisj : ∀ N ∈ n2, N ≠ "" → N ∉ c.types.map (fun s => s.name) ∧ N ∉ n1 := by
    intro N hN hne
    have := (find_struct_eq_none_iff N c1.types).mp (hnew2 N hN)
    rcases this with this | this
    · exact absurd this hne
    · rw [hty1, List.mem_append, not_or] at this
      exact this
  refine ⟨n1 ++ n2, t1 ++ t2, ?_, ?_, ?_, ?_, ?_, ?_⟩
  · rw [hty2, hty1, List.append_assoc]
  · rw [List.filter_append, List.nodup_append]
    refine ⟨hnd1, hnd2, fun N h1 h2 => ?_⟩
    rw [List.mem_filter] at h1 h2
    exact (hdisj N h2.1 (by simpa using h2.2)).2 h1.1
  · intro N hN
    rcases List.mem_append.mp hN with hN | hN
    · exact hnew1 N hN
    · by_cases hne : N = ""
      · rw [hne]; exact find_struct_empty _
      · exact (find_struct_eq_none_iff N c.types).mpr (Or.inr (hdisj N hN hne).1)
  · rw [hfn2, hfn1, List.map_append, List.append_assoc]
  · rw [List.filter_append, List.nodup_append]
    refine ⟨htd1, htd2, fun N h1 h2 => ?_⟩
    rw [List.mem_filter] at h1 h2
    exact (hdisj N (hsub2 N h2.1) (by simpa using h2.2)).2 (hsub1 N h1.1)
  · intro N hN
    rcases List.mem_append.mp hN with hN | hN
    · exact List.mem_append_left _ (hsub1 N hN)
    · exact List.mem_append_right _ (hsub2 N hN)

theorem make_struct_loop_builds_once (E : Env) (gt : compile_t → ast_t → GenResult)
    (H : ∀ c ast r c1, gt c ast = .ret (r, c1) → builds_once E c c1)
    (fields : List ast_t) :
    ∀ (c : compile_t) (els : List LLVMTypeRef)
      (r : Option (List LLVMTypeRef)) (c1 : compile_t),
      make_struct_loop gt c els fields = .ret (r, c1) → builds_once E c c1 := by
  induction fields with
  | nil =>
    intro c els r c1 h
    simp only [make_struct_loop, Outcome.ret.injEq, Prod.mk.injEq] at h
    rw [← h.2]
    exact builds_once_refl E c
  | cons f rest ih =>
    intro c els r c1 h
    simp only [make_struct_loop] at h
    obtain ⟨⟨t, c2⟩, hg, h⟩ := bind_eq_ret _ _ _ h
    cases t with
    | none =>
      simp only [Outcome.ret.injEq, Prod.mk.injEq] at h
      rw [← h.2]
      exact H c f none c2 hg
    | some t =>
      simp only at h
      exact builds_once_trans E c c2 c1 (H c f _ c2 hg) (ih c2 _ r c1 h)

theorem update_at_map_name (f : StructType → StructType)
    (hf : ∀ s, (f s).name = s.name) (i : Nat) (l : List StructType) :
    (update_at f i l).map (fun s => s.name) = l.map (fun s => s.name) := by
  induction l generalizing i with
  | nil => cases i <;> rfl
  | cons s l ih =>
    cases i with
    | zero => simp [update_at, hf]
    | succ i => simp [update_at, ih]

theorem LLVMStructSetBody_names (c : compile_t) (type : LLVMTypeRef)
    (elements : List LLVMTypeRef) :
    (LLVMStructSetBody c type elements).types.map (fun s => s.name) =
      c.types.map (fun s => s.name) := by
  unfold LLVMStructSetBody
  split
  · exact update_at_map_name (fun s => { s with body := some elements })
      (fun _ => rfl) _ _
  · rfl

theorem make_trace_names (E : Env) (c : compile_t) (name : String)
    (type : LLVMTypeRef) (fields : List ast_t) (r : Option Nat) (c1 : compile_t)
    (h : make_trace E c name type fields = .ret (r, c1)) :
    c1.types = c.types ∧
      c1.functions.map (fun f => f.name) =
        c.functions.map (fun f => f.name) ++ [E.genname_fun name "$trace"] := by
  rcases make_trace_ret_inv E c name type fields r c1 h with
    ⟨is, _, rfl, _⟩ | ⟨_, _, _, is, rfl⟩
  · exact ⟨rfl, by simp [with_trace]⟩
  · exact ⟨rfl, by simp [cut_trace]⟩

theorem make_struct_builds_once (E : Env) (gt : compile_t → ast_t → GenResult)
    (H : ∀ c ast r c1, gt c ast = .ret (r, c1) → builds_once E c c1)
    (c : compile_t) (name : String) (fields : List ast_t)
    (r : Option LLVMTypeRef) (c1 : compile_t)
    (hfind : find_struct name c.types = none)
    (h : make_struct E gt c name fields = .ret (r, c1)) :
    builds_once E c c1 := by
  unfold make_struct at h
  simp only [LLVMStructCreateNamed] at h
  obtain ⟨⟨els, c2⟩, hl, h⟩ := bind_eq_ret _ _ _ h
  obtain ⟨n2, t2, hty2, hnd2, hnew2, hfn2, htd2, hsub2⟩ :=
    make_struct_loop_builds_once E gt H fields _ _ els c2 hl
  simp only [List.map_append, List.map_cons, List.map_nil] at hty2 hfn2
  have hreg : ∀ N ∈ n2, find_struct N c.types = none ∧ (N ≠ "" → N ≠ name) := by
    intro N hN
    by_cases hne : N = ""
    · exact ⟨by rw [hne]; exact find_struct_empty _, fun h => absurd hne h⟩
    · have := (find_struct_eq_none_iff N _).mp (hnew2 N hN)
      simp only [hne, false_or, List.map_append, List.map_cons, List.map_nil,
        List.mem_append, List.mem_singleton, not_or] at this
      exact ⟨(find_struct_eq_none_iff N c.types).mpr (Or.inr this.1), fun _ => this.2⟩
  have hname : name ∉ n2.filter fun N => decide (N ≠ "") := by
    intro hN
    rw [List.mem_filter] at hN
    exact (hreg name hN.1).2 (by simpa using hN.2) rfl
  have hnames : ((name :: n2).filter fun N => decide (N ≠ "")).Nodup ∧
      ∀ N ∈ name :: n2, find_struct N c.types = none := by
    refine ⟨?_, ?_⟩
    · rw [List.filter_cons]
      split
      · exact List.nodup_cons.mpr ⟨hname, hnd2⟩
      · exact hnd2
    · intro N hN
      rcases List.mem_cons.mp hN with rfl | hN
      · exact hfind
      · exact (hreg N hN).1
  cases els with
  | none =>
    simp only [Outcome.ret.injEq, Prod.mk.injEq] at h
    rw [← h.2]
    refine ⟨name :: n2, t2, ?_, hnames.1, hnames.2, hfn2, htd2, ?_⟩
    · rw [hty2]; simp
    · intro N hN; exact List.mem_cons_of_mem _ (hsub2 N hN)
  | some els =>
    simp only at h
    obtain ⟨⟨tr, c3⟩, hmt, h⟩ := bind_eq_ret _ _ _ h
    obtain ⟨hc3t, hc3f⟩ := make_trace_names E _ name _ fields tr c3 hmt
    have hc : c1 = c3 := by
      cases tr <;> simp only [Outcome.ret.injEq, Prod.mk.injEq] at h <;> exact h.2.symm
    rw [hc]
    refine ⟨name :: n2, t2 ++ [name], ?_, hnames.1, hnames.2, ?_, ?_, ?_⟩
    · rw [hc3t, LLVMStructSetBody_names, hty2]; simp
    · rw [hc3f, LLVMStructSetBody_functions, hfn2]
      simp
    · rw [List.filter_append, List.nodup_append]
      refine ⟨htd2, (List.nodup_singleton name).sublist (List.filter_sublist _), ?_⟩
      intro N h1 h2
      rw [List.mem_filter] at h1 h2
      rw [List.mem_singleton] at h2
      obtain ⟨h2, _⟩ := h2
      subst h2
      exact hname (List.mem_filter.mpr ⟨hsub2 N h1.1, h1.2⟩)
    · intro N hN
      rcases List.mem_append.mp hN with hN | hN
      · exact List.mem_cons_of_mem _ (hsub2 N hN)
      · rw [List.mem_singleton] at hN
        subst hN
        exact List.mem_cons_self _ _

theorem gentype_builds_once (E : Env) (fuel : Nat) :
    ∀ (c : compile_t) (ast : ast_t) (t : Option LLVMTypeRef) (c1 : compile_t),
      gentype E fuel c ast = .ret (t, c1) → builds_once E c c1 := by
  induction fuel with
  | zero => intro c ast t c1 h; simp [gentype] at h
  | succ n ih =>
    intro c ast t c1 h
    rcases gentype_body_inv E (gentype E n) c ast t c1 h with
      rfl | ⟨name, fields, r1, hfind, hm⟩
    · exact builds_once_refl E _
    · exact make_struct_builds_once E _ ih c name fields r1 c1 hfind hm

/-- C18 fails as stated when a canonical name is the empty string. With a
`genname_type` that gives the empty string, two calls of `gentype` for the
class `Point` of the sample program, one after the other from the empty state,
each run `make_struct`: the struct of the first call is in no name table, the
second call returns a second layout, and the module holds two structs created
under the one canonical name and two trace functions created under the one
name. -/
theorem unnamed_layout_built_twice :
    sample_env_anon.genname_type (nominal_use "Point" 0 (TK_OTHER 5)) = some "" ∧
    ∃ c1 c2,
      gentype sample_env_anon 2 sample_ctx (nominal_use "Point" 0 (TK_OTHER 5)) =
        .ret (some (.pointer (.struct 0)), c1) ∧
      gentype sample_env_anon 2 c1 (nominal_use "Point" 0 (TK_OTHER 5)) =
        .ret (some (.pointer (.struct 1)), c2) ∧
      c2.types.map (fun s => s.name) = ["", ""] ∧
      c2.functions.map (fun f => f.name) = ["$trace", "$trace"] ∧
      call_sequence sample_env_anon sample_ctx c2 :=
  ⟨rfl, _, _, rfl, rfl, rfl, rfl,
    .call _ _ _ 2 (nominal_use "Point" 0 (TK_OTHER 5)) (some (.pointer (.struct 1)))
      (.call _ _ _ 2 (nominal_use "Point" 0 (TK_OTHER 5)) (some (.pointer (.struct 0)))
        (.nil sample_ctx) rfl) rfl⟩

/-- C18, amended: across any sequence of returning calls of `gentype`, from any
starting state, `make_struct` never runs for a name that is registered, and
runs at most once per canonical name that is not the empty string: the structs
added are named by a list of names that were not registered at the start, the
trace functions added are those of a list of names among them, and in neither
list does a name other than the empty string occur twice, so no such name gets
a second layout or a second trace function. And whenever the canonical name of
a composite type is registered, `gentype` returns the pointer to the registered
layout and leaves the state (cache and functions) as it is. -/
theorem layouts_built_once (E : Env) :
    (∀ c c1, call_sequence E c c1 → builds_once E c c1) ∧
    (∀ (fuel : Nat) (c : compile_t) (ast : ast_t) (name : String) (id : Nat),
      composite E ast → E.genname_type ast = some name →
      find_struct name c.types = some id →
      gentype E (fuel + 1) c ast = .ret (some (.pointer (.struct id)), c)) := by
  refine ⟨?_, ?_⟩
  · intro c c1 h
    induction h with
    | nil => exact builds_once_refl E c
    | call c1 c2 fuel ast r _ hcall ih =>
      exact builds_once_trans E c c1 c2 ih (gentype_builds_once E fuel c1 ast r c2 hcall)
  · intro fuel c ast name id hcomp hname hfind
    exact gentype_hit E fuel c ast name id hcomp hname hfind

/-- C18, amended, at the sample program: the actor `A` is resolved twice in a
row from the empty state; the second call changes nothing. -/
theorem layouts_built_once_witness :
    builds_once sample_env sample_ctx sample_actor_ctx ∧
    gentype sample_env (0 + 1) sample_actor_ctx (nominal_use "A" 4 TK_TAG) =
      .ret (some (.pointer (.struct 0)), sample_actor_ctx) :=
  ⟨(layouts_built_once sample_env).1 sample_ctx sample_actor_ctx
      (.call _ _ _ 1 (nominal_use "A" 4 TK_TAG) (some (.pointer (.struct 0)))
        (.call _ _ _ 3 (nominal_use "A" 4 (TK_OTHER 5)) (some (.pointer (.struct 0)))
          (.nil sample_ctx) rfl) rfl),
   (layouts_built_once sample_env).2 0 sample_actor_ctx (nominal_use "A" 4 TK_TAG)
      "A" 0 (Or.inr ⟨rfl, Or.inr (Or.inl rfl)⟩) rfl rfl⟩

/-! ### Termination on cyclic types -/

theorem filter_length_le_of_imp {α : Type} (p q : α → Bool) (l : List α)
    (h : ∀ x ∈ l, p x = true → q x = true) :
    (l.filter p).length ≤ (l.filter q).length := by
  induction l with
  | nil => simp
  | cons a l ih =>
    have ih2 := ih (fun x hx => h x (List.mem_cons_of_mem _ hx))
    have ha := h a (List.mem_cons_self _ _)
    simp only [List.filter_cons]
    cases hp : p a <;> cases hq : q a <;> simp <;> first | omega | (simp [hp, hq] at ha)

theorem filter_length_lt_of_imp {α : Type} (p q : α → Bool) (l : List α)
    (h : ∀ x ∈ l, p x = true → q x = true) (a : α) (ha : a ∈ l)
    (hq : q a = true) (hp : p a = false) :
    (l.filter p).length < (l.filter q).length := by
  induction l with
  | nil => simp at ha
  | cons b l ih =>
    have hle := filter_length_le_of_imp p q l (fun x hx => h x (List.mem_cons_of_mem _ hx))
    have hb := h b (List.mem_cons_self _ _)
    simp only [List.filter_cons]
    rcases List.mem_cons.mp ha with rfl | ha
    · simp only [hp, hq, if_true, List.length_cons, Bool.false_eq_true, if_false]
      omega
    · have ih2 := ih (fun x hx => h x (List.mem_cons_of_mem _ hx)) ha
      cases hpb : p b <;> cases hqb : q b <;> simp <;>
        first | omega | (simp [hpb, hqb] at hb)

theorem unregistered_le_of_append (S : List String) (c c1 : compile_t)
    (ext : List StructType) (h : c1.types = c.types ++ ext) :
    unregistered S c1 ≤ unregistered S c := by
  unfold unregistered
  apply filter_length_le_of_imp
  intro N _ hN
  rw [h] at hN
  cases hf : find_struct N c.types with
  | none => rfl
  | some id =>
    rw [find_struct_append_of_some N c.types ext id hf] at hN
    simp at hN

theorem unregistered_lt_of_create (S : List String) (c : compile_t) (name : String)
    (hS : name ∈ S) (hne : name ≠ "") (hfind : find_struct name c.types = none) :
    unregistered S { c with types := c.types ++ [⟨name, none⟩] } < unregistered S c := by
  unfold unregistered
  apply filter_length_lt_of_imp _ _ S _ name hS
  · simp [hfind]
  · simp [find_struct_append_cons_of_none name c.types [] none hne hfind]
  · intro N _ hN
    cases hf : find_struct N c.types with
    | none => rfl
    | some id =>
      simp only [find_struct_append_of_some N c.types _ id hf] at hN
      simp at hN

theorem field_trace_ne_nofuel (E : Env) (i : Nat) (ast : ast_t) :
    field_trace E i ast ≠ .nofuel := by
  unfold field_trace make_trace_field
  cases hid : ast_id ast <;>
    simp only [LLVMBuildStructGEP, gencall_traceunknown, gencall_traceknown,
      gencall_tracetag, gencall_traceactor, Outcome.bind_abort] <;>
    (repeat' split) <;>
    simp only [Outcome.bind_ret, Outcome.bind_abort, Outcome.bind_undef, ne_eq,
      reduceCtorEq, not_false_eq_true]

theorem loop_trace_ne_nofuel (E : Env) (fields : List ast_t) :
    ∀ j, loop_trace E j fields ≠ .nofuel := by
  induction fields with
  | nil => intro j; simp [loop_trace]
  | cons f rest ih =>
    intro j
    unfold loop_trace
    have h1 := field_trace_ne_nofuel E j f
    have h2 := ih (j + 1)
    cases ha : field_trace E j f with
    | ret a =>
      cases hb : loop_trace E (j + 1) rest with
      | ret b => simp
      | abort => simp
      | undef => simp
      | nofuel => exact absurd hb h2
    | abort => simp
    | undef => simp
    | nofuel => exact absurd ha h1

theorem make_trace_ne_nofuel (E : Env) (c : compile_t) (name : String)
    (type : LLVMTypeRef) (fields : List ast_t) :
    make_trace E c name type fields ≠ .nofuel := by
  have h0 := make_trace_eq E c name type fields
  have h := loop_trace_ne_nofuel E fields 0
  cases hl : loop_trace E 0 fields with
  | ret is => rw [hl] at h0; simp [h0]
  | abort =>
    rw [hl] at h0
    cases hn : E.ndebug with
    | false => simp only [hn, Bool.false_eq_true, if_false] at h0; simp [h0]
    | true =>
      simp only [hn, if_true] at h0
      obtain ⟨is, his⟩ := h0
      simp [his]
  | undef => rw [hl] at h0; simp [h0]
  | nofuel => exact absurd hl h

theorem field_array_ne_nofuel (l : List (Option ast_t)) : field_array l ≠ .nofuel := by
  induction l with
  | nil => simp [field_array]
  | cons a l ih =>
    cases a with
    | none => simp [field_array]
    | some f =>
      unfold field_array
      cases h : field_array l with
      | ret x => simp
      | abort => simp
      | undef => simp
      | nofuel => exact absurd h ih

theorem layout_fields_ne_nofuel (E : Env) (ast : ast_t) :
    layout_fields E ast ≠ .nofuel := by
  unfold layout_fields get_fields
  repeat' split
  all_goals first
    | exact field_array_ne_nofuel _
    | simp

theorem gentype_plain_ne_nofuel (E : Env) (gt : compile_t → ast_t → GenResult)
    (c : compile_t) (ast : ast_t) (h : ¬ composite E ast) :
    gentype_body E gt c ast ≠ .nofuel := by
  unfold gentype_body
  cases hid : ast_id ast <;> simp only [ne_eq, reduceCtorEq, not_false_eq_true]
  case TK_UNIONTYPE => split <;> simp
  case TK_TUPLETYPE => exact absurd (Or.inl hid) h
  case TK_NOMINAL =>
    unfold gentype_nominal
    simp only [hid, ne_eq, not_true_eq_false, false_and, if_false]
    cases hd : ast_data E ast with
    | none => simp
    | some d =>
      have hk : def_kind E ast = some (ast_id d) := by simp [def_kind, hd]
      simp only []
      cases hdk : ast_id d <;> simp only [reduceCtorEq, not_false_eq_true]
      case TK_CLASS =>
        rw [hdk] at hk
        exact absurd (Or.inr ⟨hid, Or.inl hk⟩) h
      case TK_ACTOR =>
        rw [hdk] at hk
        exact absurd (Or.inr ⟨hid, Or.inr (Or.inl hk)⟩) h
      case TK_DATA =>
        rw [hdk] at hk
        cases hn : nominal_name ast with
        | none =>
          unfold nominal_name at hn
          unfold gentype_data
          cases hc : ast_childidx ast 1 with
          | none => simp
          | some id => simp [hc] at hn
        | some nm =>
          rw [gentype_data_resolve E gt c ast nm hn]
          cases hr : resolveBuiltin nm with
          | some scalar => simp
          | none => exact absurd (Or.inr ⟨hid, Or.inr (Or.inr ⟨hk, nm, hn, hr⟩)⟩) h
      all_goals (split <;> simp)
  all_goals (split <;> simp)

theorem make_struct_nofuel_inv (E : Env) (gt : compile_t → ast_t → GenResult)
    (c : compile_t) (name : String) (fields : List ast_t)
    (h : make_struct E gt c name fields = .nofuel) :
    make_struct_loop gt { c with types := c.types ++ [⟨name, none⟩] }
      [c.descriptor_ptr] fields = .nofuel := by
  unfold make_struct at h
  simp only [LLVMStructCreateNamed] at h
  cases hl : make_struct_loop gt { c with types := c.types ++ [⟨name, none⟩] }
      [c.descriptor_ptr] fields with
  | nofuel => rfl
  | abort => rw [hl] at h; simp at h
  | undef => rw [hl] at h; simp at h
  | ret r =>
    rw [hl] at h
    obtain ⟨els, c2⟩ := r
    cases els with
    | none => simp at h
    | some els =>
      simp only [Outcome.bind_ret] at h
      have hm := make_trace_ne_nofuel E (LLVMStructSetBody c2 (.struct c.types.length) els)
        name (.struct c.types.length) fields
      cases hmt : make_trace E (LLVMStructSetBody c2 (.struct c.types.length) els)
          name (.struct c.types.length) fields with
      | nofuel => exact absurd hmt hm
      | abort => rw [hmt] at h; simp at h
      | undef => rw [hmt] at h; simp at h
      | ret t =>
        rw [hmt] at h
        obtain ⟨t0, c3⟩ := t
        cases t0 <;> simp at h

/-- When the budget runs out in a call of `gentype` with budget for one call,
it runs out in the loop of `make_struct` over the fields of a composite type
whose canonical name was not registered. -/
theorem gentype_nofuel_inv (E : Env) (fuel : Nat) (c : compile_t) (ast : ast_t)
    (h : gentype E (fuel + 1) c ast = .nofuel) :
    ∃ name fields, composite E ast ∧ E.genname_type ast = some name ∧
      find_struct name c.types = none ∧ layout_fields E ast = .ret fields ∧
      make_struct_loop (gentype E fuel) { c with types := c.types ++ [⟨name, none⟩] }
        [c.descriptor_ptr] fields = .nofuel := by
  by_cases hcomp : composite E ast
  · cases hn : E.genname_type ast with
    | none =>
      rcases hcomp with hid | ⟨hid, hk⟩
      · rw [gentype_tuple_unnamed E fuel c ast hid hn] at h; simp at h
      · rw [gentype_nominal_unnamed E fuel c ast hid hk hn] at h; simp at h
    | some name =>
      cases hf : find_struct name c.types with
      | some id => rw [gentype_hit E fuel c ast name id hcomp hn hf] at h; simp at h
      | none =>
        rw [gentype_composite_bind E fuel c ast name hcomp hn hf] at h
        cases hl : layout_fields E ast with
        | nofuel => exact absurd hl (layout_fields_ne_nofuel E ast)
        | abort => rw [hl] at h; simp at h
        | undef => rw [hl] at h; simp at h
        | ret fields =>
          rw [hl] at h
          simp only [Outcome.bind_ret] at h
          refine ⟨name, fields, hcomp, rfl, hf, rfl, ?_⟩
          apply make_struct_nofuel_inv E
          cases hm : make_struct E (gentype E fuel) c name fields with
          | nofuel => rfl
          | abort => rw [hm] at h; simp at h
          | undef => rw [hm] at h; simp at h
          | ret r => rw [hm] at h; simp at h
  · exact absurd h (gentype_plain_ne_nofuel E (gentype E fuel) c ast hcomp)

theorem make_struct_loop_terminates (E : Env) (S : List String) (U : ast_t → Prop)
    (fuel m : Nat)
    (IH : ∀ c f, U f → unregistered S c ≤ m → gentype E fuel c f ≠ .nofuel)
    (fields : List ast_t) :
    ∀ (c : compile_t) (els : List LLVMTypeRef), (∀ f ∈ fields, U f) →
      unregistered S c ≤ m →
      make_struct_loop (gentype E fuel) c els fields ≠ .nofuel := by
  induction fields with
  | nil => intro c els _ _; simp [make_struct_loop]
  | cons f rest ih =>
    intro c els hU hm
    unfold make_struct_loop
    have hf := IH c f (hU f (List.mem_cons_self _ _)) hm
    cases hg : gentype E fuel c f with
    | nofuel => exact absurd hg hf
    | abort => simp
    | undef => simp
    | ret r =>
      obtain ⟨t, c1⟩ := r
      cases t with
      | none => simp
      | some t =>
        simp only [Outcome.bind_ret]
        obtain ⟨_, _, ext, he, _, _⟩ := gentype_extends E fuel c f _ c1 hg
        exact ih c1 _ (fun g hg => hU g (List.mem_cons_of_mem _ hg))
          (le_trans (unregistered_le_of_append S c c1 ext he) hm)

/-- With more budget than there are unregistered canonical names, `gentype`
does not run out of budget on a type of a closed universe whose canonical
names are not empty. -/
theorem gentype_terminates_aux (E : Env) (S : List String) (U : ast_t → Prop)
    (hU : closed_universe E S U) (hS0 : "" ∉ S) :
    ∀ (m fuel : Nat) (c : compile_t) (ast : ast_t), U ast →
      unregistered S c ≤ m → m < fuel → gentype E fuel c ast ≠ .nofuel := by
  intro m
  induction m with
  | zero =>
    intro fuel c ast hast hm hfuel
    cases fuel with
    | zero => omega
    | succ k =>
      intro h
      obtain ⟨name, fields, hcomp, hn, hf, _, _⟩ := gentype_nofuel_inv E k c ast h
      have hS := (hU ast hast hcomp).1 name hn
      have := unregistered_lt_of_create S c name hS
        (fun e => hS0 (e ▸ hS)) hf
      omega
  | succ m ih =>
    intro fuel c ast hast hm hfuel
    cases fuel with
    | zero => omega
    | succ k =>
      intro h
      obtain ⟨name, fields, hcomp, hn, hf, hlf, hloop⟩ := gentype_nofuel_inv E k c ast h
      have hS := (hU ast hast hcomp).1 name hn
      have hlt := unregistered_lt_of_create S c name hS
        (fun e => hS0 (e ▸ hS)) hf
      exact make_struct_loop_terminates E S U k m
        (fun c f hf hc => ih k c f hf hc (by omega)) fields _ _
        ((hU ast hast hcomp).2 fields hlf) (by omega) hloop

theorem gentype_plain_ret (E : Env) (gt : compile_t → ast_t → GenResult)
    (c : compile_t) (ast : ast_t) (h : ¬ composite E ast)
    (hsup : supported_field E ast)
    (hdata : ast_id ast = TK_NOMINAL → def_kind E ast = some TK_DATA →
      (nominal_name ast).isSome = true) :
    ∃ t, gentype_body E gt c ast = .ret (some t, c) := by
  unfold gentype_body
  rcases hsup with hid | hid | hid | hid | ⟨hid, hk⟩
  · simp only [hid]; split <;> exact ⟨_, rfl⟩
  · exact absurd (Or.inl hid) h
  · simp only [hid]; exact ⟨_, rfl⟩
  · simp only [hid]; exact ⟨_, rfl⟩
  · simp only [hid, gentype_nominal, ne_eq, not_true_eq_false, false_and, if_false]
    have hk0 := hk
    unfold def_kind at hk
    cases hd : ast_data E ast with
    | none => simp [hd] at hk
    | some d =>
      simp only [hd, Option.map_some', Option.some.injEq] at hk
      rcases hk with hk | hk | hk | hk
      · simp only [hk]; exact ⟨_, rfl⟩
      · simp only [hk]
        have hkd : def_kind E ast = some TK_DATA := by simp [def_kind, hd, hk]
        have hn := hdata hid hkd
        cases hnm : nominal_name ast with
        | none => simp [hnm] at hn
        | some nm =>
          rw [gentype_data_resolve E gt c ast nm hnm]
          cases hr : resolveBuiltin nm with
          | some scalar => exact ⟨_, rfl⟩
          | none => exact absurd (Or.inr ⟨hid, Or.inr (Or.inr ⟨hkd, nm, hnm, hr⟩)⟩) h
      · exact absurd (Or.inr ⟨hid, Or.inl (by simp [def_kind, hd, hk])⟩) h
      · exact absurd (Or.inr ⟨hid, Or.inr (Or.inl (by simp [def_kind, hd, hk]))⟩) h

theorem make_struct_loop_returns (gt : compile_t → ast_t → GenResult)
    (U : ast_t → Prop)
    (IH : ∀ c f, U f → gt c f = .nofuel ∨ ∃ r c1, gt c f = .ret (r, c1))
    (fields : List ast_t) :
    ∀ (c : compile_t) (els : List LLVMTypeRef), (∀ f ∈ fields, U f) →
      make_struct_loop gt c els fields = .nofuel ∨
        ∃ r c1, make_struct_loop gt c els fields = .ret (r, c1) := by
  induction fields with
  | nil => intro c els _; exact Or.inr ⟨_, _, rfl⟩
  | cons f rest ih =>
    intro c els hU
    unfold make_struct_loop
    rcases IH c f (hU f (List.mem_cons_self _ _)) with hg | ⟨r, c1, hg⟩
    · rw [hg]; exact Or.inl rfl
    · rw [hg]
      cases r with
      | none => exact Or.inr ⟨_, _, rfl⟩
      | some t =>
        simp only [Outcome.bind_ret]
        exact ih c1 _ (fun g hg => hU g (List.mem_cons_of_mem _ hg))

theorem make_struct_returns (E : Env) (gt : compile_t → ast_t → GenResult)
    (U : ast_t → Prop)
    (IH : ∀ c f, U f → gt c f = .nofuel ∨ ∃ r c1, gt c f = .ret (r, c1))
    (c : compile_t) (name : String) (fields : List ast_t)
    (hU : ∀ f ∈ fields, U f) (hsup : ∀ f ∈ fields, supported_field E f) :
    make_struct E gt c name fields = .nofuel ∨
      ∃ r c1, make_struct E gt c name fields = .ret (r, c1) := by
  unfold make_struct
  simp only [LLVMStructCreateNamed]
  rcases make_struct_loop_returns gt U IH fields
      { c with types := c.types ++ [⟨name, none⟩] } [c.descriptor_ptr] hU with
    hl | ⟨r, c2, hl⟩
  · rw [hl]; exact Or.inl rfl
  · rw [hl]
    cases r with
    | none => exact Or.inr ⟨_, _, rfl⟩
    | some els =>
      obtain ⟨is, his⟩ := loop_trace_supported E fields 0 hsup
      simp only [Outcome.bind_ret, make_trace_resolved E _ name _ fields is his]
      split <;> exact Or.inr ⟨_, _, rfl⟩

/-- On a well-formed closed universe `gentype` either returns or runs out of
budget: it neither aborts nor dereferences NULL. -/
theorem gentype_returns_or_nofuel (E : Env) (S : List String) (U : ast_t → Prop)
    (hU : closed_universe E S U) (hW : well_formed_universe E U) :
    ∀ (fuel : Nat) (c : compile_t) (ast : ast_t), U ast →
      gentype E fuel c ast = .nofuel ∨ ∃ r c1, gentype E fuel c ast = .ret (r, c1) := by
  intro fuel
  induction fuel with
  | zero => intro c ast _; exact Or.inl rfl
  | succ k ih =>
    intro c ast hast
    obtain ⟨hsup, hdata, htup, hfields⟩ := hW ast hast
    by_cases hcomp : composite E ast
    · cases hn : E.genname_type ast with
      | none =>
        rcases hcomp with hid | ⟨hid, hk⟩
        · have := htup hid
          simp [hn] at this
        · exact Or.inr ⟨_, _, gentype_nominal_unnamed E k c ast hid hk hn⟩
      | some name =>
        cases hf : find_struct name c.types with
        | some id => exact Or.inr ⟨_, _, gentype_hit E k c ast name id hcomp hn hf⟩
        | none =>
          obtain ⟨fields, hlf⟩ := hfields hcomp
          rw [gentype_composite_eq E k c ast name fields hcomp hn hf hlf]
          have hfU := (hU ast hast hcomp).2 fields hlf
          rcases make_struct_returns E (gentype E k) U ih c name fields hfU
              (fun f hf => (hW f (hfU f hf)).1) with hm | ⟨r, c1, hm⟩
          · rw [hm]; exact Or.inl rfl
          · rw [hm]; exact Or.inr ⟨_, _, rfl⟩
    · obtain ⟨t, hr⟩ := gentype_plain_ret E (gentype E k) c ast hcomp hsup hdata
      exact Or.inr ⟨some t, c, hr⟩

theorem make_struct_loop_returns_some (gt : compile_t → ast_t → GenResult)
    (U : ast_t → Prop)
    (IH : ∀ c f, U f → gt c f = .nofuel ∨ ∃ t c1, gt c f = .ret (some t, c1))
    (fields : List ast_t) :
    ∀ (c : compile_t) (els : List LLVMTypeRef), (∀ f ∈ fields, U f) →
      make_struct_loop gt c els fields = .nofuel ∨
        ∃ els2 c1, make_struct_loop gt c els fields = .ret (some els2, c1) := by
  induction fields with
  | nil => intro c els _; exact Or.inr ⟨_, _, rfl⟩
  | cons f rest ih =>
    intro c els hU
    unfold make_struct_loop
    rcases IH c f (hU f (List.mem_cons_self _ _)) with hg | ⟨t, c1, hg⟩
    · rw [hg]; exact Or.inl rfl
    · rw [hg]
      simp only [Outcome.bind_ret]
      exact ih c1 _ (fun g hg => hU g (List.mem_cons_of_mem _ hg))

theorem make_struct_returns_some (E : Env) (gt : compile_t → ast_t → GenResult)
    (U : ast_t → Prop)
    (IH : ∀ c f, U f → gt c f = .nofuel ∨ ∃ t c1, gt c f = .ret (some t, c1))
    (hfin : ∀ c k, E.codegen_finishfun c k = true)
    (c : compile_t) (name : String) (fields : List ast_t)
    (hU : ∀ f ∈ fields, U f) (hsup : ∀ f ∈ fields, supported_field E f) :
    make_struct E gt c name fields = .nofuel ∨
      ∃ t c1, make_struct E gt c name fields = .ret (some t, c1) := by
  unfold make_struct
  simp only [LLVMStructCreateNamed]
  rcases make_struct_loop_returns_some gt U IH fields
      { c with types := c.types ++ [⟨name, none⟩] } [c.descriptor_ptr] hU with
    hl | ⟨els, c2, hl⟩
  · rw [hl]; exact Or.inl rfl
  · rw [hl]
    obtain ⟨is, his⟩ := loop_trace_supported E fields 0 hsup
    simp only [Outcome.bind_ret, make_trace_resolved E _ name _ fields is his, hfin,
      if_true]
    exact Or.inr ⟨_, _, rfl⟩

/-- On a well-formed closed universe in which every composite type has a
canonical name, with a backend verification that accepts every trace function,
`gentype` either returns a type or runs out of budget. -/
theorem gentype_returns_some (E : Env) (S : List String) (U : ast_t → Prop)
    (hU : closed_universe E S U) (hW : well_formed_universe E U)
    (hnamed : ∀ ast, U ast → composite E ast → (E.genname_type ast).isSome = true)
    (hfin : ∀ c k, E.codegen_finishfun c k = true) :
    ∀ (fuel : Nat) (c : compile_t) (ast : ast_t), U ast →
      gentype E fuel c ast = .nofuel ∨
        ∃ t c1, gentype E fuel c ast = .ret (some t, c1) := by
  intro fuel
  induction fuel with
  | zero => intro c ast _; exact Or.inl rfl
  | succ k ih =>
    intro c ast hast
    obtain ⟨hsup, hdata, htup, hfields⟩ := hW ast hast
    by_cases hcomp : composite E ast
    · cases hn : E.genname_type ast with
      | none =>
        have := hnamed ast hast hcomp
        simp [hn] at this
      | some name =>
        cases hf : find_struct name c.types with
        | some id => exact Or.inr ⟨_, _, gentype_hit E k c ast name id hcomp hn hf⟩
        | none =>
          obtain ⟨fields, hlf⟩ := hfields hcomp
          rw [gentype_composite_eq E k c ast name fields hcomp hn hf hlf]
          have hfU := (hU ast hast hcomp).2 fields hlf
          rcases make_struct_returns_some E (gentype E k) U ih hfin c name fields hfU
              (fun f hf => (hW f (hfU f hf)).1) with hm | ⟨t, c1, hm⟩
          · rw [hm]; exact Or.inl rfl
          · rw [hm]; exact Or.inr ⟨_, _, rfl⟩
    · obtain ⟨t, hr⟩ := gentype_plain_ret E (gentype E k) c ast hcomp hsup hdata
      exact Or.inr ⟨t, c, hr⟩

/-- A field with the canonical name of the type under construction, a name
that is not empty, resolves to the pointer to the struct under
construction. -/
theorem self_field_slot (E : Env) (fuel : Nat) (c c1 : compile_t) (ast : ast_t)
    (name : String) (t : LLVMTypeRef) (fields : List ast_t) (i : Nat) (f : ast_t)
    (hcomp : composite E ast) (hname : E.genname_type ast = some name)
    (hne : name ≠ "")
    (hfind : find_struct name c.types = none)
    (hok : gentype E (fuel + 1) c ast = .ret (some t, c1))
    (hfields : layout_fields E ast = .ret fields) (hi : fields[i]? = some f)
    (hfcomp : composite E f) (hfname : E.genname_type f = some name) :
    ∃ body, t = .pointer (.struct c.types.length) ∧
      c1.types[c.types.length]? = some ⟨name, some body⟩ ∧
      body[i + 1]? = some (.pointer (.struct c.types.length)) := by
  obtain ⟨fields1, ts, c2, is, ext, hf, hres, _, _, _, hty, ht, _⟩ :=
    gentype_built_some E fuel c c1 ast name t hcomp hname hfind hok
  rw [hfields] at hf
  simp only [Outcome.ret.injEq] at hf
  subst hf
  obtain ⟨ci, ci1, ti, hg, hti, hpre, _⟩ :=
    resolved_in_order_at _ _ c2 fields ts hres i f hi
  have h0 : find_struct name
      ({ c with types := c.types ++ [⟨name, none⟩] } : compile_t).types =
      some c.types.length :=
    find_struct_append_cons_of_none name c.types [] none hne hfind
  have hci : find_struct name ci.types = some c.types.length :=
    find_struct_of_extends E _ ci _ name _
      (resolved_in_order_extends E fuel _ ci _ _ hpre).1 h0
  have hti2 : ti = .pointer (.struct c.types.length) := by
    cases fuel with
    | zero => simp [gentype] at hg
    | succ k =>
      rw [gentype_hit E k ci f name _ hfcomp hfname hci] at hg
      simp only [Outcome.ret.injEq, Prod.mk.injEq, Option.some.injEq] at hg
      exact hg.1.symm
  refine ⟨c.descriptor_ptr :: ts, ht, ?_, ?_⟩
  · rw [hty]; exact getElem?_append_cons_length _ _ _
  · rw [← hti2]; simpa using hti

theorem sample_node_fields (E : Env) (name : String) (ast : ast_t)
    (hE : E = sample_env ∨ E = sample_env_anon)
    (hname : ∀ a, sample_node_uses a → E.genname_type a = some name)
    (h : sample_node_uses ast) :
    composite E ast ∧ E.genname_type ast = some name ∧
    supported_field E ast ∧ def_kind E ast = some TK_CLASS ∧
    ast_id ast = TK_NOMINAL ∧
    layout_fields E ast =
      .ret [nominal_use "Node" 2 (TK_OTHER 5), nominal_use "Node" 2 TK_TAG] := by
  have hn := hname ast h
  rcases hE with rfl | rfl <;> rcases h with rfl | rfl <;>
    exact ⟨Or.inr ⟨rfl, Or.inl rfl⟩, hn,
      Or.inr (Or.inr (Or.inr (Or.inr ⟨rfl, Or.inr (Or.inr (Or.inl rfl))⟩))),
      rfl, rfl, rfl⟩

theorem sample_node_closed (E : Env) (name : String)
    (hE : E = sample_env ∨ E = sample_env_anon)
    (hname : ∀ a, sample_node_uses a → E.genname_type a = some name) :
    closed_universe E [name] sample_node_uses := by
  intro ast hast _
  obtain ⟨_, hn, _, _, _, hlf⟩ := sample_node_fields E name ast hE hname hast
  refine ⟨?_, ?_⟩
  · intro N hN
    rw [hn] at hN
    simp only [Option.some.injEq] at hN
    subst hN
    exact List.mem_singleton.mpr rfl
  · intro fields hf
    rw [hlf] at hf
    simp only [Outcome.ret.injEq] at hf
    subst hf
    intro f hfm
    simp only [List.mem_cons, List.mem_singleton, List.not_mem_nil, or_false] at hfm
    exact hfm

theorem sample_node_well_formed (E : Env) (name : String)
    (hE : E = sample_env ∨ E = sample_env_anon)
    (hname : ∀ a, sample_node_uses a → E.genname_type a = some name) :
    well_formed_universe E sample_node_uses := by
  intro ast hast
  obtain ⟨_, hn, hsup, hk, hid, hlf⟩ := sample_node_fields E name ast hE hname hast
  refine ⟨hsup, ?_, ?_, fun _ => ⟨_, hlf⟩⟩
  · intro _ hd
    rw [hk] at hd
    simp at hd
  · intro ht
    rw [hid] at ht
    simp at ht

theorem sample_node_named (a : ast_t) (h : sample_node_uses a) :
    sample_env.genname_type a = some "Node" := by
  rcases h with rfl | rfl <;> rfl

/-- C16 fails as stated, in two ways. With a `genname_type` that gives the
empty string, the two uses of the self-referential class `Node` of the sample
program are a set of types closed under fields, with one canonical name and
shapes that `gentype.c` handles; the struct that `make_struct` creates for
`Node` is in no name table, the lookup for the field of type `Node` finds
nothing, and `gentype` runs out of every budget, from every state: the
recursion of the source does not end. And with the names of the sample program
and a backend verification that rejects every function, `gentype` on `Node`
returns NULL, not a pointer to a layout. -/
theorem unnamed_cycle_never_returns :
    (closed_universe sample_env_anon [""] sample_node_uses ∧
      well_formed_universe sample_env_anon sample_node_uses ∧
      ∀ (fuel : Nat) (c : compile_t),
        gentype sample_env_anon fuel c (nominal_use "Node" 2 (TK_OTHER 5)) =
          .nofuel) ∧
    ∃ c1, gentype sample_env_reject 2 sample_ctx (nominal_use "Node" 2 (TK_OTHER 5)) =
      .ret (none, c1) := by
  refine ⟨⟨sample_node_closed sample_env_anon "" (Or.inr rfl) (fun _ _ => rfl),
    sample_node_well_formed sample_env_anon "" (Or.inr rfl) (fun _ _ => rfl), ?_⟩,
    _, rfl⟩
  intro fuel
  induction fuel with
  | zero => intro c; rfl
  | succ k ih =>
    intro c
    rw [gentype_composite_eq sample_env_anon k c (nominal_use "Node" 2 (TK_OTHER 5)) ""
      [nominal_use "Node" 2 (TK_OTHER 5), nominal_use "Node" 2 TK_TAG]
      (Or.inr ⟨rfl, Or.inl rfl⟩) rfl (find_struct_empty _) rfl]
    unfold make_struct
    simp only [LLVMStructCreateNamed, make_struct_loop, ih, Outcome.bind_nofuel]

/-- C16, amended: `gentype` terminates on cyclic type graphs whose canonical
names are not empty. On a set of types closed under fields whose composite
types have their canonical names in a finite list `S` without the empty
string, a call of `gentype` with more budget than there are names of `S` not
yet registered does not run out of budget, whatever the cycles among the types
(each construction registers its name before its fields are resolved, so the
number of unregistered names goes down at each nesting); when every type of
the set has a shape that `gentype.c` handles, the call returns. And when in
addition every composite type of the set has a canonical name and the backend
verification accepts every trace function, the call for a type with a field of
its own canonical name (a self-referential class), not yet registered, returns
the pointer to a layout whose slot for that field is the pointer to that same
layout. -/
theorem gentype_terminates (E : Env) (S : List String) (U : ast_t → Prop)
    (hU : closed_universe E S U) (hS0 : "" ∉ S) :
    (∀ (fuel : Nat) (c : compile_t) (ast : ast_t), U ast →
      unregistered S c < fuel →
      gentype E fuel c ast ≠ .nofuel ∧
      (well_formed_universe E U → ∃ r c1, gentype E fuel c ast = .ret (r, c1))) ∧
    (well_formed_universe E U →
      (∀ ast, U ast → composite E ast → (E.genname_type ast).isSome = true) →
      (∀ c k, E.codegen_finishfun c k = true) →
      ∀ (fuel : Nat) (c : compile_t) (ast : ast_t) (name : String)
        (fields : List ast_t) (i : Nat) (f : ast_t),
        U ast → unregistered S c < fuel + 1 →
        composite E ast → E.genname_type ast = some name →
        find_struct name c.types = none →
        layout_fields E ast = .ret fields → fields[i]? = some f →
        composite E f → E.genname_type f = some name →
        ∃ c1 body,
          gentype E (fuel + 1) c ast =
            .ret (some (.pointer (.struct c.types.length)), c1) ∧
          c1.types[c.types.length]? = some ⟨name, some body⟩ ∧
          body[i + 1]? = some (.pointer (.struct c.types.length))) := by
  refine ⟨?_, ?_⟩
  · intro fuel c ast hast hfuel
    have hne := gentype_terminates_aux E S U hU hS0 (unregistered S c) fuel c ast hast
      (Nat.le_refl _) hfuel
    refine ⟨hne, fun hW => ?_⟩
    rcases gentype_returns_or_nofuel E S U hU hW fuel c ast hast with h | h
    · exact absurd h hne
    · exact h
  · intro hW hnamed hfin fuel c ast name fields i f hast hfuel hcomp hname hfind
      hfields hi hfcomp hfname
    have hne := gentype_terminates_aux E S U hU hS0 (unregistered S c) (fuel + 1) c ast
      hast (Nat.le_refl _) hfuel
    have hS := (hU ast hast hcomp).1 name hname
    rcases gentype_returns_some E S U hU hW hnamed hfin (fuel + 1) c ast hast with
      h | ⟨t, c1, hok⟩
    · exact absurd h hne
    · obtain ⟨body, ht, hty, hslot⟩ :=
        self_field_slot E fuel c c1 ast name t fields i f hcomp hname
          (fun e => hS0 (e ▸ hS)) hfind hok hfields hi hfcomp hfname
      exact ⟨c1, body, by rw [hok, ht], hty, hslot⟩

/-- C16, amended, at the self-referential class `Node` of the sample program:
one name is unregistered, a budget of two suffices, and slot 1 of the layout
of `Node` is the pointer to the layout of `Node`. -/
theorem gentype_terminates_witness :
    (gentype sample_env 2 sample_ctx (nominal_use "Node" 2 (TK_OTHER 5)) ≠ .nofuel ∧
      ∃ r c1, gentype sample_env 2 sample_ctx (nominal_use "Node" 2 (TK_OTHER 5)) =
        .ret (r, c1)) ∧
    (∃ c1 body,
      gentype sample_env (1 + 1) sample_ctx (nominal_use "Node" 2 (TK_OTHER 5)) =
        .ret (some (.pointer (.struct sample_ctx.types.length)), c1) ∧
      c1.types[sample_ctx.types.length]? = some ⟨"Node", some body⟩ ∧
      body[0 + 1]? = some (.pointer (.struct sample_ctx.types.length))) :=
  ⟨⟨((gentype_terminates sample_env ["Node"] sample_node_uses
        (sample_node_closed sample_env "Node" (Or.inl rfl) sample_node_named)
        (by decide)).1
        2 sample_ctx (nominal_use "Node" 2 (TK_OTHER 5)) (Or.inl rfl) (by decide)).1,
     ((gentype_terminates sample_env ["Node"] sample_node_uses
        (sample_node_closed sample_env "Node" (Or.inl rfl) sample_node_named)
        (by decide)).1
        2 sample_ctx (nominal_use "Node" 2 (TK_OTHER 5)) (Or.inl rfl) (by decide)).2
        (sample_node_well_formed sample_env "Node" (Or.inl rfl) sample_node_named)⟩,
   (gentype_terminates sample_env ["Node"] sample_node_uses
      (sample_node_closed sample_env "Node" (Or.inl rfl) sample_node_named)
      (by decide)).2
      (sample_node_well_formed sample_env "Node" (Or.inl rfl) sample_node_named)
      (fun ast h _ => by rw [sample_node_named ast h]; rfl)
      (fun _ _ => rfl)
      1 sample_ctx (nominal_use "Node" 2 (TK_OTHER 5)) "Node"
      [nominal_use "Node" 2 (TK_OTHER 5), nominal_use "Node" 2 TK_TAG] 0
      (nominal_use "Node" 2 (TK_OTHER 5))
      (Or.inl rfl) (by decide)
      (Or.inr ⟨rfl, Or.inl rfl⟩) rfl rfl rfl rfl (Or.inr ⟨rfl, Or.inl rfl⟩) rfl⟩

end Ponyc
